import Mathlib

/-!
# Service lifecycle orchestrator (`cli/azd/pkg/project/service_manager.go`)

A shallow embedding of the `serviceManager` of `service_manager.go`.

* Go pointers to stage results are addresses (`Ptr`) into per-type object stores kept in
  the `World`; a nilable pointer is an `Option Ptr`.
* Everything outside the file (service locator, framework and target backends, lifecycle
  event handlers, resource manager, feature manager, operating system) is a collaborator:
  a function of an abstract external state `σ`, collected in `Deps σ`.  Every call the
  service manager makes to a collaborator is appended to `World.trace`.
* A Go function returning `(T, error)` is an action `M σ T` whose outcome is `Res.ok`,
  `Res.err` (the returned error, as its message) or `Res.panic` (a run-time panic: a nil
  dereference or a failed type assertion).
-/

namespace ServiceManager

/-- Address of a heap object. -/
abbrev Ptr := Nat

/-! ## Data model -/

/-- Modelled from the spec: `ExpandableString` (declared outside `service_manager.go`), a
string template; only its `Empty` test is used here. -/
structure ExpandableString where
  template : String
  deriving DecidableEq, Repr

/-- Modelled from the spec: `ExpandableString.Empty`, true when nothing was declared. -/
def ExpandableString.Empty (e : ExpandableString) : Bool := e.template == ""

/-- The fields of `ProjectConfig` read by `service_manager.go`. -/
structure ProjectConfig where
  ResourceGroupName : ExpandableString
  deriving DecidableEq, Repr

/-- The fields of `ServiceConfig` read or written by `service_manager.go`.  `Path` is the
value of the `Path()` method; `DotNetContainerApp` is a nilable pointer. -/
structure ServiceConfig where
  Name : String
  Language : String
  Host : String
  Image : ExpandableString
  Path : String
  ResourceGroupName : ExpandableString
  Project : ProjectConfig
  DotNetContainerApp : Option Ptr
  deriving DecidableEq, Repr

/-- The field of `ServiceBuildResult` used by `service_manager.go`. -/
structure ServiceBuildResult where
  Restore : Option Ptr
  deriving DecidableEq, Repr

/-- The field of `ServicePackageResult` used by `service_manager.go`. -/
structure ServicePackageResult where
  PackagePath : String
  deriving DecidableEq, Repr

/-- The field of `ServiceDeployResult` used by `service_manager.go`. -/
structure ServiceDeployResult where
  Endpoints : List String
  deriving DecidableEq, Repr

/-- The struct `PackageOptions`. -/
structure PackageOptions where
  OutputPath : String
  deriving DecidableEq, Repr

/-- The value built by `environment.NewTargetResource(subscriptionId, resourceGroupName,
resourceName, resourceType)`. -/
structure TargetResource where
  subscriptionId : String
  resourceGroupName : String
  resourceName : String
  resourceType : String
  deriving DecidableEq, Repr

/-- The `FrameworkRequirements` value: `Package.RequireRestore`, `Package.RequireBuild`. -/
structure FrameworkRequirements where
  RequireRestore : Bool
  RequireBuild : Bool
  deriving DecidableEq, Repr

/-- The environment `sm.env`, read through `Name()`, `Getenv`, `GetServiceProperty` and
`GetSubscriptionId()`. -/
structure Environment where
  Name : String
  Getenv : String → String
  GetServiceProperty : String → String → String
  GetSubscriptionId : String

/-- A value of Go type `any` stored in the `ServiceOperationCache`: the untyped nil, a
typed (possibly nil) pointer to one of the four stage results, or a value of another type. -/
inductive AnyValue where
  | untypedNil
  | restore (p : Option Ptr)
  | build (p : Option Ptr)
  | package (p : Option Ptr)
  | deploy (p : Option Ptr)
  | other
  deriving DecidableEq, Repr

/-- A key of the `initialized` tracker (`map[any]bool`): a framework instance or a target
instance.  The two interfaces declare `Package` with different parameter types, so no Go
value is both, and keys of different kinds are never equal. -/
inductive Component where
  | framework (id : Nat)
  | target (id : Nat)
  deriving DecidableEq, Repr

/-- Outcome of `os.Stat`, as far as the code inspects it: `err == nil`,
`errors.Is(err, os.ErrNotExist)`, or another error. -/
inductive StatErr where
  | none
  | notExist
  | other
  deriving DecidableEq, Repr

/-- A call made by the service manager to a collaborator. -/
inductive Call where
  | resolveFramework (name : String)
  | resolveComposite (name : String)
  | resolveTarget (name : String)
  | setSource (composite inner : Nat)
  | containsSwaConfig (path : String)
  | isEnabled (feature : String)
  | frameworkInitialize (fw : Nat) (sc : Ptr)
  | targetInitialize (target : Nat) (sc : Ptr)
  | frameworkRequirements (fw : Nat)
  | frameworkRestore (fw : Nat) (sc : Ptr)
  | frameworkBuild (fw : Nat) (sc : Ptr) (restoreOutput : Option Ptr)
  | frameworkPackage (fw : Nat) (sc : Ptr) (buildOutput : Option Ptr)
  | targetPackage (target : Nat) (sc : Ptr) (frameworkPackageOutput : Option Nat)
  | targetDeploy (target : Nat) (sc : Ptr) (packageResult : Option Ptr)
      (targetResource : Option TargetResource)
  | raiseEvent (sc : Ptr) (name : String)
  | getResourceGroupName (subscriptionId : String) (template : ExpandableString)
  | getTargetResource (subscriptionId : String) (sc : Ptr)
  | getenv (key : String)
  | getServiceProperty (serviceName key : String)
  | osStat (path : String)
  | osMkdirAll (path : String)
  | osOpen (path : String)
  | osCreate (path : String)
  | ioCopy (dst src : String)
  | osRemove (path : String)
  | fileClose (path : String)
  | log (msg : String)
  deriving DecidableEq, Repr

/-- The collaborators and the package-level declarations that `service_manager.go` uses
and that live outside it.  `σ` is the state of the outside world. -/
structure Deps (σ : Type) where
  ServiceLanguageNone : String
  ServiceLanguageDocker : String
  ServiceLanguageSwa : String
  DotNetContainerAppTarget : String
  StaticWebAppTarget : String
  AzureResourceTypeContainerAppEnvironment : String
  /-- The method `ServiceTargetKind.RequiresContainer`. -/
  RequiresContainer : String → Bool
  /-- The function `alpha.IsFeatureKey`: the feature id when the key names an alpha feature. -/
  IsFeatureKey : String → Option String
  /-- The function `alpha.GetEnableCommand`. -/
  GetEnableCommand : String → String
  /-- The method `alphaFeatureManager.IsEnabled`. -/
  IsEnabled : σ → String → Bool × σ
  /-- `serviceLocator.ResolveNamed(name, &frameworkService)`. -/
  resolveFramework : σ → String → Except String Nat × σ
  /-- `serviceLocator.ResolveNamed(name, &compositeFramework)`. -/
  resolveComposite : σ → String → Except String Nat × σ
  /-- `serviceLocator.ResolveNamed(name, &target)`. -/
  resolveTarget : σ → String → Except String Nat × σ
  setSource : σ → Nat → Nat → Unit × σ
  ContainsSwaConfig : σ → String → Except String Bool × σ
  frameworkInitialize : σ → Nat → Ptr → Except String Unit × σ
  targetInitialize : σ → Nat → Ptr → Except String Unit × σ
  frameworkRequirements : σ → Nat → FrameworkRequirements × σ
  /-- `frameworkService.Restore`: `true` for a non-nil result. -/
  frameworkRestore : σ → Nat → Ptr → Except String Bool × σ
  frameworkBuild : σ → Nat → Ptr → Option Ptr → Except String (Option ServiceBuildResult) × σ
  /-- `frameworkService.Package`: the framework package output is passed on opaquely. -/
  frameworkPackage : σ → Nat → Ptr → Option Ptr → Except String (Option Nat) × σ
  targetPackage : σ → Nat → Ptr → Option Nat → Except String (Option ServicePackageResult) × σ
  targetDeploy : σ → Nat → Ptr → Option Ptr → Option TargetResource →
    Except String (Option ServiceDeployResult) × σ
  /-- The handlers registered on the service configuration for an event name. -/
  raiseEvent : σ → Ptr → String → Except String Unit × σ
  GetResourceGroupName : σ → String → ExpandableString → Except String String × σ
  GetTargetResource : σ → String → Ptr → Except String (Option TargetResource) × σ
  osStat : σ → String → StatErr × σ
  osMkdirAll : σ → String → Except String Unit × σ
  osOpen : σ → String → Except String Unit × σ
  osCreate : σ → String → Except String Unit × σ
  ioCopy : σ → String → String → Except String Unit × σ
  osRemove : σ → String → Unit × σ
  fileClose : σ → String → Unit × σ
  /-- `filepath.Ext`, `filepath.Dir`, `filepath.Join` (two elements), `filepath.Base`. -/
  filepathExt : String → String
  filepathDir : String → String
  filepathJoin : String → String → String
  filepathBase : String → String
  /-- `strings.ToUpper`. -/
  ToUpper : String → String
  /-- The text of the error `json.Unmarshal` returns for an input it does not accept, as the
  verb `%v` prints it. -/
  jsonErrorText : String → String

/-- The state: the fields of the `serviceManager` struct (`env`, `operationCache`,
`initialized`), the objects its pointers refer to, the outside world `ext`, and the trace
of collaborator calls made so far.  Collaborators act on `ext` only. -/
structure World (σ : Type) where
  ext : σ
  env : Environment
  operationCache : String → Option AnyValue
  initialized : Ptr → Option (List (Component × Bool))
  configs : Ptr → ServiceConfig
  builds : Ptr → ServiceBuildResult
  packages : Ptr → ServicePackageResult
  deploys : Ptr → ServiceDeployResult
  nextPtr : Ptr
  trace : List Call

/-- Outcome of a Go call together with the state it leaves. -/
inductive Res (ω : Type) (α : Type) where
  | ok (a : α) (w : ω)
  | err (e : String) (w : ω)
  | panic (w : ω)

/-- The state an outcome leaves. -/
def Res.world {ω α : Type} : Res ω α → ω
  | .ok _ w => w
  | .err _ w => w
  | .panic w => w

/-- The value an outcome returns, if it returns one. -/
def Res.value? {ω α : Type} : Res ω α → Option α
  | .ok a _ => some a
  | .err _ _ => none
  | .panic _ => none

/-- The error an outcome returns, if it returns one. -/
def Res.error? {ω α : Type} : Res ω α → Option String
  | .ok _ _ => none
  | .err e _ => some e
  | .panic _ => none

/-- A Go function body: from a state to an outcome. -/
def M (σ : Type) (α : Type) : Type := World σ → Res (World σ) α

/-- Return a value. -/
def M.pure {σ α : Type} (a : α) : M σ α := fun w => .ok a w

/-- Sequencing: an error or a panic of the first action ends the function. -/
def M.bind {σ α β : Type} (m : M σ α) (f : α → M σ β) : M σ β := fun w =>
  match m w with
  | .ok a w1 => f a w1
  | .err e w1 => .err e w1
  | .panic w1 => .panic w1

instance {σ : Type} : Monad (M σ) where
  pure := M.pure
  bind := M.bind

/-- The statement `return nil, fmt.Errorf(...)`. -/
def fail {σ α : Type} (e : String) : M σ α := fun w => .err e w

/-- A run-time panic. -/
def goPanic {σ α : Type} : M σ α := fun w => .panic w

/-- The pattern `if err != nil { return nil, fmt.Errorf("<pre>%w", err) }`. -/
def wrapErr {σ α : Type} (pre : String) (m : M σ α) : M σ α := fun w =>
  match m w with
  | .ok a w1 => .ok a w1
  | .err e w1 => .err (pre ++ e) w1
  | .panic w1 => .panic w1

/-- A deferred call: `cleanup` runs when the rest of the function, `m`, is left. -/
def withDefer {σ α : Type} (cleanup : M σ Unit) (m : M σ α) : M σ α := fun w =>
  match m w with
  | .ok a w1 => .ok a (cleanup w1).world
  | .err e w1 => .err e (cleanup w1).world
  | .panic w1 => .panic (cleanup w1).world

/-- Read the state. -/
def getWorld {σ : Type} : M σ (World σ) := fun w => .ok w w

/-- Call a collaborator that cannot fail. -/
def call {σ α : Type} (c : Call) (f : σ → α × σ) : M σ α := fun w =>
  .ok (f w.ext).1 { w with ext := (f w.ext).2, trace := w.trace ++ [c] }

/-- Call a collaborator that returns `(T, error)`. -/
def callE {σ α : Type} (c : Call) (f : σ → Except String α × σ) : M σ α := fun w =>
  match (f w.ext).1 with
  | .ok a => .ok a { w with ext := (f w.ext).2, trace := w.trace ++ [c] }
  | .error e => .err e { w with ext := (f w.ext).2, trace := w.trace ++ [c] }

/-- Record a read of the environment or a log line. -/
def note {σ : Type} (c : Call) : M σ Unit := fun w =>
  .ok () { w with trace := w.trace ++ [c] }

/-! ## Operation cache and initialization tracker -/

def ServiceEventRestore : String := "restore"

def ServiceEventBuild : String := "build"

def ServiceEventPackage : String := "package"

def ServiceEventDeploy : String := "deploy"

/-- The key `fmt.Sprintf("%s:%s:%s", sm.env.Name(), serviceConfig.Name, operationName)`. -/
def cacheKey (envName serviceName operationName : String) : String :=
  envName ++ ":" ++ serviceName ++ ":" ++ operationName

/-- The method `getOperationResult`: `none` when the key is absent (`ok == false`). -/
def getOperationResult {σ : Type} (sc : Ptr) (operationName : String) : M σ (Option AnyValue) :=
  fun w => .ok (w.operationCache (cacheKey w.env.Name (w.configs sc).Name operationName)) w

/-- The method `setOperationResult`. -/
def setOperationResult {σ : Type} (sc : Ptr) (operationName : String) (result : AnyValue) :
    M σ Unit := fun w =>
  let key := cacheKey w.env.Name (w.configs sc).Name operationName
  .ok () { w with operationCache := Function.update w.operationCache key (some result) }

/-- The test `ok && cachedResult != nil` on what `getOperationResult` returned. -/
def usable : Option AnyValue → Option AnyValue
  | some .untypedNil => none
  | some v => some v
  | none => none

/-- The type assertion `cachedResult.(*ServiceRestoreResult)`. -/
def assertRestore {σ : Type} : AnyValue → M σ (Option Ptr)
  | .restore p => pure p
  | _ => goPanic

/-- The type assertion `cachedResult.(*ServiceBuildResult)`. -/
def assertBuild {σ : Type} : AnyValue → M σ (Option Ptr)
  | .build p => pure p
  | _ => goPanic

/-- The type assertion `cachedResult.(*ServicePackageResult)`. -/
def assertPackage {σ : Type} : AnyValue → M σ (Option Ptr)
  | .package p => pure p
  | _ => goPanic

/-- The type assertion `cachedResult.(*ServiceDeployResult)`. -/
def assertDeploy {σ : Type} : AnyValue → M σ (Option Ptr)
  | .deploy p => pure p
  | _ => goPanic

/-- The map read `componentMap[component]`, giving `(ok, has)` as an option. -/
def componentLookup (component : Component) : List (Component × Bool) → Option Bool
  | [] => none
  | (k, v) :: rest => if k = component then some v else componentLookup component rest

/-- The map write `componentMap[component] = value`. -/
def componentInsert (component : Component) (value : Bool) (m : List (Component × Bool)) :
    List (Component × Bool) :=
  (component, value) :: m.filter (fun kv => !decide (kv.1 = component))

/-- The method `isComponentInitialized`. -/
def isComponentInitialized {σ : Type} (sc : Ptr) (component : Component) : M σ Bool := fun w =>
  match w.initialized sc with
  | some componentMap =>
    if componentMap.length > 0 then
      match componentLookup component componentMap with
      | some true => .ok true w
      | _ => .ok false w
    else
      .ok false { w with initialized := Function.update w.initialized sc (some []) }
  | none => .ok false { w with initialized := Function.update w.initialized sc (some []) }

/-- The statement `sm.initialized[serviceConfig][component] = true`; writing to the nil map
of an absent outer key panics. -/
def markInitialized {σ : Type} (sc : Ptr) (component : Component) : M σ Unit := fun w =>
  match w.initialized sc with
  | some componentMap =>
    .ok () { w with initialized :=
      Function.update w.initialized sc (some (componentInsert component true componentMap)) }
  | none => .panic w

/-- The cache check that opens each of `Restore`, `Build`, `Package` and `Deploy`:
`cachedResult, ok := sm.getOperationResult(serviceConfig, name)`, then
`if ok && cachedResult != nil { return cachedResult.(*T), nil }`; `miss` is the rest of
the method. -/
def cachedOr {σ : Type} (sc : Ptr) (operationName : String)
    (assert : AnyValue → M σ (Option Ptr)) (miss : M σ (Option Ptr)) : M σ (Option Ptr) := do
  let cachedResult ← getOperationResult sc operationName
  match usable cachedResult with
  | some v => assert v
  | none => miss

/-! ## Capability resolver -/

/-- The method `GetServiceTarget`. -/
def GetServiceTarget {σ : Type} (d : Deps σ) (sc : Ptr) : M σ Nat := do
  let w ← getWorld
  let host := (w.configs sc).Host
  (match d.IsFeatureKey host with
  | some alphaFeatureId => do
    let enabled ← call (.isEnabled alphaFeatureId) (fun s => d.IsEnabled s alphaFeatureId)
    if enabled then pure ()
    else
      fail ("service host '" ++ host ++
        "' is currently in alpha and needs to be enabled explicitly. Run `" ++
        d.GetEnableCommand alphaFeatureId ++ "` to enable the feature.")
  | none => pure ())
  wrapErr ("failed to resolve service host '" ++ host ++ "' for service '" ++
      (w.configs sc).Name ++ "', ")
    (callE (.resolveTarget host) (fun s => d.resolveTarget s host))

/-- The statement `serviceConfig.Language = ServiceLanguageDocker` under its guard (lines
538 to 540). -/
def defaultImageLanguage {σ : Type} (d : Deps σ) (sc : Ptr) : M σ Unit := fun w =>
  if (w.configs sc).Language = d.ServiceLanguageNone ∧ (w.configs sc).Image.Empty = false then
    .ok () { w with configs :=
      Function.update w.configs sc { (w.configs sc) with Language := d.ServiceLanguageDocker } }
  else .ok () w

/-- The composite lookup of `GetFrameworkService` (lines 551 to 580): the composite
framework, or `none` when no wrapper applies. -/
def resolveCompositeFramework {σ : Type} (d : Deps σ) (cfg : ServiceConfig) : M σ (Option Nat) :=
  if d.RequiresContainer cfg.Host = true ∧
      (cfg.Language ≠ d.ServiceLanguageDocker ∧ cfg.Language ≠ d.ServiceLanguageNone) then do
    let c ← wrapErr ("failed resolving composite framework service for '" ++ cfg.Name ++
        "', language '" ++ cfg.Language ++ "': ")
      (callE (.resolveComposite d.ServiceLanguageDocker)
        (fun s => d.resolveComposite s d.ServiceLanguageDocker))
    pure (some c)
  else if cfg.Host = d.StaticWebAppTarget then do
    let withSwaConfig ← wrapErr "checking for swa-cli.config.json: "
      (callE (.containsSwaConfig cfg.Path) (fun s => d.ContainsSwaConfig s cfg.Path))
    if withSwaConfig then do
      let c ← wrapErr ("failed resolving composite framework service for '" ++ cfg.Name ++
          "', language '" ++ cfg.Language ++ "': ")
        (callE (.resolveComposite d.ServiceLanguageSwa)
          (fun s => d.resolveComposite s d.ServiceLanguageSwa))
      note (.log
        "Using swa-cli for build and deploy because swa-cli.config.json was found in the service path")
      pure (some c)
    else pure none
  else pure none

/-- The method `GetFrameworkService`. -/
def GetFrameworkService {σ : Type} (d : Deps σ) (sc : Ptr) : M σ Nat := do
  defaultImageLanguage d sc
  let w ← getWorld
  let cfg := w.configs sc
  let frameworkService ← wrapErr ("failed to resolve language '" ++ cfg.Language ++
      "' for service '" ++ cfg.Name ++ "', ")
    (callE (.resolveFramework cfg.Language) (fun s => d.resolveFramework s cfg.Language))
  let compositeFramework ← resolveCompositeFramework d cfg
  match compositeFramework with
  | some c => do
    call (.setSource c frameworkService) (fun s => d.setSource s c frameworkService)
    pure c
  | none => pure frameworkService

/-! ## Initialization -/

/-- The method `Initialize`. -/
def Initialize {σ : Type} (d : Deps σ) (sc : Ptr) : M σ Unit := do
  let frameworkService ← wrapErr "getting framework service: " (GetFrameworkService d sc)
  let serviceTarget ← wrapErr "getting service target: " (GetServiceTarget d sc)
  let ok ← isComponentInitialized sc (.framework frameworkService)
  (if ok then pure () else do
    callE (.frameworkInitialize frameworkService sc)
      (fun s => d.frameworkInitialize s frameworkService sc)
    markInitialized sc (.framework frameworkService))
  let ok ← isComponentInitialized sc (.target serviceTarget)
  (if ok then pure () else do
    callE (.targetInitialize serviceTarget sc) (fun s => d.targetInitialize s serviceTarget sc)
    markInitialized sc (.target serviceTarget))

/-! ## Lifecycle event pipeline -/

/-- Modelled from the spec: the event notifier `serviceConfig.Invoke(ctx, name, args, body)`
(declared outside `service_manager.go`), which "runs `body`, firing pre/post notifications
around it; a pre-notification may itself fail and abort `body`". -/
def Invoke {σ α : Type} (d : Deps σ) (sc : Ptr) (eventName : String) (body : M σ α) : M σ α := do
  callE (.raiseEvent sc ("pre" ++ eventName)) (fun s => d.raiseEvent s sc ("pre" ++ eventName))
  let result ← body
  callE (.raiseEvent sc ("post" ++ eventName)) (fun s => d.raiseEvent s sc ("post" ++ eventName))
  pure result

/-- The function `runCommand`. -/
def runCommand {σ α : Type} (d : Deps σ) (eventName : String) (sc : Ptr) (fn : M σ α) : M σ α :=
  Invoke d sc eventName fn

/-! ## Backend calls

A backend that returns a non-nil result returns a newly allocated object. -/

/-- The expression `&ServiceRestoreResult{}`; also the allocation of a restore result a
framework returns. -/
def allocRestore {σ : Type} : M σ Ptr := fun w =>
  .ok w.nextPtr { w with nextPtr := w.nextPtr + 1 }

/-- Allocation of a `ServiceBuildResult`. -/
def allocBuild {σ : Type} (v : ServiceBuildResult) : M σ Ptr := fun w =>
  .ok w.nextPtr { w with builds := Function.update w.builds w.nextPtr v, nextPtr := w.nextPtr + 1 }

/-- Allocation of a `ServicePackageResult`. -/
def allocPackage {σ : Type} (v : ServicePackageResult) : M σ Ptr := fun w =>
  .ok w.nextPtr
    { w with packages := Function.update w.packages w.nextPtr v, nextPtr := w.nextPtr + 1 }

/-- Allocation of a `ServiceDeployResult`. -/
def allocDeploy {σ : Type} (v : ServiceDeployResult) : M σ Ptr := fun w =>
  .ok w.nextPtr { w with deploys := Function.update w.deploys w.nextPtr v, nextPtr := w.nextPtr + 1 }

/-- The call `frameworkService.Restore(ctx, serviceConfig, progress)`. -/
def frameworkRestore {σ : Type} (d : Deps σ) (fw : Nat) (sc : Ptr) : M σ (Option Ptr) := do
  let r ← callE (.frameworkRestore fw sc) (fun s => d.frameworkRestore s fw sc)
  if r then do
    let p ← allocRestore
    pure (some p)
  else pure none

/-- The call `frameworkService.Build(ctx, serviceConfig, restoreOutput, progress)`. -/
def frameworkBuild {σ : Type} (d : Deps σ) (fw : Nat) (sc : Ptr) (restoreOutput : Option Ptr) :
    M σ (Option Ptr) := do
  let r ← callE (.frameworkBuild fw sc restoreOutput)
    (fun s => d.frameworkBuild s fw sc restoreOutput)
  match r with
  | some v => do
    let p ← allocBuild v
    pure (some p)
  | none => pure none

/-- The call `serviceTarget.Package(ctx, serviceConfig, frameworkPackageResult, progress)`. -/
def targetPackage {σ : Type} (d : Deps σ) (target : Nat) (sc : Ptr)
    (frameworkPackageResult : Option Nat) : M σ (Option Ptr) := do
  let r ← callE (.targetPackage target sc frameworkPackageResult)
    (fun s => d.targetPackage s target sc frameworkPackageResult)
  match r with
  | some v => do
    let p ← allocPackage v
    pure (some p)
  | none => pure none

/-- The call `serviceTarget.Deploy(ctx, serviceConfig, packageResult, targetResource,
progress)`. -/
def targetDeploy {σ : Type} (d : Deps σ) (target : Nat) (sc : Ptr) (packageResult : Option Ptr)
    (targetResource : Option TargetResource) : M σ (Option Ptr) := do
  let r ← callE (.targetDeploy target sc packageResult targetResource)
    (fun s => d.targetDeploy s target sc packageResult targetResource)
  match r with
  | some v => do
    let p ← allocDeploy v
    pure (some p)
  | none => pure none

/-! ## Stage orchestrator -/

/-- The method `Restore`. -/
def Restore {σ : Type} (d : Deps σ) (sc : Ptr) : M σ (Option Ptr) :=
  cachedOr sc ServiceEventRestore assertRestore (do
    let frameworkService ← wrapErr "getting framework services: " (GetFrameworkService d sc)
    let w ← getWorld
    let restoreResult ← wrapErr ("failed restoring service '" ++ (w.configs sc).Name ++ "': ")
      (runCommand d ServiceEventRestore sc (frameworkRestore d frameworkService sc))
    setOperationResult sc ServiceEventRestore (.restore restoreResult)
    pure restoreResult)

/-- The predecessor lookup shared by `Build`, `Package` and `Deploy`: when no output of the
previous stage was supplied, take a usable cached one. -/
def fromCache {σ : Type} (sc : Ptr) (operationName : String)
    (assert : AnyValue → M σ (Option Ptr)) (supplied : Option Ptr) : M σ (Option Ptr) :=
  match supplied with
  | some p => pure (some p)
  | none => cachedOr sc operationName assert (pure none)

/-- The method `Build`. -/
def Build {σ : Type} (d : Deps σ) (sc : Ptr) (restoreOutput : Option Ptr) : M σ (Option Ptr) :=
  cachedOr sc ServiceEventBuild assertBuild (do
    let restoreOutput ← fromCache sc ServiceEventRestore assertRestore restoreOutput
    let frameworkService ← wrapErr "getting framework services: " (GetFrameworkService d sc)
    let w ← getWorld
    let buildResult ← wrapErr ("failed building service '" ++ (w.configs sc).Name ++ "': ")
      (runCommand d ServiceEventBuild sc (frameworkBuild d frameworkService sc restoreOutput))
    setOperationResult sc ServiceEventBuild (.build buildResult)
    pure buildResult)

/-- The function `moveFile`; the three `defer` statements run in reverse order when the
function is left. -/
def moveFile {σ : Type} (d : Deps σ) (sourcePath destinationPath : String) : M σ Unit := do
  wrapErr "opening source file: " (callE (.osOpen sourcePath) (fun s => d.osOpen s sourcePath))
  withDefer (call (.fileClose sourcePath) (fun s => d.fileClose s sourcePath)) (do
    wrapErr "creating destination file: "
      (callE (.osCreate destinationPath) (fun s => d.osCreate s destinationPath))
    withDefer (call (.fileClose destinationPath) (fun s => d.fileClose s destinationPath)) (do
      wrapErr "copying file: " (callE (.ioCopy destinationPath sourcePath)
        (fun s => d.ioCopy s destinationPath sourcePath))
      withDefer (call (.osRemove sourcePath) (fun s => d.osRemove s sourcePath)) (pure ())))

/-- The assignment `buildOutput.Restore = restoreResult`. -/
def setBuildRestore {σ : Type} (b : Ptr) (restoreResult : Option Ptr) : M σ Unit := fun w =>
  .ok () { w with builds := Function.update w.builds b { (w.builds b) with Restore := restoreResult } }

/-- The assignment `packageResult.PackagePath = destFilePath`. -/
def setPackagePath {σ : Type} (p : Ptr) (destFilePath : String) : M σ Unit := fun w =>
  .ok () { w with
    packages := Function.update w.packages p { (w.packages p) with PackagePath := destFilePath } }

/-- The assignment `deployResult.Endpoints = overriddenEndpoints`. -/
def setDeployEndpoints {σ : Type} (p : Ptr) (endpoints : List String) : M σ Unit := fun w =>
  .ok () { w with deploys := Function.update w.deploys p { (w.deploys p) with Endpoints := endpoints } }

/-- The build step of `Package` (lines 325 to 341): the build output handed to the
framework.  Assigning `buildOutput.Restore` through a nil pointer panics. -/
def Package.buildStep {σ : Type} (d : Deps σ) (sc : Ptr) (buildOutput : Option Ptr)
    (requireBuild : Bool) (restoreResult : Option Ptr) : M σ (Option Ptr) := do
  let fresh ← allocBuild { Restore := none }
  let buildResult ←
    (if requireBuild && buildOutput.isNone then Build d sc restoreResult else pure (some fresh))
  match buildOutput with
  | some b => pure (some b)
  | none =>
    match buildResult with
    | some b => do
      setBuildRestore b restoreResult
      pure (some b)
    | none => goPanic

/-- The first part of `Package` on a cache miss (lines 286 to 364): the predecessor stages,
then `Framework.Package` and `Target.Package` inside the package event. -/
def Package.produce {σ : Type} (d : Deps σ) (sc : Ptr) (buildOutput : Option Ptr) :
    M σ (Option Ptr) := do
  let buildOutput ← fromCache sc ServiceEventBuild assertBuild buildOutput
  let frameworkService ← wrapErr "getting framework service: " (GetFrameworkService d sc)
  let serviceTarget ← wrapErr "getting service target: " (GetServiceTarget d sc)
  let restoreFresh ← allocRestore
  let frameworkRequirements ← call (.frameworkRequirements frameworkService)
    (fun s => d.frameworkRequirements s frameworkService)
  let w ← getWorld
  let needsRestore : Bool :=
    match buildOutput with
    | none => true
    | some b => decide ((w.builds b).Restore = none)
  let restoreResult ←
    (if frameworkRequirements.RequireRestore && needsRestore then Restore d sc
    else pure (some restoreFresh))
  let buildOutput ← Package.buildStep d sc buildOutput frameworkRequirements.RequireBuild
    restoreResult
  let w ← getWorld
  wrapErr ("failed packaging service '" ++ (w.configs sc).Name ++ "': ")
    (Invoke d sc ServiceEventPackage (do
      let frameworkPackageResult ← callE (.frameworkPackage frameworkService sc buildOutput)
        (fun s => d.frameworkPackage s frameworkService sc buildOutput)
      let serviceTargetPackageResult ← targetPackage d serviceTarget sc frameworkPackageResult
      setOperationResult sc ServiceEventPackage (.package serviceTargetPackageResult)
      pure serviceTargetPackageResult))

/-- The value of `destFilePath` (lines 375 to 382): the output path itself when it has a
file extension (`isFilePath`), else the output path joined with the base name of the
package path. -/
def Package.destFilePath {σ : Type} (d : Deps σ) (outputPath packagePath : String) : String :=
  if d.filepathExt outputPath ≠ "" then outputPath
  else d.filepathJoin outputPath (d.filepathBase packagePath)

/-- The value of `destDirectory` (lines 375 to 382). -/
def Package.destDirectory {σ : Type} (d : Deps σ) (outputPath : String) : String :=
  if d.filepathExt outputPath ≠ "" then d.filepathDir outputPath else outputPath

/-- The second part of `Package` (lines 366 to 402): relocation of a file artifact to the
requested output path.  Reading `packageResult.PackagePath` through a nil pointer panics. -/
def Package.relocate {σ : Type} (d : Deps σ) (packageResult : Option Ptr)
    (options : PackageOptions) : M σ (Option Ptr) :=
  match packageResult with
  | none => goPanic
  | some p => do
    let w ← getWorld
    let packagePath := (w.packages p).PackagePath
    let statErr ← call (.osStat packagePath) (fun s => d.osStat s packagePath)
    if statErr = StatErr.none ∧ options.OutputPath ≠ "" then do
      let destFilePath := Package.destFilePath d options.OutputPath packagePath
      let destDirectory := Package.destDirectory d options.OutputPath
      let dirErr ← call (.osStat destDirectory) (fun s => d.osStat s destDirectory)
      (if dirErr = StatErr.notExist then
        wrapErr ("failed creating output directory '" ++ destDirectory ++ "': ")
          (callE (.osMkdirAll destDirectory) (fun s => d.osMkdirAll s destDirectory))
      else pure ())
      wrapErr ("failed moving package file '" ++ packagePath ++ "' to '" ++ destFilePath ++ "': ")
        (moveFile d packagePath destFilePath)
      setPackagePath p destFilePath
      pure (some p)
    else pure (some p)

/-- The method `Package`. -/
def Package {σ : Type} (d : Deps σ) (sc : Ptr) (buildOutput : Option Ptr)
    (options : Option PackageOptions) : M σ (Option Ptr) :=
  cachedOr sc ServiceEventPackage assertPackage (do
    let packageResult ← Package.produce d sc buildOutput
    Package.relocate d packageResult (options.getD { OutputPath := "" }))

/-! ## JSON decoding of the endpoint override

`json.Unmarshal([]byte(s), &endpoints)` with `endpoints` a nil `[]string`, following Go's
`encoding/json`: the input is first checked for syntax; a syntactically valid input is then
decoded as far as possible, a value that does not fit its target being skipped and the
earliest such mismatch returned as the error. -/

/-- A JSON value (numbers carry no payload: it is never used). -/
inductive Json where
  | null
  | bool (b : Bool)
  | num
  | str (s : String)
  | arr (items : List Json)
  | obj (members : List (String × Json))

/-- Skip JSON white space: space, tab, carriage return, line feed. -/
def skipWs : List Char → List Char
  | [] => []
  | c :: cs => if c = ' ' ∨ c = '\t' ∨ c = '\r' ∨ c = '\n' then skipWs cs else c :: cs

/-- Value of a hexadecimal digit. -/
def hexVal (c : Char) : Option Nat :=
  if '0' ≤ c ∧ c ≤ '9' then some (c.toNat - '0'.toNat)
  else if 'a' ≤ c ∧ c ≤ 'f' then some (c.toNat - 'a'.toNat + 10)
  else if 'A' ≤ c ∧ c ≤ 'F' then some (c.toNat - 'A'.toNat + 10)
  else none

/-- The four hexadecimal digits of a `\u` escape. -/
def hex4 : List Char → Option (Nat × List Char)
  | a :: b :: c :: e :: rest =>
    match hexVal a, hexVal b, hexVal c, hexVal e with
    | some x, some y, some z, some u => some (((x * 16 + y) * 16 + z) * 16 + u, rest)
    | _, _, _, _ => none
  | _ => none

/-- The rune of a `\u` escape whose code unit is `rr`, given the input after it: a
surrogate followed by a matching low surrogate escape is the pair's code point (and the
second escape is consumed), any other surrogate is U+FFFD. -/
def escapedRune (rr : Nat) (rest : List Char) : Char × List Char :=
  if 0xD800 ≤ rr ∧ rr < 0xE000 then
    match rest with
    | '\\' :: 'u' :: more =>
      match hex4 more with
      | some (rr1, rest1) =>
        if rr < 0xDC00 ∧ 0xDC00 ≤ rr1 ∧ rr1 < 0xE000 then
          (Char.ofNat (0x10000 + (rr - 0xD800) * 0x400 + (rr1 - 0xDC00)), rest1)
        else (Char.ofNat 0xFFFD, rest)
      | none => (Char.ofNat 0xFFFD, rest)
    | _ => (Char.ofNat 0xFFFD, rest)
  else (Char.ofNat rr, rest)

/-- The body of a string literal, after the opening quote; `acc` holds the characters read
so far, last first. -/
def parseStringBody : Nat → List Char → List Char → Option (String × List Char)
  | 0, _, _ => none
  | _ + 1, [], _ => none
  | n + 1, c :: cs, acc =>
    if c = '"' then some (String.mk acc.reverse, cs)
    else if c = '\\' then
      match cs with
      | '"' :: r => parseStringBody n r ('"' :: acc)
      | '\\' :: r => parseStringBody n r ('\\' :: acc)
      | '/' :: r => parseStringBody n r ('/' :: acc)
      | 'b' :: r => parseStringBody n r (Char.ofNat 8 :: acc)
      | 'f' :: r => parseStringBody n r (Char.ofNat 12 :: acc)
      | 'n' :: r => parseStringBody n r ('\n' :: acc)
      | 'r' :: r => parseStringBody n r ('\r' :: acc)
      | 't' :: r => parseStringBody n r ('\t' :: acc)
      | 'u' :: r =>
        match hex4 r with
        | some (rr, rest) => parseStringBody n (escapedRune rr rest).2 ((escapedRune rr rest).1 :: acc)
        | none => none
      | _ => none
    else if c.toNat < 0x20 then none
    else parseStringBody n cs (c :: acc)

/-- A string literal starting at its opening quote. -/
def parseString (cs : List Char) : Option (String × List Char) :=
  match cs with
  | '"' :: r => parseStringBody (r.length + 1) r []
  | _ => none

/-- Drop leading decimal digits. -/
def dropDigits : List Char → List Char
  | [] => []
  | c :: cs => if c.isDigit then dropDigits cs else c :: cs

/-- The exponent part of a number, if any. -/
def parseExponent (cs : List Char) : Option (List Char) :=
  match cs with
  | c :: r =>
    if c = 'e' ∨ c = 'E' then
      let r1 := match r with
        | '+' :: x => x
        | '-' :: x => x
        | _ => r
      match r1 with
      | e :: x => if e.isDigit then some (dropDigits x) else none
      | [] => none
    else some cs
  | [] => some cs

/-- The fraction and exponent parts of a number, if any. -/
def parseFraction (cs : List Char) : Option (List Char) :=
  match cs with
  | '.' :: r =>
    match r with
    | e :: x => if e.isDigit then parseExponent (dropDigits x) else none
    | [] => none
  | _ => parseExponent cs

/-- A number literal: the input after it. -/
def parseNumber (cs : List Char) : Option (List Char) :=
  let body := match cs with
    | '-' :: r => r
    | _ => cs
  match body with
  | c :: r =>
    if c = '0' then parseFraction r
    else if c.isDigit then parseFraction (dropDigits r)
    else none
  | [] => none

/-- The constant `maxNestingDepth` of the scanner of `encoding/json`. -/
def maxNestingDepth : Nat := 10000

mutual

/-- A JSON value, with leading white space.  The first argument is fuel (the callers give
more than the input can use); `depth` is the number of arrays and objects open around the
value: the scanner rejects an opening bracket or brace that makes it exceed
`maxNestingDepth` ("exceeded max depth"). -/
def parseValue : Nat → Nat → List Char → Option (Json × List Char)
  | 0, _, _ => none
  | n + 1, depth, cs =>
    match skipWs cs with
    | 'n' :: 'u' :: 'l' :: 'l' :: r => some (.null, r)
    | 't' :: 'r' :: 'u' :: 'e' :: r => some (.bool true, r)
    | 'f' :: 'a' :: 'l' :: 's' :: 'e' :: r => some (.bool false, r)
    | '"' :: r =>
      match parseString ('"' :: r) with
      | some (s, rest) => some (.str s, rest)
      | none => none
    | '[' :: r =>
      if maxNestingDepth < depth + 1 then none
      else
        match skipWs r with
        | ']' :: rest => some (.arr [], rest)
        | _ =>
          match parseElems n (depth + 1) r with
          | some (items, rest) => some (.arr items, rest)
          | none => none
    | '{' :: r =>
      if maxNestingDepth < depth + 1 then none
      else
        match skipWs r with
        | '}' :: rest => some (.obj [], rest)
        | _ =>
          match parseMembers n (depth + 1) r with
          | some (members, rest) => some (.obj members, rest)
          | none => none
    | c :: r =>
      match parseNumber (c :: r) with
      | some rest => some (.num, rest)
      | none => none
    | [] => none

/-- The elements of a non-empty array, up to and including the closing bracket. -/
def parseElems : Nat → Nat → List Char → Option (List Json × List Char)
  | 0, _, _ => none
  | n + 1, depth, cs =>
    match parseValue n depth cs with
    | some (v, r) =>
      match skipWs r with
      | ',' :: r1 =>
        match parseElems n depth r1 with
        | some (vs, rest) => some (v :: vs, rest)
        | none => none
      | ']' :: rest => some ([v], rest)
      | _ => none
    | none => none

/-- The members of a non-empty object, up to and including the closing brace. -/
def parseMembers : Nat → Nat → List Char → Option (List (String × Json) × List Char)
  | 0, _, _ => none
  | n + 1, depth, cs =>
    match parseString (skipWs cs) with
    | some (k, r) =>
      match skipWs r with
      | ':' :: r1 =>
        match parseValue n depth r1 with
        | some (v, r2) =>
          match skipWs r2 with
          | ',' :: r3 =>
            match parseMembers n depth r3 with
            | some (ms, rest) => some ((k, v) :: ms, rest)
            | none => none
          | '}' :: rest => some ([(k, v)], rest)
          | _ => none
        | none => none
      | _ => none
    | none => none

end

/-- The syntax check and parse of a whole input: one value surrounded by white space. -/
def parseJson (data : String) : Option Json :=
  match parseValue (2 * data.length + 2) 0 data.data with
  | some (v, rest) => if skipWs rest = [] then some v else none
  | none => none

/-- Decoding of one array element into a `string` slot: the string for a string, the zero
value left in place for `null`, and the zero value with a type error for anything else. -/
def decodeElement : Json → String × Bool
  | .str s => (s, false)
  | .null => ("", false)
  | _ => ("", true)

/-- Decoding of a parsed value into a nil `[]string`: the slice and whether an error is
returned. -/
def decodeStringSlice : Json → List String × Bool
  | .arr items => (items.map (fun j => (decodeElement j).1), items.any (fun j => (decodeElement j).2))
  | .null => ([], false)
  | _ => ([], true)

/-- The call `json.Unmarshal([]byte(data), &endpoints)`: the value of `endpoints` after the
call and whether `err != nil`. -/
def jsonUnmarshalStrings (data : String) : List String × Bool :=
  match parseJson data with
  | some j => decodeStringSlice j
  | none => ([], true)

/-! ## Deploy -/

/-- The function `OverriddenEndpoints`. -/
def OverriddenEndpoints {σ : Type} (d : Deps σ) (sc : Ptr) : M σ (List String) := do
  let w ← getWorld
  let name := (w.configs sc).Name
  note (.getServiceProperty name "ENDPOINTS")
  let overriddenEndpoints := w.env.GetServiceProperty name "ENDPOINTS"
  if overriddenEndpoints ≠ "" then do
    (if (jsonUnmarshalStrings overriddenEndpoints).2 then
      note (.log ("failed to unmarshal endpoints override for service '" ++ name ++
        "' as JSON array of strings: " ++ d.jsonErrorText overriddenEndpoints ++
        ", skipping override"))
    else pure ())
    pure (jsonUnmarshalStrings overriddenEndpoints).1
  else pure []

/-- The call `strings.Split(s, sep)` for a one-character separator. -/
def stringsSplitChars (sep : Char) : List Char → List (List Char)
  | [] => [[]]
  | c :: cs =>
    if c = sep then [] :: stringsSplitChars sep cs
    else
      match stringsSplitChars sep cs with
      | h :: t => (c :: h) :: t
      | [] => [[c]]

/-- The expression `parts[len(parts)-1]` for `parts := strings.Split(s, "/")`. -/
def lastSegment (s : String) : String :=
  String.mk (((stringsSplitChars '/' s.data).getLast?).getD [])

/-- The destination resolution of `Deploy` (lines 431 to 479). -/
def Deploy.targetResource {σ : Type} (d : Deps σ) (sc : Ptr) : M σ (Option TargetResource) := do
  let w ← getWorld
  let cfg := w.configs sc
  if cfg.Host = d.DotNetContainerAppTarget then do
    note (.getServiceProperty cfg.Name "CONTAINER_ENVIRONMENT_NAME")
    let explicitName := w.env.GetServiceProperty cfg.Name "CONTAINER_ENVIRONMENT_NAME"
    let containerEnvName ←
      (if explicitName = "" ∧ cfg.DotNetContainerApp = none then do
        note (.getenv "AZURE_CONTAINER_APPS_ENVIRONMENT_ID")
        let envId := w.env.Getenv "AZURE_CONTAINER_APPS_ENVIRONMENT_ID"
        if envId = "" then
          fail ("could not determine container app environment for service " ++ cfg.Name ++
            ", have you set AZURE_CONTAINER_ENVIRONMENT_NAME or SERVICE_" ++ d.ToUpper cfg.Name ++
            "_CONTAINER_ENVIRONMENT_NAME as an output of your infrastructure?")
        else pure (lastSegment envId)
      else pure explicitName)
    let resourceGroupNameTemplate :=
      if cfg.ResourceGroupName.Empty then cfg.Project.ResourceGroupName
      else cfg.ResourceGroupName
    let resourceGroupName ← wrapErr "getting resource group name: "
      (callE (.getResourceGroupName w.env.GetSubscriptionId resourceGroupNameTemplate)
        (fun s => d.GetResourceGroupName s w.env.GetSubscriptionId resourceGroupNameTemplate))
    pure (some {
      subscriptionId := w.env.GetSubscriptionId
      resourceGroupName := resourceGroupName
      resourceName := containerEnvName
      resourceType := d.AzureResourceTypeContainerAppEnvironment })
  else
    wrapErr "getting target resource: "
      (callE (.getTargetResource w.env.GetSubscriptionId sc)
        (fun s => d.GetTargetResource s w.env.GetSubscriptionId sc))

/-- The endpoint override of `Deploy` (lines 496 to 499); assigning through a nil
`deployResult` panics. -/
def Deploy.applyOverride {σ : Type} (d : Deps σ) (sc : Ptr) (deployResult : Option Ptr) :
    M σ Unit := do
  let overriddenEndpoints ← OverriddenEndpoints d sc
  if overriddenEndpoints.length > 0 then
    match deployResult with
    | some p => setDeployEndpoints p overriddenEndpoints
    | none => goPanic
  else pure ()

/-- The method `Deploy`. -/
def Deploy {σ : Type} (d : Deps σ) (sc : Ptr) (packageResult : Option Ptr) : M σ (Option Ptr) :=
  cachedOr sc ServiceEventDeploy assertDeploy (do
    let packageResult ← fromCache sc ServiceEventPackage assertPackage packageResult
    let serviceTarget ← wrapErr "getting service target: " (GetServiceTarget d sc)
    let targetResource ← Deploy.targetResource d sc
    let w ← getWorld
    let deployResult ← wrapErr ("failed deploying service '" ++ (w.configs sc).Name ++ "': ")
      (runCommand d ServiceEventDeploy sc
        (targetDeploy d serviceTarget sc packageResult targetResource))
    Deploy.applyOverride d sc deployResult
    setOperationResult sc ServiceEventDeploy (.deploy deployResult)
    pure deployResult)

/-! ## Relations between states -/

/-- A string without the separator `:`. -/
def colonFree (s : String) : Prop := ':' ∉ s.data

instance (s : String) : Decidable (colonFree s) := by
  unfold colonFree
  exact inferInstance

/-- The collaborator a call goes to. -/
inductive CallKind where
  | locator
  | composite
  | config
  | initHook
  | framework
  | target
  | event
  | destination
  | envRead
  | os
  | log
  deriving DecidableEq, Repr

/-- The collaborator a call goes to. -/
def Call.kind : Call → CallKind
  | .resolveFramework _ => .locator
  | .resolveComposite _ => .locator
  | .resolveTarget _ => .locator
  | .setSource _ _ => .composite
  | .containsSwaConfig _ => .config
  | .isEnabled _ => .config
  | .frameworkInitialize _ _ => .initHook
  | .targetInitialize _ _ => .initHook
  | .frameworkRequirements _ => .framework
  | .frameworkRestore _ _ => .framework
  | .frameworkBuild _ _ _ => .framework
  | .frameworkPackage _ _ _ => .framework
  | .targetPackage _ _ _ => .target
  | .targetDeploy _ _ _ _ => .target
  | .raiseEvent _ _ => .event
  | .getResourceGroupName _ _ => .destination
  | .getTargetResource _ _ => .destination
  | .getenv _ => .envRead
  | .getServiceProperty _ _ => .envRead
  | .osStat _ => .os
  | .osMkdirAll _ => .os
  | .osOpen _ => .os
  | .osCreate _ => .os
  | .ioCopy _ _ => .os
  | .osRemove _ => .os
  | .fileClose _ => .os
  | .log _ => .log

section relations

variable {σ α : Type}

/-- Every run of `m` relates the state it starts in to the state it leaves. -/
def Keeps (R : World σ → World σ → Prop) (m : M σ α) : Prop := ∀ w, R w (m w).world

/-- A reflexive and transitive relation on states. -/
structure Pre (R : World σ → World σ → Prop) : Prop where
  refl : ∀ w, R w w
  trans : ∀ {a b c}, R a b → R b c → R a c

/-- The part of the state that only the service manager itself writes: the environment, the
operation cache, the initialization tracker and the names of the service configurations. -/
def Frame (w w1 : World σ) : Prop :=
  w1.env = w.env ∧ w1.operationCache = w.operationCache ∧ w1.initialized = w.initialized ∧
    ∀ sc, (w1.configs sc).Name = (w.configs sc).Name

/-- The calls made between two states all satisfy `P`. -/
def Traced (P : Call → Prop) (w w1 : World σ) : Prop :=
  ∃ t, w1.trace = w.trace ++ t ∧ ∀ c ∈ t, P c

/-- A relation on states that allows collaborator calls satisfying `P`, writes to stage
result objects, and writes to service configurations that keep their names. -/
structure Ambient (P : Call → Prop) (R : World σ → World σ → Prop) extends Pre R : Prop where
  step : ∀ {c : Call}, P c → ∀ (w : World σ) (s : σ),
    R w { w with ext := s, trace := w.trace ++ [c] }
  log : ∀ {c : Call}, P c → ∀ w : World σ, R w { w with trace := w.trace ++ [c] }
  config : ∀ (w : World σ) (cfgs : Ptr → ServiceConfig),
    (∀ sc, (cfgs sc).Name = (w.configs sc).Name) → R w { w with configs := cfgs }
  heap : ∀ (w : World σ) b p e n,
    R w { w with builds := b, packages := p, deploys := e, nextPtr := n }

end relations

/-! ## Stages -/

/-- The four lifecycle stages. -/
inductive Stage where
  | restore
  | build
  | package
  | deploy
  deriving DecidableEq, Repr

/-- The event name of a stage, also its operation name in the cache. -/
def Stage.eventName : Stage → String
  | .restore => ServiceEventRestore
  | .build => ServiceEventBuild
  | .package => ServiceEventPackage
  | .deploy => ServiceEventDeploy

/-- The cache value `setOperationResult` stores for a result of a stage. -/
def Stage.cacheValue : Stage → Option Ptr → AnyValue
  | .restore, p => .restore p
  | .build, p => .build p
  | .package, p => .package p
  | .deploy, p => .deploy p

/-- The type assertion of a stage. -/
def Stage.assert {σ : Type} (stage : Stage) : AnyValue → M σ (Option Ptr) :=
  match stage with
  | .restore => assertRestore
  | .build => assertBuild
  | .package => assertPackage
  | .deploy => assertDeploy

/-- A call of the method of a stage: `previous` is the predecessor output (`restoreOutput`,
`buildOutput`, `packageOutput`; `Restore` takes none), `options` the package options. -/
def callStage {σ : Type} (d : Deps σ) (stage : Stage) (sc : Ptr) (previous : Option Ptr)
    (options : Option PackageOptions) : M σ (Option Ptr) :=
  match stage with
  | .restore => Restore d sc
  | .build => Build d sc previous
  | .package => Package d sc previous options
  | .deploy => Deploy d sc previous

/-! ## A sample project

Concrete collaborators on which the definitions can be run.  The outside world is the list
of paths that exist on disk. -/

/-- Settings of the sample collaborators: whether the alpha feature of the experimental
host is enabled, and whether creating the destination file of a move fails. -/
structure SampleSettings where
  alphaEnabled : Bool
  createFails : Bool
  deriving DecidableEq, Repr

/-- The characters of a path after its last `/`. -/
def lastElementChars (cs : List Char) : List Char :=
  ((stringsSplitChars '/' cs).getLast?).getD []

/-- The extension of a last path element: from its last dot on, empty without a dot. -/
def extensionChars : List Char → List Char
  | [] => []
  | c :: cs =>
    if extensionChars cs ≠ [] then extensionChars cs
    else if c = '.' then c :: cs
    else []

/-- Stand-in for `filepath.Ext` on slash-separated paths. -/
def sampleExt (path : String) : String := String.mk (extensionChars (lastElementChars path.data))

/-- Stand-in for `filepath.Base` on slash-separated paths without a trailing slash. -/
def sampleBase (path : String) : String := String.mk (lastElementChars path.data)

/-- Stand-in for `filepath.Dir` on slash-separated paths: the path without its last element. -/
def sampleDir (path : String) : String :=
  String.mk (path.data.take (path.data.length - (lastElementChars path.data).length - 1))

/-- Stand-in for `filepath.Join` on two clean elements. -/
def sampleJoin (dir name : String) : String := dir ++ "/" ++ name

/-- The sample collaborators. -/
def sampleDeps (cfg : SampleSettings) : Deps (List String) where
  ServiceLanguageNone := ""
  ServiceLanguageDocker := "docker"
  ServiceLanguageSwa := "swa"
  DotNetContainerAppTarget := "containerapp-dotnet"
  StaticWebAppTarget := "staticwebapp"
  AzureResourceTypeContainerAppEnvironment := "Microsoft.App/managedEnvironments"
  RequiresContainer := fun host => host == "containerapp" || host == "aks"
  IsFeatureKey := fun host => if host = "ai.endpoint" then some "ai.endpoint" else none
  GetEnableCommand := fun feature => "azd config set alpha." ++ feature ++ " on"
  IsEnabled := fun s _ => (cfg.alphaEnabled, s)
  resolveFramework := fun s name =>
    (if name = "python" then .ok 1 else if name = "docker" then .ok 2
      else if name = "" then .ok 3 else .error "no framework registered", s)
  resolveComposite := fun s name =>
    (if name = "docker" then .ok 4 else if name = "swa" then .ok 5
      else .error "no composite framework registered", s)
  resolveTarget := fun s host =>
    (if host = "appservice" then .ok 6 else if host = "containerapp" then .ok 7
      else if host = "ai.endpoint" then .ok 8 else .error "no service target registered", s)
  setSource := fun s _ _ => ((), s)
  ContainsSwaConfig := fun s _ => (.ok false, s)
  frameworkInitialize := fun s _ _ => (.ok (), s)
  targetInitialize := fun s _ _ => (.ok (), s)
  frameworkRequirements := fun s _ => ({ RequireRestore := true, RequireBuild := false }, s)
  frameworkRestore := fun s _ _ => (.ok true, s)
  frameworkBuild := fun s _ _ restoreOutput => (.ok (some { Restore := restoreOutput }), s)
  frameworkPackage := fun s _ _ _ => (.ok (some 0), s)
  targetPackage := fun s target _ _ =>
    if target = 7 then (.ok (some { PackagePath := "registry.example/api:latest" }), s)
    else (.ok (some { PackagePath := "/tmp/out.zip" }), "/tmp/out.zip" :: s)
  targetDeploy := fun s _ _ _ _ => (.ok (some { Endpoints := ["https://backend"] }), s)
  raiseEvent := fun s _ _ => (.ok (), s)
  GetResourceGroupName := fun s _ _ => (.ok "rg-dev", s)
  GetTargetResource := fun s subscriptionId _ =>
    (.ok (some { subscriptionId := subscriptionId, resourceGroupName := "rg-dev",
                 resourceName := "app-web", resourceType := "Microsoft.Web/sites" }), s)
  osStat := fun s path => (if path ∈ s then .none else .notExist, s)
  osMkdirAll := fun s path => (.ok (), path :: s)
  osOpen := fun s path => (if path ∈ s then .ok () else .error "no such file", s)
  osCreate := fun s path =>
    if cfg.createFails then (.error "permission denied", s) else (.ok (), path :: s)
  ioCopy := fun s _ _ => (.ok (), s)
  osRemove := fun s path => ((), s.filter (fun q => decide (q ≠ path)))
  fileClose := fun s _ => ((), s)
  filepathExt := sampleExt
  filepathDir := sampleDir
  filepathJoin := sampleJoin
  filepathBase := sampleBase
  ToUpper := fun name => name.map Char.toUpper
  -- the error text for a number met where a string is expected
  jsonErrorText := fun _ => "json: cannot unmarshal number into Go value of type string"

/-- The sample services: `web` (python on app service) at address 0, `api` (python on
container apps) at address 1, and `chat` (on the experimental host) elsewhere. -/
def sampleConfig (sc : Ptr) : ServiceConfig :=
  { Name := if sc = 0 then "web" else if sc = 1 then "api" else "chat"
    Language := "python"
    Host := if sc = 0 then "appservice" else if sc = 1 then "containerapp" else "ai.endpoint"
    Image := { template := "" }
    Path := "./src"
    ResourceGroupName := { template := "" }
    Project := { ResourceGroupName := { template := "" } }
    DotNetContainerApp := none }

/-- The sample environment `dev`; `endpoints` is the `ENDPOINTS` property of service `web`. -/
def sampleEnv (endpoints : String) : Environment where
  Name := "dev"
  Getenv := fun _ => ""
  GetServiceProperty := fun serviceName key =>
    if serviceName = "web" ∧ key = "ENDPOINTS" then endpoints else ""
  GetSubscriptionId := "sub-1"

/-- A freshly constructed service manager (`NewServiceManager`) with an empty operation
cache, in the sample environment, on an empty disk. -/
def sampleWorld (endpoints : String) : World (List String) where
  ext := []
  env := sampleEnv endpoints
  operationCache := fun _ => none
  initialized := fun _ => none
  configs := sampleConfig
  builds := fun _ => { Restore := none }
  packages := fun _ => { PackagePath := "" }
  deploys := fun _ => { Endpoints := [] }
  nextPtr := 1
  trace := []

/-- The sample manager after `Initialize` of service `web`. -/
def sampleInitialized : World (List String) :=
  (Initialize (sampleDeps ⟨false, false⟩) 0 (sampleWorld "")).world

/-- The sample manager with package result 7 (`/tmp/out.zip`) of service `web` in the cache. -/
def samplePackaged : World (List String) :=
  { sampleWorld "" with
    operationCache := fun key => if key = "dev:web:package" then some (.package (some 7)) else none
    packages := fun _ => { PackagePath := "/tmp/out.zip" }
    nextPtr := 8 }

/-! ## Calls of a deploy that takes its package result from the cache -/

/-- The calls `Deploy` may make when it takes package result `p` from the cache: target
resolution, destination resolution, reads of the environment, the deploy events, log lines,
and `Target.Deploy` with package result `p`.  No framework call, no framework resolution,
no `Target.Package`, no event of another stage. -/
def deployCallAllowed (p : Ptr) : Call → Prop
  | .resolveTarget _ => True
  | .isEnabled _ => True
  | .getResourceGroupName _ _ => True
  | .getTargetResource _ _ => True
  | .getenv _ => True
  | .getServiceProperty _ _ => True
  | .log _ => True
  | .raiseEvent _ name => name = "predeploy" ∨ name = "postdeploy"
  | .targetDeploy _ _ packageResult _ => packageResult = some p
  | _ => False

/-! ## States that differ in the outside world only -/

/-- Nothing but the outside world and the trace differs between the two states: the
environment, the cache, the initialization record, the service configurations and the
stage results are the same. -/
def OutsideOnly {σ : Type} (w w1 : World σ) : Prop :=
  w1.env = w.env ∧ w1.operationCache = w.operationCache ∧ w1.initialized = w.initialized ∧
    w1.configs = w.configs ∧ w1.builds = w.builds ∧ w1.packages = w.packages ∧
    w1.deploys = w.deploys ∧ w1.nextPtr = w.nextPtr

/-- The service configurations after `GetFrameworkService` for `sc`, as the assignment of
lines 538 to 540 leaves them: the language of `sc` becomes docker when it was none and an
image is declared, and nothing else changes. -/
def configsAfterResolution {σ : Type} (d : Deps σ) (sc : Ptr) (configs : Ptr → ServiceConfig) :
    Ptr → ServiceConfig :=
  if (configs sc).Language = d.ServiceLanguageNone ∧ (configs sc).Image.Empty = false then
    Function.update configs sc { (configs sc) with Language := d.ServiceLanguageDocker }
  else configs

/-! ## More of the sample project -/

/-- The sample manager for a service `img` that declares no language and the pre-built
image `nginx:latest`, hosted on container apps. -/
def sampleImageWorld : World (List String) :=
  { sampleWorld "" with
    configs := fun _ =>
      { Name := "img", Language := "", Host := "containerapp",
        Image := { template := "nginx:latest" }, Path := "./img",
        ResourceGroupName := { template := "" },
        Project := { ResourceGroupName := { template := "" } },
        DotNetContainerApp := none } }

/-- The sample collaborators with a target registered for the managed container-app host. -/
def sampleDotnetDeps : Deps (List String) :=
  { sampleDeps ⟨false, false⟩ with
    resolveTarget := fun s host =>
      (if host = "containerapp-dotnet" then .ok 9 else .error "no service target registered", s) }

/-- The sample manager for a service `app` on the managed container-app host;
`containerEnvName` is its `CONTAINER_ENVIRONMENT_NAME` property, `envId` the value of
`AZURE_CONTAINER_APPS_ENVIRONMENT_ID`, `selfProvisioning` whether `DotNetContainerApp` is set. -/
def sampleDotnetWorld (containerEnvName envId : String) (selfProvisioning : Bool) :
    World (List String) :=
  { sampleWorld "" with
    env :=
      { Name := "dev"
        Getenv := fun key => if key = "AZURE_CONTAINER_APPS_ENVIRONMENT_ID" then envId else ""
        GetServiceProperty := fun serviceName key =>
          if serviceName = "app" ∧ key = "CONTAINER_ENVIRONMENT_NAME" then containerEnvName
          else ""
        GetSubscriptionId := "sub-1" }
    configs := fun _ =>
      { Name := "app", Language := "dotnet", Host := "containerapp-dotnet",
        Image := { template := "" }, Path := "./app",
        ResourceGroupName := { template := "" },
        Project := { ResourceGroupName := { template := "" } },
        DotNetContainerApp := if selfProvisioning then some 0 else none } }

/-- The destination the sample resource manager yields for the managed container-app host,
with resource name `name`. -/
def sampleDotnetDestination (name : String) : TargetResource where
  subscriptionId := "sub-1"
  resourceGroupName := "rg-dev"
  resourceName := name
  resourceType := "Microsoft.App/managedEnvironments"

/-! ## The steps of `Package` between the requirements and the package event -/

/-- The restore step of `Package` (lines 316 to 323): `available` is the build output
supplied or taken from the cache, `fresh` the address of `&ServiceRestoreResult{}`. -/
def Package.restoreStep {σ : Type} (d : Deps σ) (sc : Ptr) (available : Option Ptr)
    (requirements : FrameworkRequirements) (fresh : Ptr) : M σ (Option Ptr) := fun w =>
  (if requirements.RequireRestore &&
      (match available with
        | none => true
        | some b => decide ((w.builds b).Restore = none)) then Restore d sc
    else pure (some fresh)) w

/-- The package event of `Package` (lines 343 to 364): `Framework.Package` with the build
output, then `Target.Package`, inside the package event. -/
def Package.packageEvent {σ : Type} (d : Deps σ) (sc : Ptr) (frameworkService serviceTarget : Nat)
    (buildOutput : Option Ptr) : M σ (Option Ptr) := do
  let w ← getWorld
  wrapErr ("failed packaging service '" ++ (w.configs sc).Name ++ "': ")
    (Invoke d sc ServiceEventPackage (do
      let frameworkPackageResult ← callE (.frameworkPackage frameworkService sc buildOutput)
        (fun s => d.frameworkPackage s frameworkService sc buildOutput)
      let serviceTargetPackageResult ← targetPackage d serviceTarget sc frameworkPackageResult
      setOperationResult sc ServiceEventPackage (.package serviceTargetPackageResult)
      pure serviceTargetPackageResult))

/-- The framework requirements `Package` obtains in state `w` from framework `fw`. -/
def Package.requirementsAt {σ : Type} (d : Deps σ) (fw : Nat) (w : World σ) :
    FrameworkRequirements :=
  (d.frameworkRequirements w.ext fw).1

/-- The state of `Package` after `&ServiceRestoreResult{}` and `frameworkService.Requirements()`
(lines 309 to 312), reached from state `w`. -/
def Package.stateAfterRequirements {σ : Type} (d : Deps σ) (fw : Nat) (w : World σ) : World σ :=
  { w with
    nextPtr := w.nextPtr + 1
    ext := (d.frameworkRequirements w.ext fw).2
    trace := w.trace ++ [Call.frameworkRequirements fw] }

/-- The state in which `Package` calls `Build`: after `&ServiceBuildResult{}` (line 325). -/
def Package.stateBeforeBuild {σ : Type} (w : World σ) : World σ :=
  { w with
    builds := Function.update w.builds w.nextPtr { Restore := none }
    nextPtr := w.nextPtr + 1 }

/-- In the words of the claim: packaging requires a restore and no restore output is
available, that is, there is no available build output or its restore back-reference is
nil. -/
def restoreRequired (requirements : FrameworkRequirements) (available : Option Ptr)
    (builds : Ptr → ServiceBuildResult) : Prop :=
  requirements.RequireRestore = true ∧
    (available = none ∨ ∃ b, available = some b ∧ (builds b).Restore = none)

/-- In the words of the claim: packaging requires a build and there is no available build
output. -/
def buildRequired (requirements : FrameworkRequirements) (available : Option Ptr) : Prop :=
  requirements.RequireBuild = true ∧ available = none

/-- The restore step as the claim words it, from state `w`: when a restore is required, the
`Restore` stage runs and returns `restoreResult` in state `w1`; otherwise nothing runs and
the restore result is the empty one at `fresh`. -/
def restoreStepYields {σ : Type} (d : Deps σ) (sc : Ptr) (requirements : FrameworkRequirements)
    (available : Option Ptr) (fresh : Ptr) (w : World σ) (restoreResult : Option Ptr)
    (w1 : World σ) : Prop :=
  (restoreRequired requirements available w.builds ∧ Restore d sc w = .ok restoreResult w1) ∨
    (¬ restoreRequired requirements available w.builds ∧ restoreResult = some fresh ∧ w1 = w)

/-- The calls `GetFrameworkService` makes. -/
def frameworkResolutionCall : Call → Prop
  | .resolveFramework _ => True
  | .resolveComposite _ => True
  | .setSource _ _ => True
  | .containsSwaConfig _ => True
  | .log _ => True
  | _ => False

/-- The calls of the `Restore` stage: framework resolution, the restore events, and
`Framework.Restore`. -/
def restoreStageCall : Call → Prop
  | .resolveFramework _ => True
  | .resolveComposite _ => True
  | .setSource _ _ => True
  | .containsSwaConfig _ => True
  | .log _ => True
  | .raiseEvent _ name => name = "prerestore" ∨ name = "postrestore"
  | .frameworkRestore _ _ => True
  | _ => False

/-- The calls of the `Build` stage: framework resolution, the build events, and
`Framework.Build`. -/
def buildStageCall : Call → Prop
  | .resolveFramework _ => True
  | .resolveComposite _ => True
  | .setSource _ _ => True
  | .containsSwaConfig _ => True
  | .log _ => True
  | .raiseEvent _ name => name = "prebuild" ∨ name = "postbuild"
  | .frameworkBuild _ _ _ => True
  | _ => False

/-- The calls of `Package` after its predecessor stages: the package events,
`Framework.Package`, `Target.Package`, and the operating-system calls of the relocation. -/
def packagingCall : Call → Prop
  | .raiseEvent _ name => name = "prepackage" ∨ name = "postpackage"
  | .frameworkPackage _ _ _ => True
  | .targetPackage _ _ _ => True
  | .osStat _ => True
  | .osMkdirAll _ => True
  | .osOpen _ => True
  | .osCreate _ => True
  | .ioCopy _ _ => True
  | .osRemove _ => True
  | .fileClose _ => True
  | _ => False

section relations2

variable {σ : Type}

/-- A relation on states that allows everything the stages do: collaborator calls satisfying
`P`, writes to stage results and configurations, and writes to the operation cache. -/
structure Loose (P : Call → Prop) (R : World σ → World σ → Prop) extends Ambient P R : Prop where
  cache : ∀ (w : World σ) c, R w { w with operationCache := c }

/-- A relation on states that allows what `Package` does after its predecessor stages:
collaborator calls satisfying `P`, allocation and update of package results, and writes to
the operation cache. -/
structure Calm (P : Call → Prop) (R : World σ → World σ → Prop) extends Pre R : Prop where
  step : ∀ {c : Call}, P c → ∀ (w : World σ) (s : σ),
    R w { w with ext := s, trace := w.trace ++ [c] }
  packages : ∀ (w : World σ) p n, R w { w with packages := p, nextPtr := n }
  cache : ∀ (w : World σ) c, R w { w with operationCache := c }

/-- The build results are the same and the calls made all satisfy `P`. -/
def BuildsKept (P : Call → Prop) (w w1 : World σ) : Prop :=
  w1.builds = w.builds ∧ Traced P w w1

end relations2

/-! ## Symbolic execution lemmas -/

section exec

variable {σ α β : Type}

@[simp] theorem bind_eq (m : M σ α) (f : α → M σ β) : (m >>= f) = M.bind m f := rfl

@[simp] theorem pure_eq (a : α) : (pure a : M σ α) = M.pure a := rfl

@[simp] theorem pure_run (a : α) (w : World σ) : M.pure a w = .ok a w := rfl

@[simp] theorem fail_run (e : String) (w : World σ) : (fail e : M σ α) w = .err e w := rfl

@[simp] theorem goPanic_run (w : World σ) : (goPanic : M σ α) w = .panic w := rfl

@[simp] theorem getWorld_run (w : World σ) : (getWorld : M σ (World σ)) w = .ok w w := rfl

theorem bind_run (m : M σ α) (f : α → M σ β) (w : World σ) :
    M.bind m f w = match m w with
      | .ok a w1 => f a w1
      | .err e w1 => .err e w1
      | .panic w1 => .panic w1 := rfl

theorem bind_of_ok {m : M σ α} {f : α → M σ β} {w w1 : World σ} {a : α}
    (h : m w = .ok a w1) : M.bind m f w = f a w1 := by
  simp [bind_run, h]

theorem bind_of_err {m : M σ α} {f : α → M σ β} {w w1 : World σ} {e : String}
    (h : m w = .err e w1) : M.bind m f w = .err e w1 := by
  simp [bind_run, h]

theorem bind_of_panic {m : M σ α} {f : α → M σ β} {w w1 : World σ}
    (h : m w = .panic w1) : M.bind m f w = .panic w1 := by
  simp [bind_run, h]

theorem bind_eq_ok {m : M σ α} {f : α → M σ β} {w w2 : World σ} {b : β} :
    M.bind m f w = .ok b w2 ↔ ∃ a w1, m w = .ok a w1 ∧ f a w1 = .ok b w2 := by
  rw [bind_run]
  cases h : m w with
  | ok a w1 =>
    constructor
    · intro hh
      exact ⟨a, w1, rfl, hh⟩
    · rintro ⟨a1, w3, h1, hh⟩
      cases h1
      exact hh
  | err e w1 => simp
  | panic w1 => simp

theorem bind_assoc {γ : Type} (m : M σ α) (f : α → M σ β) (g : β → M σ γ) :
    M.bind (M.bind m f) g = M.bind m (fun a => M.bind (f a) g) := by
  funext w
  simp only [bind_run]
  cases m w <;> rfl

theorem bind_bind_eq_ok {γ : Type} {m : M σ α} {f : α → M σ β} {g : β → M σ γ}
    {w w2 : World σ} {c : γ} (h : M.bind m (fun a => M.bind (f a) g) w = .ok c w2) :
    ∃ b w1, M.bind m f w = .ok b w1 ∧ g b w1 = .ok c w2 := by
  have e := congrFun (bind_assoc m f g) w
  rw [← e] at h
  exact bind_eq_ok.1 h

theorem wrapErr_run (pre : String) (m : M σ α) (w : World σ) :
    wrapErr pre m w = match m w with
      | .ok a w1 => .ok a w1
      | .err e w1 => .err (pre ++ e) w1
      | .panic w1 => .panic w1 := rfl

theorem wrapErr_eq_ok {pre : String} {m : M σ α} {w w1 : World σ} {a : α} :
    wrapErr pre m w = .ok a w1 ↔ m w = .ok a w1 := by
  rw [wrapErr_run]
  cases h : m w <;> simp

theorem wrapErr_of_ok {pre : String} {m : M σ α} {w w1 : World σ} {a : α}
    (h : m w = .ok a w1) : wrapErr pre m w = .ok a w1 := wrapErr_eq_ok.2 h

theorem wrapErr_of_err {pre : String} {m : M σ α} {w w1 : World σ} {e : String}
    (h : m w = .err e w1) : wrapErr pre m w = .err (pre ++ e) w1 := by
  simp [wrapErr_run, h]

@[simp] theorem call_run (c : Call) (f : σ → α × σ) (w : World σ) :
    call c f w = .ok (f w.ext).1 { w with ext := (f w.ext).2, trace := w.trace ++ [c] } := rfl

theorem callE_of_ok {c : Call} {f : σ → Except String α × σ} {w : World σ} {a : α}
    (h : (f w.ext).1 = .ok a) :
    callE c f w = .ok a { w with ext := (f w.ext).2, trace := w.trace ++ [c] } := by
  simp [callE, h]

theorem callE_of_error {c : Call} {f : σ → Except String α × σ} {w : World σ} {e : String}
    (h : (f w.ext).1 = .error e) :
    callE c f w = .err e { w with ext := (f w.ext).2, trace := w.trace ++ [c] } := by
  simp [callE, h]

theorem callE_eq_ok {c : Call} {f : σ → Except String α × σ} {w w1 : World σ} {a : α} :
    callE c f w = .ok a w1 ↔
      (f w.ext).1 = .ok a ∧ w1 = { w with ext := (f w.ext).2, trace := w.trace ++ [c] } := by
  unfold callE
  cases h : (f w.ext).1 <;> simp [eq_comm]

@[simp] theorem note_run (c : Call) (w : World σ) :
    (note c : M σ Unit) w = .ok () { w with trace := w.trace ++ [c] } := rfl

end exec

/-! ## Cache keys -/

theorem append_cons_inj_left {c : Char} :
    ∀ {l1 l2 r1 r2 : List Char}, c ∉ l1 → c ∉ l2 → l1 ++ c :: r1 = l2 ++ c :: r2 →
      l1 = l2 ∧ r1 = r2
  | [], [], _, _, _, _, h => by simpa using h
  | [], y :: l2, _, _, _, h2, h => by
    simp only [List.nil_append, List.cons_append, List.cons.injEq] at h
    exact absurd (by simp [h.1]) h2
  | x :: l1, [], _, _, h1, _, h => by
    simp only [List.nil_append, List.cons_append, List.cons.injEq] at h
    exact absurd (by simp [h.1]) h1
  | x :: l1, y :: l2, r1, r2, h1, h2, h => by
    simp only [List.cons_append, List.cons.injEq] at h
    have ih := @append_cons_inj_left c l1 l2 r1 r2
      (fun hm => h1 (List.mem_cons_of_mem _ hm)) (fun hm => h2 (List.mem_cons_of_mem _ hm)) h.2
    exact ⟨by rw [h.1, ih.1], ih.2⟩

theorem append_cons_inj_right {c : Char} {l1 l2 r1 r2 : List Char} (h1 : c ∉ r1) (h2 : c ∉ r2)
    (h : l1 ++ c :: r1 = l2 ++ c :: r2) : l1 = l2 ∧ r1 = r2 := by
  have hr : r1.reverse ++ c :: l1.reverse = r2.reverse ++ c :: l2.reverse := by
    have := congrArg List.reverse h
    simpa using this
  have := append_cons_inj_left (by simpa using h1) (by simpa using h2) hr
  exact ⟨List.reverse_injective this.2, List.reverse_injective this.1⟩

theorem cacheKey_data (e s o : String) :
    (cacheKey e s o).data = e.data ++ ':' :: (s.data ++ ':' :: o.data) := by
  simp [cacheKey, String.data_append]

/-! ## Relations every step of an action keeps -/

section keeps

variable {σ α β : Type}

theorem Keeps.pure {R : World σ → World σ → Prop} (hR : Pre R) (a : α) :
    Keeps R (M.pure a : M σ α) := fun w => hR.refl w

theorem Keeps.fail {R : World σ → World σ → Prop} (hR : Pre R) (e : String) :
    Keeps R (fail e : M σ α) := fun w => hR.refl w

theorem Keeps.goPanic {R : World σ → World σ → Prop} (hR : Pre R) :
    Keeps R (goPanic : M σ α) := fun w => hR.refl w

theorem Keeps.getWorld {R : World σ → World σ → Prop} (hR : Pre R) :
    Keeps R (getWorld : M σ (World σ)) := fun w => hR.refl w

theorem Keeps.bind {R : World σ → World σ → Prop} (hR : Pre R) {m : M σ α} {f : α → M σ β}
    (hm : Keeps R m) (hf : ∀ a, Keeps R (f a)) : Keeps R (M.bind m f) := by
  intro w
  have h1 := hm w
  rw [bind_run]
  cases h : m w with
  | ok a w1 =>
    rw [h] at h1
    exact hR.trans h1 (hf a w1)
  | err e w1 =>
    rw [h] at h1
    exact h1
  | panic w1 =>
    rw [h] at h1
    exact h1

theorem Keeps.wrapErr {R : World σ → World σ → Prop} {m : M σ α} (pre : String)
    (hm : Keeps R m) : Keeps R (wrapErr pre m) := by
  intro w
  have h1 := hm w
  rw [wrapErr_run]
  cases h : m w <;> rw [h] at h1 <;> exact h1

theorem Keeps.withDefer {R : World σ → World σ → Prop} (hR : Pre R) {c : M σ Unit} {m : M σ α}
    (hc : Keeps R c) (hm : Keeps R m) : Keeps R (withDefer c m) := by
  intro w
  have h1 := hm w
  unfold ServiceManager.withDefer
  cases h : m w <;> rw [h] at h1 <;> exact hR.trans h1 (hc _)

theorem Keeps.ite {R : World σ → World σ → Prop} {c : Prop} [Decidable c] {a b : M σ α}
    (ha : Keeps R a) (hb : Keeps R b) : Keeps R (if c then a else b) := by
  split
  · exact ha
  · exact hb

theorem Keeps.call {R : World σ → World σ → Prop} {c : Call} {f : σ → α × σ}
    (h : ∀ w s, R w { w with ext := s, trace := w.trace ++ [c] }) : Keeps R (call c f) :=
  fun w => h w _

theorem Keeps.callE {R : World σ → World σ → Prop} {c : Call} {f : σ → Except String α × σ}
    (h : ∀ w s, R w { w with ext := s, trace := w.trace ++ [c] }) : Keeps R (callE c f) := by
  intro w
  unfold ServiceManager.callE
  cases (f w.ext).1 <;> exact h w _

theorem Keeps.note {R : World σ → World σ → Prop} {c : Call}
    (h : ∀ w : World σ, R w { w with trace := w.trace ++ [c] }) : Keeps R (note c : M σ Unit) :=
  fun w => h w

theorem frame_pre : Pre (@Frame σ) where
  refl := fun _ => ⟨rfl, rfl, rfl, fun _ => rfl⟩
  trans := fun h1 h2 =>
    ⟨h2.1.trans h1.1, h2.2.1.trans h1.2.1, h2.2.2.1.trans h1.2.2.1,
      fun sc => (h2.2.2.2 sc).trans (h1.2.2.2 sc)⟩

theorem traced_pre (P : Call → Prop) : Pre (@Traced σ P) where
  refl := fun _ => ⟨[], by simp, by simp⟩
  trans := by
    rintro a b c ⟨t1, h1, p1⟩ ⟨t2, h2, p2⟩
    refine ⟨t1 ++ t2, by rw [h2, h1, List.append_assoc], ?_⟩
    intro x hx
    rcases List.mem_append.1 hx with hx | hx
    · exact p1 x hx
    · exact p2 x hx

theorem Traced.step {P : Call → Prop} {c : Call} (h : P c) (w : World σ) (s : σ) :
    Traced P w { w with ext := s, trace := w.trace ++ [c] } :=
  ⟨[c], rfl, by simpa using h⟩

theorem Traced.log {P : Call → Prop} {c : Call} (h : P c) (w : World σ) :
    Traced P w { w with trace := w.trace ++ [c] } :=
  ⟨[c], rfl, by simpa using h⟩

theorem Traced.of_trace_eq {P : Call → Prop} {w w1 : World σ} (h : w1.trace = w.trace) :
    Traced P w w1 :=
  ⟨[], by simp [h], by simp⟩

theorem Traced.mono {P Q : Call → Prop} (hPQ : ∀ c, P c → Q c) {w w1 : World σ}
    (h : Traced P w w1) : Traced Q w w1 := by
  obtain ⟨t, ht, hp⟩ := h
  exact ⟨t, ht, fun c hc => hPQ c (hp c hc)⟩

theorem wrapErr_world (pre : String) (m : M σ α) (w : World σ) :
    (wrapErr pre m w).world = (m w).world := by
  rw [wrapErr_run]
  cases m w <;> rfl

theorem callE_world (c : Call) (f : σ → Except String α × σ) (w : World σ) :
    (callE c f w).world = { w with ext := (f w.ext).2, trace := w.trace ++ [c] } := by
  unfold callE
  cases (f w.ext).1 <;> rfl

/-- The continuation of a bind relates the state the first action leaves to the final one. -/
theorem bind_world {R : World σ → World σ → Prop} (hR : Pre R) {f : α → M σ β}
    (hf : ∀ a, Keeps R (f a)) (m : M σ α) (w : World σ) :
    R (m w).world (M.bind m f w).world := by
  rw [bind_run]
  cases h : m w with
  | ok a w1 => exact hf a w1
  | err e w1 => exact hR.refl _
  | panic w1 => exact hR.refl _

theorem Traced.drop_eq {P : Call → Prop} {w w1 : World σ} (h : Traced P w w1) :
    w1.trace = w.trace ++ w1.trace.drop w.trace.length ∧
      ∀ c ∈ w1.trace.drop w.trace.length, P c := by
  obtain ⟨t, ht, hp⟩ := h
  have e : w1.trace.drop w.trace.length = t := by
    rw [ht, List.drop_left' rfl]
  rw [e]
  exact ⟨ht, hp⟩

end keeps

/-! ## What each function may change -/

section ambient

variable {σ α : Type}

theorem frame_ambient : Ambient (fun _ => True) (@Frame σ) where
  toPre := frame_pre
  step := fun _ _ _ => ⟨rfl, rfl, rfl, fun _ => rfl⟩
  log := fun _ _ => ⟨rfl, rfl, rfl, fun _ => rfl⟩
  config := fun _ _ h => ⟨rfl, rfl, rfl, h⟩
  heap := fun _ _ _ _ _ => ⟨rfl, rfl, rfl, fun _ => rfl⟩

theorem traced_ambient (P : Call → Prop) : Ambient P (@Traced σ P) where
  toPre := traced_pre P
  step := fun h w s => Traced.step h w s
  log := fun h w => Traced.log h w
  config := fun _ _ _ => Traced.of_trace_eq rfl
  heap := fun _ _ _ _ _ => Traced.of_trace_eq rfl

variable {P : Call → Prop} {R : World σ → World σ → Prop}

theorem keeps_GetServiceTarget (hR : Ambient P R)
    (hP : ∀ c : Call, (∃ n, c = .resolveTarget n) ∨ (∃ f, c = .isEnabled f) → P c)
    (d : Deps σ) (sc : Ptr) : Keeps R (GetServiceTarget d sc) := by
  unfold GetServiceTarget
  simp only [bind_eq, pure_eq]
  refine Keeps.bind hR.toPre (Keeps.getWorld hR.toPre) (fun w => ?_)
  refine Keeps.bind hR.toPre ?_
    (fun _ => Keeps.wrapErr _ (Keeps.callE (hR.step (hP _ (Or.inl ⟨_, rfl⟩)))))
  split
  · exact Keeps.bind hR.toPre (Keeps.call (hR.step (hP _ (Or.inr ⟨_, rfl⟩))))
      (fun _ => Keeps.ite (Keeps.pure hR.toPre _) (Keeps.fail hR.toPre _))
  · exact Keeps.pure hR.toPre _

theorem keeps_defaultImageLanguage (hR : Ambient P R) (d : Deps σ) (sc : Ptr) :
    Keeps R (defaultImageLanguage d sc) := by
  intro w
  unfold defaultImageLanguage
  split
  · refine hR.config w _ (fun sc1 => ?_)
    by_cases h : sc1 = sc
    · subst h
      simp
    · simp [Function.update_noteq h]
  · exact hR.refl w

theorem keeps_resolveCompositeFramework (hR : Ambient P R)
    (hP : ∀ c : Call, c.kind = .locator ∨ c.kind = .config ∨ c.kind = .log → P c) (d : Deps σ)
    (cfg : ServiceConfig) : Keeps R (resolveCompositeFramework d cfg) := by
  unfold resolveCompositeFramework
  simp only [bind_eq, pure_eq]
  refine Keeps.ite ?_ (Keeps.ite ?_ (Keeps.pure hR.toPre _))
  · exact Keeps.bind hR.toPre
      (Keeps.wrapErr _ (Keeps.callE (hR.step (hP _ (by simp [Call.kind])))))
      (fun _ => Keeps.pure hR.toPre _)
  · refine Keeps.bind hR.toPre
      (Keeps.wrapErr _ (Keeps.callE (hR.step (hP _ (by simp [Call.kind]))))) (fun b => ?_)
    refine Keeps.ite ?_ (Keeps.pure hR.toPre _)
    refine Keeps.bind hR.toPre
      (Keeps.wrapErr _ (Keeps.callE (hR.step (hP _ (by simp [Call.kind]))))) (fun _ => ?_)
    exact Keeps.bind hR.toPre (Keeps.note (hR.log (hP _ (by simp [Call.kind]))))
      (fun _ => Keeps.pure hR.toPre _)

theorem keeps_GetFrameworkService (hR : Ambient P R)
    (hP : ∀ c : Call, c.kind = .locator ∨ c.kind = .config ∨ c.kind = .log ∨
      c.kind = .composite → P c) (d : Deps σ) (sc : Ptr) :
    Keeps R (GetFrameworkService d sc) := by
  unfold GetFrameworkService
  simp only [bind_eq, pure_eq]
  refine Keeps.bind hR.toPre (keeps_defaultImageLanguage hR d sc) (fun _ => ?_)
  refine Keeps.bind hR.toPre (Keeps.getWorld hR.toPre) (fun w => ?_)
  refine Keeps.bind hR.toPre
    (Keeps.wrapErr _ (Keeps.callE (hR.step (hP _ (by simp [Call.kind]))))) (fun fw => ?_)
  refine Keeps.bind hR.toPre (keeps_resolveCompositeFramework hR
    (fun c hc => hP c (by tauto)) d _) (fun comp => ?_)
  split
  · exact Keeps.bind hR.toPre (Keeps.call (hR.step (hP _ (by simp [Call.kind]))))
      (fun _ => Keeps.pure hR.toPre _)
  · exact Keeps.pure hR.toPre _

theorem keeps_Invoke (hR : Ambient P R) (d : Deps σ) (sc : Ptr) (ev : String) {body : M σ α}
    (hpre : P (.raiseEvent sc ("pre" ++ ev))) (hpost : P (.raiseEvent sc ("post" ++ ev)))
    (hbody : Keeps R body) : Keeps R (Invoke d sc ev body) := by
  unfold Invoke
  simp only [bind_eq, pure_eq]
  refine Keeps.bind hR.toPre (Keeps.callE (hR.step hpre)) (fun _ => ?_)
  refine Keeps.bind hR.toPre hbody (fun r => ?_)
  exact Keeps.bind hR.toPre (Keeps.callE (hR.step hpost)) (fun _ => Keeps.pure hR.toPre _)

theorem keeps_assert (hR : Ambient P R) (stage : Stage) (v : AnyValue) :
    Keeps R (stage.assert v : M σ (Option Ptr)) := by
  intro w
  cases stage <;> cases v <;> exact hR.refl w

theorem keeps_cachedOr (hR : Ambient P R) (sc : Ptr) (stage : Stage) {miss : M σ (Option Ptr)}
    (hmiss : Keeps R miss) : Keeps R (cachedOr sc stage.eventName stage.assert miss) := by
  unfold cachedOr
  simp only [bind_eq]
  refine Keeps.bind hR.toPre (fun w => hR.refl w) (fun c => ?_)
  split
  · exact keeps_assert hR stage _
  · exact hmiss

theorem keeps_fromCache (hR : Ambient P R) (sc : Ptr) (stage : Stage) (supplied : Option Ptr) :
    Keeps R (fromCache sc stage.eventName stage.assert supplied : M σ (Option Ptr)) := by
  unfold fromCache
  cases supplied with
  | some p => exact Keeps.pure hR.toPre _
  | none => exact keeps_cachedOr hR sc stage (Keeps.pure hR.toPre _)

theorem keeps_targetResource (hR : Ambient P R)
    (hP : ∀ c : Call, c.kind = .envRead ∨ c.kind = .destination → P c) (d : Deps σ) (sc : Ptr) :
    Keeps R (Deploy.targetResource d sc) := by
  unfold Deploy.targetResource
  simp only [bind_eq, pure_eq]
  refine Keeps.bind hR.toPre (Keeps.getWorld hR.toPre) (fun w => ?_)
  refine Keeps.ite ?_ (Keeps.wrapErr _ (Keeps.callE (hR.step (hP _ (Or.inr rfl)))))
  refine Keeps.bind hR.toPre (Keeps.note (hR.log (hP _ (Or.inl rfl)))) (fun _ => ?_)
  refine Keeps.bind hR.toPre ?_ (fun name => ?_)
  · refine Keeps.ite ?_ (Keeps.pure hR.toPre _)
    refine Keeps.bind hR.toPre (Keeps.note (hR.log (hP _ (Or.inl rfl)))) (fun _ => ?_)
    exact Keeps.ite (Keeps.fail hR.toPre _) (Keeps.pure hR.toPre _)
  · exact Keeps.bind hR.toPre (Keeps.wrapErr _ (Keeps.callE (hR.step (hP _ (Or.inr rfl)))))
      (fun _ => Keeps.pure hR.toPre _)

theorem keeps_targetDeploy (hR : Ambient P R) (d : Deps σ) (tgt : Nat) (sc : Ptr)
    (pr : Option Ptr) (tr : Option TargetResource) (hP : P (.targetDeploy tgt sc pr tr)) :
    Keeps R (targetDeploy d tgt sc pr tr) := by
  unfold targetDeploy
  simp only [bind_eq, pure_eq]
  refine Keeps.bind hR.toPre (Keeps.callE (hR.step hP)) (fun r => ?_)
  split
  · exact Keeps.bind hR.toPre (fun w => hR.heap w _ _ _ _) (fun _ => Keeps.pure hR.toPre _)
  · exact Keeps.pure hR.toPre _

theorem keeps_OverriddenEndpoints (hR : Ambient P R)
    (hP : ∀ c : Call, c.kind = .envRead ∨ c.kind = .log → P c) (d : Deps σ) (sc : Ptr) :
    Keeps R (OverriddenEndpoints d sc : M σ (List String)) := by
  unfold OverriddenEndpoints
  simp only [bind_eq, pure_eq]
  refine Keeps.bind hR.toPre (Keeps.getWorld hR.toPre) (fun w => ?_)
  refine Keeps.bind hR.toPre (Keeps.note (hR.log (hP _ (Or.inl rfl)))) (fun _ => ?_)
  refine Keeps.ite ?_ (Keeps.pure hR.toPre _)
  exact Keeps.bind hR.toPre
    (Keeps.ite (Keeps.note (hR.log (hP _ (Or.inr rfl)))) (Keeps.pure hR.toPre _))
    (fun _ => Keeps.pure hR.toPre _)

theorem keeps_applyOverride (hR : Ambient P R)
    (hP : ∀ c : Call, c.kind = .envRead ∨ c.kind = .log → P c) (d : Deps σ) (sc : Ptr)
    (deployResult : Option Ptr) : Keeps R (Deploy.applyOverride d sc deployResult : M σ Unit) := by
  unfold Deploy.applyOverride
  simp only [bind_eq, pure_eq]
  refine Keeps.bind hR.toPre (keeps_OverriddenEndpoints hR hP d sc) (fun eps => ?_)
  refine Keeps.ite ?_ (Keeps.pure hR.toPre _)
  split
  · exact fun w => hR.heap w _ _ _ _
  · exact Keeps.goPanic hR.toPre

end ambient

/-! ## The cache check and what a successful stage leaves in the cache -/

section stages

variable {σ : Type}

theorem usable_eq_some {c : Option AnyValue} {v : AnyValue} (h : usable c = some v) :
    c = some v ∧ v ≠ .untypedNil := by
  cases c with
  | none => simp [usable] at h
  | some x =>
    cases x <;> simp [usable] at h <;> subst h <;> simp

theorem cachedOr_of_miss {sc : Ptr} {name : String} {assert : AnyValue → M σ (Option Ptr)}
    {miss : M σ (Option Ptr)} {w : World σ}
    (h : usable (w.operationCache (cacheKey w.env.Name (w.configs sc).Name name)) = none) :
    cachedOr sc name assert miss w = miss w := by
  simp [cachedOr, bind_run, getOperationResult, h]

theorem cachedOr_of_hit {sc : Ptr} {name : String} {assert : AnyValue → M σ (Option Ptr)}
    {miss : M σ (Option Ptr)} {w : World σ} {v : AnyValue}
    (h : usable (w.operationCache (cacheKey w.env.Name (w.configs sc).Name name)) = some v) :
    cachedOr sc name assert miss w = assert v w := by
  simp [cachedOr, bind_run, getOperationResult, h]

theorem Stage.assert_eq_ok {stage : Stage} {v : AnyValue} {w w1 : World σ} {r : Option Ptr}
    (h : stage.assert v w = .ok r w1) : v = stage.cacheValue r ∧ w1 = w := by
  cases stage <;> cases v <;>
    simp_all [Stage.assert, Stage.cacheValue, assertRestore, assertBuild, assertPackage,
      assertDeploy]

theorem Stage.assert_cacheValue (stage : Stage) (r : Option Ptr) (w : World σ) :
    stage.assert (stage.cacheValue r) w = .ok r w := by
  cases stage <;> rfl

/-- A stage whose miss path leaves its result in the cache leaves it there on every
successful return. -/
theorem cachedOr_cached (stage : Stage) {sc : Ptr} {miss : M σ (Option Ptr)}
    (hmiss : ∀ w r w1, miss w = .ok r w1 →
      w1.operationCache (cacheKey w1.env.Name (w1.configs sc).Name stage.eventName) =
        some (stage.cacheValue r))
    {w w1 : World σ} {r : Option Ptr}
    (h : cachedOr sc stage.eventName stage.assert miss w = .ok r w1) :
    w1.operationCache (cacheKey w1.env.Name (w1.configs sc).Name stage.eventName) =
      some (stage.cacheValue r) := by
  cases hu : usable (w.operationCache
      (cacheKey w.env.Name (w.configs sc).Name stage.eventName)) with
  | some v =>
    rw [cachedOr_of_hit hu] at h
    obtain ⟨hc, -⟩ := usable_eq_some hu
    obtain ⟨rfl, rfl⟩ := Stage.assert_eq_ok h
    exact hc
  | none =>
    rw [cachedOr_of_miss hu] at h
    exact hmiss w r w1 h

/-- The statements `sm.setOperationResult(serviceConfig, name, result)` and `return result, nil`
leave the result in the cache. -/
theorem set_return_cached {sc : Ptr} {name : String} {v : AnyValue} {r r1 : Option Ptr}
    {w w1 : World σ}
    (h : M.bind (setOperationResult sc name v) (fun _ => M.pure r) w = .ok r1 w1) :
    r1 = r ∧ w1.operationCache (cacheKey w1.env.Name (w1.configs sc).Name name) = some v := by
  simp [bind_run, setOperationResult] at h
  obtain ⟨rfl, rfl⟩ := h
  simp

theorem Invoke_eq_ok {α : Type} {d : Deps σ} {sc : Ptr} {ev : String} {body : M σ α}
    {w w1 : World σ} {r : α} (h : Invoke d sc ev body w = .ok r w1) :
    ∃ wa wb, callE (.raiseEvent sc ("pre" ++ ev)) (fun s => d.raiseEvent s sc ("pre" ++ ev)) w
        = .ok () wa ∧ body wa = .ok r wb ∧
      callE (.raiseEvent sc ("post" ++ ev)) (fun s => d.raiseEvent s sc ("post" ++ ev)) wb
        = .ok () w1 := by
  unfold Invoke at h
  simp only [bind_eq, pure_eq] at h
  obtain ⟨u, wa, ha, h⟩ := bind_eq_ok.1 h
  obtain ⟨r1, wb, hb, h⟩ := bind_eq_ok.1 h
  obtain ⟨u1, wc, hc, h⟩ := bind_eq_ok.1 h
  simp at h
  obtain ⟨rfl, rfl⟩ := h
  exact ⟨wa, wb, ha, hb, hc⟩

theorem Restore_cached {d : Deps σ} {sc : Ptr} {w w1 : World σ} {r : Option Ptr}
    (h : Restore d sc w = .ok r w1) :
    w1.operationCache (cacheKey w1.env.Name (w1.configs sc).Name ServiceEventRestore) =
      some (.restore r) := by
  refine cachedOr_cached .restore ?_ h
  intro w r w1 h
  simp only [bind_eq, pure_eq] at h
  obtain ⟨fw, wa, -, h⟩ := bind_eq_ok.1 h
  obtain ⟨wa1, wb, -, h⟩ := bind_eq_ok.1 h
  obtain ⟨rr, wc, -, h⟩ := bind_eq_ok.1 h
  obtain ⟨rfl, hc⟩ := set_return_cached h
  exact hc

theorem Build_cached {d : Deps σ} {sc : Ptr} {prev : Option Ptr} {w w1 : World σ}
    {r : Option Ptr} (h : Build d sc prev w = .ok r w1) :
    w1.operationCache (cacheKey w1.env.Name (w1.configs sc).Name ServiceEventBuild) =
      some (.build r) := by
  refine cachedOr_cached .build ?_ h
  intro w r w1 h
  simp only [bind_eq, pure_eq] at h
  obtain ⟨ro, w0, -, h⟩ := bind_eq_ok.1 h
  obtain ⟨fw, wa, -, h⟩ := bind_eq_ok.1 h
  obtain ⟨wa1, wb, -, h⟩ := bind_eq_ok.1 h
  obtain ⟨rr, wc, -, h⟩ := bind_eq_ok.1 h
  obtain ⟨rfl, hc⟩ := set_return_cached h
  exact hc

theorem Deploy_cached {d : Deps σ} {sc : Ptr} {prev : Option Ptr} {w w1 : World σ}
    {r : Option Ptr} (h : Deploy d sc prev w = .ok r w1) :
    w1.operationCache (cacheKey w1.env.Name (w1.configs sc).Name ServiceEventDeploy) =
      some (.deploy r) := by
  refine cachedOr_cached .deploy ?_ h
  intro w r w1 h
  simp only [bind_eq, pure_eq] at h
  obtain ⟨ro, w0, -, h⟩ := bind_eq_ok.1 h
  obtain ⟨tgt, wa, -, h⟩ := bind_eq_ok.1 h
  obtain ⟨tr, wa2, -, h⟩ := bind_eq_ok.1 h
  obtain ⟨wa1, wb, -, h⟩ := bind_eq_ok.1 h
  obtain ⟨rr, wc, -, h⟩ := bind_eq_ok.1 h
  obtain ⟨u, wd, -, h⟩ := bind_eq_ok.1 h
  obtain ⟨rfl, hc⟩ := set_return_cached h
  exact hc

theorem keeps_moveFile {P : Call → Prop} {R : World σ → World σ → Prop} (hR : Ambient P R)
    (hP : ∀ c : Call, c.kind = .os → P c) (d : Deps σ) (src dst : String) :
    Keeps R (moveFile d src dst) := by
  unfold moveFile
  simp only [bind_eq, pure_eq]
  refine Keeps.bind hR.toPre (Keeps.wrapErr _ (Keeps.callE (hR.step (hP _ rfl)))) (fun _ => ?_)
  refine Keeps.withDefer hR.toPre (Keeps.call (hR.step (hP _ rfl))) ?_
  refine Keeps.bind hR.toPre (Keeps.wrapErr _ (Keeps.callE (hR.step (hP _ rfl)))) (fun _ => ?_)
  refine Keeps.withDefer hR.toPre (Keeps.call (hR.step (hP _ rfl))) ?_
  refine Keeps.bind hR.toPre (Keeps.wrapErr _ (Keeps.callE (hR.step (hP _ rfl)))) (fun _ => ?_)
  exact Keeps.withDefer hR.toPre (Keeps.call (hR.step (hP _ rfl))) (Keeps.pure hR.toPre _)

theorem keeps_setPackagePath {P : Call → Prop} {R : World σ → World σ → Prop}
    (hR : Ambient P R) (p : Ptr) (path : String) : Keeps R (setPackagePath p path : M σ Unit) :=
  fun w => hR.heap w _ _ _ _

theorem keeps_relocate {P : Call → Prop} {R : World σ → World σ → Prop} (hR : Ambient P R)
    (hP : ∀ c : Call, c.kind = .os → P c) (d : Deps σ) (pr : Option Ptr)
    (options : PackageOptions) : Keeps R (Package.relocate d pr options) := by
  unfold Package.relocate
  cases pr with
  | none => exact Keeps.goPanic hR.toPre
  | some p =>
    simp only [bind_eq, pure_eq]
    refine Keeps.bind hR.toPre (Keeps.getWorld hR.toPre) (fun w => ?_)
    refine Keeps.bind hR.toPre (Keeps.call (hR.step (hP _ rfl))) (fun st => ?_)
    refine Keeps.ite ?_ (Keeps.pure hR.toPre _)
    refine Keeps.bind hR.toPre (Keeps.call (hR.step (hP _ rfl))) (fun st1 => ?_)
    refine Keeps.bind hR.toPre
      (Keeps.ite (Keeps.wrapErr _ (Keeps.callE (hR.step (hP _ rfl)))) (Keeps.pure hR.toPre _))
      (fun _ => ?_)
    refine Keeps.bind hR.toPre (Keeps.wrapErr _ (keeps_moveFile hR hP d _ _)) (fun _ => ?_)
    exact Keeps.bind hR.toPre (keeps_setPackagePath hR _ _) (fun _ => Keeps.pure hR.toPre _)

/-- A successful relocation returns the pointer it was given. -/
theorem relocate_result {d : Deps σ} {pr r : Option Ptr} {options : PackageOptions}
    {w w1 : World σ} (h : Package.relocate d pr options w = .ok r w1) : r = pr := by
  unfold Package.relocate at h
  cases pr with
  | none => simp at h
  | some p =>
    simp only [bind_eq, pure_eq] at h
    obtain ⟨w0, wa, -, h⟩ := bind_eq_ok.1 h
    obtain ⟨st, wb, -, h⟩ := bind_eq_ok.1 h
    split at h
    · obtain ⟨st1, wc, -, h⟩ := bind_eq_ok.1 h
      obtain ⟨u, wd, -, h⟩ := bind_eq_ok.1 h
      obtain ⟨u1, we, -, h⟩ := bind_eq_ok.1 h
      obtain ⟨u2, wf, -, h⟩ := bind_eq_ok.1 h
      simp at h
      exact h.1.symm
    · simp at h
      exact h.1.symm

theorem produce_cached {d : Deps σ} {sc : Ptr} {prev : Option Ptr} {w w1 : World σ}
    {r : Option Ptr} (h : Package.produce d sc prev w = .ok r w1) :
    w1.operationCache (cacheKey w1.env.Name (w1.configs sc).Name ServiceEventPackage) =
      some (.package r) := by
  unfold Package.produce at h
  simp only [bind_eq, pure_eq] at h
  obtain ⟨bo, w0, -, h⟩ := bind_eq_ok.1 h
  obtain ⟨fw, wa, -, h⟩ := bind_eq_ok.1 h
  obtain ⟨tgt, wb, -, h⟩ := bind_eq_ok.1 h
  obtain ⟨rf, wc, -, h⟩ := bind_eq_ok.1 h
  obtain ⟨req, wd, -, h⟩ := bind_eq_ok.1 h
  obtain ⟨w5, we, -, h⟩ := bind_eq_ok.1 h
  obtain ⟨rr, wf, -, h⟩ := bind_eq_ok.1 h
  obtain ⟨bo1, wg, -, h⟩ := bind_eq_ok.1 h
  obtain ⟨w8, wh, -, h⟩ := bind_eq_ok.1 h
  obtain ⟨wi, wj, -, hbody, hpost⟩ := Invoke_eq_ok (wrapErr_eq_ok.1 h)
  obtain ⟨fp, wk, -, hbody⟩ := bind_eq_ok.1 hbody
  obtain ⟨tp, wl, -, hbody⟩ := bind_eq_ok.1 hbody
  obtain ⟨rfl, hc⟩ := set_return_cached hbody
  obtain ⟨-, rfl⟩ := callE_eq_ok.1 hpost
  exact hc

/-- A non-nil result of the first part of `Package` is the object `Target.Package`
returned. -/
theorem produce_result {d : Deps σ} {sc : Ptr} {prev : Option Ptr} {w w1 : World σ} {p : Ptr}
    (h : Package.produce d sc prev w = .ok (some p) w1) :
    ∃ s tgt fp, (d.targetPackage s tgt sc fp).1 = .ok (some (w1.packages p)) ∧
      Call.targetPackage tgt sc fp ∈ w1.trace := by
  unfold Package.produce at h
  simp only [bind_eq, pure_eq] at h
  obtain ⟨bo, w0, -, h1⟩ := bind_eq_ok.1 h
  obtain ⟨fw, wa, -, h2⟩ := bind_eq_ok.1 h1
  obtain ⟨tgt, wb, -, h3⟩ := bind_eq_ok.1 h2
  obtain ⟨rf, wc, -, h4⟩ := bind_eq_ok.1 h3
  obtain ⟨req, wd, -, h5⟩ := bind_eq_ok.1 h4
  obtain ⟨w5, we, -, h6⟩ := bind_eq_ok.1 h5
  obtain ⟨rr, wf, -, h7⟩ := bind_eq_ok.1 h6
  obtain ⟨bo1, wg, -, h8⟩ := bind_eq_ok.1 h7
  obtain ⟨w8, wh, -, h9⟩ := bind_eq_ok.1 h8
  obtain ⟨wi, wj, -, hbody, hpost⟩ := Invoke_eq_ok (wrapErr_eq_ok.1 h9)
  obtain ⟨fp, wk, -, hb1⟩ := bind_eq_ok.1 hbody
  obtain ⟨tp, wl, htp, hb2⟩ := bind_eq_ok.1 hb1
  simp [bind_run, setOperationResult] at hb2
  obtain ⟨e1, e2⟩ := hb2
  obtain ⟨-, e3⟩ := callE_eq_ok.1 hpost
  unfold targetPackage at htp
  simp only [bind_eq, pure_eq] at htp
  obtain ⟨rv, wm, hcall, hb3⟩ := bind_eq_ok.1 htp
  obtain ⟨hres, e4⟩ := callE_eq_ok.1 hcall
  refine ⟨wk.ext, tgt, fp, ?_, ?_⟩
  · rw [hres]
    cases rv with
    | none =>
      simp at hb3
      rw [← hb3.1] at e1
      cases e1
    | some v =>
      simp [bind_run, allocPackage] at hb3
      obtain ⟨e5, e6⟩ := hb3
      rw [e3, ← e2, ← e6]
      rw [← e5] at e1
      cases e1
      simp
  · rw [e3, ← e2]
    have hl : Call.targetPackage tgt sc fp ∈ wl.trace := by
      cases rv with
      | none =>
        simp at hb3
        rw [← hb3.2, e4]
        simp
      | some v =>
        simp [bind_run, allocPackage] at hb3
        rw [← hb3.2, e4]
        simp
    simp [hl]

theorem Package_cached {d : Deps σ} {sc : Ptr} {prev : Option Ptr}
    {options : Option PackageOptions} {w w1 : World σ} {r : Option Ptr}
    (h : Package d sc prev options w = .ok r w1) :
    w1.operationCache (cacheKey w1.env.Name (w1.configs sc).Name ServiceEventPackage) =
      some (.package r) := by
  refine cachedOr_cached .package ?_ h
  intro w r w1 h
  simp only [bind_eq, pure_eq] at h
  obtain ⟨pr, wa, hp, h⟩ := bind_eq_ok.1 h
  have hr := relocate_result h
  subst hr
  have hk := keeps_relocate frame_ambient (fun _ _ => trivial) d r
    (options.getD { OutputPath := "" }) wa
  rw [h] at hk
  obtain ⟨henv, hcache, -, hname⟩ := hk
  simp only [Res.world] at henv hcache hname
  rw [henv, hcache, hname]
  exact produce_cached hp

/-- A stage that returns a result leaves that result in the cache under its own key. -/
theorem callStage_cached {d : Deps σ} {stage : Stage} {sc : Ptr} {previous : Option Ptr}
    {options : Option PackageOptions} {w w1 : World σ} {r : Option Ptr}
    (h : callStage d stage sc previous options w = .ok r w1) :
    w1.operationCache (cacheKey w1.env.Name (w1.configs sc).Name stage.eventName) =
      some (stage.cacheValue r) := by
  cases stage
  · exact Restore_cached h
  · exact Build_cached h
  · exact Package_cached h
  · exact Deploy_cached h

/-- A stage called with a non-nil result in the cache under its key returns it and changes
nothing. -/
theorem callStage_of_cached {d : Deps σ} {stage : Stage} {sc : Ptr} {previous : Option Ptr}
    {options : Option PackageOptions} {w : World σ} {p : Ptr}
    (h : w.operationCache (cacheKey w.env.Name (w.configs sc).Name stage.eventName) =
      some (stage.cacheValue (some p))) :
    callStage d stage sc previous options w = .ok (some p) w := by
  have hu : usable (w.operationCache (cacheKey w.env.Name (w.configs sc).Name stage.eventName))
      = some (stage.cacheValue (some p)) := by
    rw [h]
    cases stage <;> rfl
  cases stage
  · exact (cachedOr_of_hit hu).trans (Stage.assert_cacheValue .restore _ _)
  · exact (cachedOr_of_hit hu).trans (Stage.assert_cacheValue .build _ _)
  · exact (cachedOr_of_hit hu).trans (Stage.assert_cacheValue .package _ _)
  · exact (cachedOr_of_hit hu).trans (Stage.assert_cacheValue .deploy _ _)

theorem withDefer_eq_ok {α : Type} {c : M σ Unit} {m : M σ α} {w w1 : World σ} {a : α}
    (h : withDefer c m w = .ok a w1) : ∃ wm, m w = .ok a wm ∧ w1 = (c wm).world := by
  unfold withDefer at h
  cases hm : m w with
  | ok b wm =>
    rw [hm] at h
    simp at h
    exact ⟨wm, by rw [h.1], h.2.symm⟩
  | err e wm =>
    rw [hm] at h
    simp at h
  | panic wm =>
    rw [hm] at h
    simp at h

/-- A successful `moveFile` makes exactly its six operating-system calls and touches no
stage result. -/
theorem moveFile_eq_ok {d : Deps σ} {src dst : String} {w w1 : World σ} {u : Unit}
    (h : moveFile d src dst w = .ok u w1) :
    w1.trace = w.trace ++ [Call.osOpen src, Call.osCreate dst, Call.ioCopy dst src,
        Call.osRemove src, Call.fileClose dst, Call.fileClose src] ∧
      w1.packages = w.packages := by
  unfold moveFile at h
  simp only [bind_eq, pure_eq] at h
  obtain ⟨u1, wa, ha, h1⟩ := bind_eq_ok.1 h
  obtain ⟨-, ea⟩ := callE_eq_ok.1 (wrapErr_eq_ok.1 ha)
  obtain ⟨wb, h2, eb⟩ := withDefer_eq_ok h1
  obtain ⟨u2, wc, hc, h3⟩ := bind_eq_ok.1 h2
  obtain ⟨-, ec⟩ := callE_eq_ok.1 (wrapErr_eq_ok.1 hc)
  obtain ⟨wd, h4, ed⟩ := withDefer_eq_ok h3
  obtain ⟨u3, we, he, h5⟩ := bind_eq_ok.1 h4
  obtain ⟨-, ee⟩ := callE_eq_ok.1 (wrapErr_eq_ok.1 he)
  obtain ⟨wf, h6, ef⟩ := withDefer_eq_ok h5
  simp at h6
  rw [eb, ed, ef, ← h6, ee, ec, ea]
  simp [Res.world]

/-- What a successful relocation does: with a package file on disk and an output path, the
package path becomes `destFilePath`, the destination directory is created exactly when
`os.Stat` reports it absent, and the file is moved; otherwise the only call is the
`os.Stat` of the package path and no stage result changes. -/
theorem relocate_spec {d : Deps σ} {p : Ptr} {options : PackageOptions} {wa w1 : World σ}
    {r : Option Ptr} (h : Package.relocate d (some p) options wa = .ok r w1) :
    r = some p ∧
    (((d.osStat wa.ext (wa.packages p).PackagePath).1 = StatErr.none ∧ options.OutputPath ≠ "") →
      (w1.packages p).PackagePath =
          Package.destFilePath d options.OutputPath (wa.packages p).PackagePath ∧
        w1.trace = wa.trace ++
          ([Call.osStat (wa.packages p).PackagePath,
              Call.osStat (Package.destDirectory d options.OutputPath)] ++
            (if (d.osStat (d.osStat wa.ext (wa.packages p).PackagePath).2
                  (Package.destDirectory d options.OutputPath)).1 = StatErr.notExist
              then [Call.osMkdirAll (Package.destDirectory d options.OutputPath)] else []) ++
            [Call.osOpen (wa.packages p).PackagePath,
              Call.osCreate (Package.destFilePath d options.OutputPath (wa.packages p).PackagePath),
              Call.ioCopy (Package.destFilePath d options.OutputPath (wa.packages p).PackagePath)
                (wa.packages p).PackagePath,
              Call.osRemove (wa.packages p).PackagePath,
              Call.fileClose
                (Package.destFilePath d options.OutputPath (wa.packages p).PackagePath),
              Call.fileClose (wa.packages p).PackagePath])) ∧
    (¬ ((d.osStat wa.ext (wa.packages p).PackagePath).1 = StatErr.none ∧
        options.OutputPath ≠ "") →
      (w1.packages p).PackagePath = (wa.packages p).PackagePath ∧
        w1.trace = wa.trace ++ [Call.osStat (wa.packages p).PackagePath] ∧
        w1.packages = wa.packages ∧
        w1.ext = (d.osStat wa.ext (wa.packages p).PackagePath).2) := by
  refine ⟨relocate_result h, ?_⟩
  unfold Package.relocate at h
  simp only [bind_eq, pure_eq] at h
  rw [bind_of_ok (getWorld_run wa), bind_of_ok (call_run _ _ wa)] at h
  by_cases hc : (d.osStat wa.ext (wa.packages p).PackagePath).1 = StatErr.none ∧
      options.OutputPath ≠ ""
  · refine ⟨fun _ => ?_, fun hn => absurd hc hn⟩
    rw [if_pos hc, bind_of_ok (call_run _ _ _)] at h
    obtain ⟨u, wb, hb, h1⟩ := bind_eq_ok.1 h
    obtain ⟨u1, wc, hm, h2⟩ := bind_eq_ok.1 h1
    obtain ⟨hmt, hmp⟩ := moveFile_eq_ok (wrapErr_eq_ok.1 hm)
    simp [bind_run, setPackagePath] at h2
    obtain ⟨-, e1⟩ := h2
    rw [← e1]
    simp only [Function.update_same, true_and]
    show wc.trace = _
    rw [hmt]
    by_cases hd : (d.osStat (d.osStat wa.ext (wa.packages p).PackagePath).2
        (Package.destDirectory d options.OutputPath)).1 = StatErr.notExist
    · rw [if_pos hd] at hb
      rw [if_pos hd]
      obtain ⟨-, eb⟩ := callE_eq_ok.1 (wrapErr_eq_ok.1 hb)
      rw [eb]
      simp
    · rw [if_neg hd] at hb
      rw [if_neg hd]
      simp at hb
      rw [← hb]
      simp
  · refine ⟨fun hp => absurd hp hc, fun _ => ?_⟩
    rw [if_neg hc] at h
    simp at h
    obtain ⟨-, e1⟩ := h
    rw [← e1]
    exact ⟨rfl, rfl, rfl, rfl⟩

end stages

/-! ## The initialization tracker -/

section tracker

variable {σ : Type}

theorem componentLookup_filter_ne (c k : Component) (h : c ≠ k) :
    ∀ m : List (Component × Bool),
      componentLookup c (m.filter (fun kv => !decide (kv.1 = k))) = componentLookup c m
  | [] => rfl
  | (k1, v) :: rest => by
    by_cases hk : k1 = k
    · subst hk
      have hne : ¬ k1 = c := fun hh => h hh.symm
      simp [componentLookup, hne, componentLookup_filter_ne c k1 h rest]
    · simp [componentLookup, hk, componentLookup_filter_ne c k h rest]

theorem componentLookup_insert (c k : Component) (m : List (Component × Bool)) :
    componentLookup c (componentInsert k true m) =
      if c = k then some true else componentLookup c m := by
  by_cases h : c = k
  · subst h
    simp [componentInsert, componentLookup]
  · have h1 : ¬ k = c := fun hh => h hh.symm
    simp [componentInsert, componentLookup, h, h1, componentLookup_filter_ne c k h m]

/-- A component that is flagged in a non-empty record is reported initialized, and the
state is left as it was. -/
theorem isComponentInitialized_of_flag {sc : Ptr} {c : Component} {w : World σ}
    {m : List (Component × Bool)} (hm : w.initialized sc = some m)
    (hc : componentLookup c m = some true) : isComponentInitialized sc c w = .ok true w := by
  have hlen : m.length > 0 := by
    cases m with
    | nil => simp [componentLookup] at hc
    | cons a t => simp
  simp [isComponentInitialized, hm, hlen, hc]

/-- The two statements that guard one `Initialize` hook: afterwards the component is
flagged, flags of the record are kept, and the hook was called exactly when the component
was not flagged before. -/
theorem ensure_block {sc : Ptr} {c : Component} {call : Call}
    {f : σ → Except String Unit × σ} {w w1 : World σ} {u : Unit}
    (h : M.bind (isComponentInitialized sc c) (fun ok =>
        if ok = true then M.pure ()
        else M.bind (callE call f) (fun _ => markInitialized sc c)) w = .ok u w1) :
    (∃ m, w1.initialized sc = some m ∧ componentLookup c m = some true ∧
      ∀ c1 m0, w.initialized sc = some m0 → componentLookup c1 m0 = some true →
        componentLookup c1 m = some true) ∧
    ((w1 = w ∧ ∃ m0, w.initialized sc = some m0 ∧ componentLookup c m0 = some true) ∨
      (w1.trace = w.trace ++ [call] ∧
        w1.initialized sc = some (componentInsert c true ((w.initialized sc).getD [])) ∧
        ∀ m0, w.initialized sc = some m0 → componentLookup c m0 ≠ some true)) := by
  obtain ⟨ok, wa, hi, h⟩ := bind_eq_ok.1 h
  unfold isComponentInitialized at hi
  cases hm : w.initialized sc with
  | none =>
    simp [hm] at hi
    obtain ⟨rfl, rfl⟩ := hi
    simp at h
    obtain ⟨u1, wb, hcall, hmark⟩ := bind_eq_ok.1 h
    obtain ⟨-, rfl⟩ := callE_eq_ok.1 hcall
    simp [markInitialized] at hmark
    subst hmark
    simp [componentLookup_insert]
  | some m0 =>
    simp only [hm] at hi
    by_cases hlen : m0.length > 0
    · simp only [hlen, if_true] at hi
      cases hl : componentLookup c m0 with
      | none =>
        simp [hl] at hi
        obtain ⟨rfl, rfl⟩ := hi
        simp at h
        obtain ⟨u1, wb, hcall, hmark⟩ := bind_eq_ok.1 h
        obtain ⟨-, rfl⟩ := callE_eq_ok.1 hcall
        simp [markInitialized, hm] at hmark
        subst hmark
        simp only [Function.update_same, Option.some.injEq, exists_eq_left']
        refine ⟨⟨by simp [componentLookup_insert], ?_⟩, Or.inr ⟨by simp, by simp, ?_⟩⟩
        · intro c1 m1 h1 h2
          cases h1
          rw [componentLookup_insert]
          split <;> simp [h2]
        · intro m1 h1
          cases h1
          simp [hl]
      | some b =>
        cases b with
        | true =>
          simp [hl] at hi
          obtain ⟨rfl, rfl⟩ := hi
          simp at h
          subst h
          refine ⟨⟨m0, hm, hl, ?_⟩, Or.inl ⟨rfl, m0, rfl, hl⟩⟩
          intro c1 m1 h1 h2
          cases h1
          exact h2
        | false =>
          simp [hl] at hi
          obtain ⟨rfl, rfl⟩ := hi
          simp at h
          obtain ⟨u1, wb, hcall, hmark⟩ := bind_eq_ok.1 h
          obtain ⟨-, rfl⟩ := callE_eq_ok.1 hcall
          simp [markInitialized, hm] at hmark
          subst hmark
          simp only [Function.update_same, Option.some.injEq, exists_eq_left']
          refine ⟨⟨by simp [componentLookup_insert], ?_⟩, Or.inr ⟨by simp, by simp, ?_⟩⟩
          · intro c1 m1 h1 h2
            cases h1
            rw [componentLookup_insert]
            split <;> simp [h2]
          · intro m1 h1
            cases h1
            simp [hl]
    · have hnil : m0 = [] := by
        cases m0 with
        | nil => rfl
        | cons a t => simp at hlen
      subst hnil
      simp at hi
      obtain ⟨rfl, rfl⟩ := hi
      simp at h
      obtain ⟨u1, wb, hcall, hmark⟩ := bind_eq_ok.1 h
      obtain ⟨-, rfl⟩ := callE_eq_ok.1 hcall
      simp [markInitialized] at hmark
      subst hmark
      simp [componentLookup_insert, componentLookup]

/-- What a successful `Initialize` leaves: both resolved components are flagged; from a
record without the service configuration, the calls after resolution are exactly the two
hooks. -/
theorem Initialize_flags {d : Deps σ} {sc : Ptr} {w w1 wa wb : World σ} {fw tgt : Nat}
    (h : Initialize d sc w = .ok () w1)
    (hfw : GetFrameworkService d sc w = .ok fw wa) (htgt : GetServiceTarget d sc wa = .ok tgt wb) :
    (∃ m, w1.initialized sc = some m ∧ componentLookup (.framework fw) m = some true ∧
      componentLookup (.target tgt) m = some true) ∧
    (w.initialized sc = none →
      w1.trace = wb.trace ++ [Call.frameworkInitialize fw sc, Call.targetInitialize tgt sc]) := by
  unfold Initialize at h
  simp only [bind_eq, pure_eq] at h
  rw [bind_of_ok (wrapErr_of_ok hfw), bind_of_ok (wrapErr_of_ok htgt)] at h
  obtain ⟨u, wc, h1, h2⟩ := bind_bind_eq_ok h
  obtain ⟨⟨m1, hm1, hf1, -⟩, hcase1⟩ := ensure_block h1
  obtain ⟨⟨m2, hm2, hf2, hkeep⟩, hcase2⟩ := ensure_block h2
  refine ⟨⟨m2, hm2, hkeep _ m1 hm1 hf1, hf2⟩, ?_⟩
  intro hnone
  have hwb : wb.initialized sc = none := by
    have k1 := keeps_GetFrameworkService frame_ambient (fun _ _ => trivial) d sc w
    have k2 := keeps_GetServiceTarget frame_ambient (fun _ _ => trivial) d sc wa
    rw [hfw] at k1
    rw [htgt] at k2
    have e1 : wa.initialized = w.initialized := k1.2.2.1
    have e2 : wb.initialized = wa.initialized := k2.2.2.1
    rw [e2, e1, hnone]
  rcases hcase1 with ⟨-, m0, hm0, -⟩ | ⟨ht1, hi1, -⟩
  · rw [hwb] at hm0
    cases hm0
  · rw [hwb] at hi1
    rcases hcase2 with ⟨-, m0, hm0, hl0⟩ | ⟨ht2, -, -⟩
    · rw [hi1] at hm0
      cases hm0
      simp [componentInsert, componentLookup] at hl0
    · rw [ht2, ht1]
      simp

end tracker

/-! ## The endpoint override -/

section endpoints

variable {σ : Type}

theorem decodeStringSlice_strings (eps : List String) :
    decodeStringSlice (.arr (eps.map Json.str)) = (eps, false) := by
  simp [decodeStringSlice, decodeElement, Function.comp_def]

theorem parseJson_empty : parseJson "" = none := by rfl

theorem jsonUnmarshalStrings_strings {data : String} {eps : List String}
    (h : parseJson data = some (.arr (eps.map Json.str))) :
    jsonUnmarshalStrings data = (eps, false) ∧ data ≠ "" := by
  refine ⟨?_, ?_⟩
  · simp [jsonUnmarshalStrings, h, decodeStringSlice_strings]
  · intro he
    rw [he, parseJson_empty] at h
    cases h

/-- The state in which `Deploy` reads the endpoint override, on a cache miss: the target
has returned `dr`, and environment, cache and service names are those of the start. -/
theorem Deploy_miss_inv {d : Deps σ} {sc : Ptr} {prev r : Option Ptr} {w w1 : World σ}
    (hmiss : usable (w.operationCache
      (cacheKey w.env.Name (w.configs sc).Name ServiceEventDeploy)) = none)
    (h : Deploy d sc prev w = .ok r w1) :
    ∃ wc wd, Frame w wc ∧ Deploy.applyOverride d sc r wc = .ok () wd ∧
      setOperationResult sc ServiceEventDeploy (.deploy r) wd = .ok () w1 := by
  unfold Deploy at h
  rw [cachedOr_of_miss hmiss] at h
  simp only [bind_eq, pure_eq] at h
  obtain ⟨pr, w0, h0, h⟩ := bind_eq_ok.1 h
  obtain ⟨tgt, wa, ha, h⟩ := bind_eq_ok.1 h
  obtain ⟨tr, wb, hb, h⟩ := bind_eq_ok.1 h
  rw [bind_of_ok (getWorld_run wb)] at h
  obtain ⟨dr, wc, hc, h⟩ := bind_eq_ok.1 h
  obtain ⟨u, wd, hd, h⟩ := bind_eq_ok.1 h
  obtain ⟨u1, we, he, h⟩ := bind_eq_ok.1 h
  simp at h
  obtain ⟨rfl, rfl⟩ := h
  have hA : Ambient (fun _ => True) (@Frame σ) := frame_ambient
  have k0 := keeps_fromCache hA sc .package prev w
  have k1 := keeps_GetServiceTarget hA (fun _ _ => trivial) d sc w0
  have k2 := keeps_targetResource hA (fun _ _ => trivial) d sc wa
  have k3 := keeps_Invoke hA d sc ServiceEventDeploy
    trivial trivial (keeps_targetDeploy hA d tgt sc pr tr trivial) wb
  have h0b : fromCache sc Stage.package.eventName Stage.package.assert prev w = .ok pr w0 := h0
  rw [h0b] at k0
  rw [wrapErr_eq_ok.1 ha] at k1
  rw [hb] at k2
  have hc2 : Invoke d sc ServiceEventDeploy (targetDeploy d tgt sc pr tr) wb = .ok dr wc :=
    wrapErr_eq_ok.1 hc
  rw [hc2] at k3
  exact ⟨wc, wd, frame_pre.trans (frame_pre.trans (frame_pre.trans k0 k1) k2) k3, hd, he⟩

end endpoints

/-! ## Functions that touch the outside world only -/

section outside

variable {σ α : Type}

theorem outsideOnly_pre : Pre (@OutsideOnly σ) where
  refl := fun _ => ⟨rfl, rfl, rfl, rfl, rfl, rfl, rfl, rfl⟩
  trans := fun h1 h2 =>
    ⟨h2.1.trans h1.1, h2.2.1.trans h1.2.1, h2.2.2.1.trans h1.2.2.1,
      h2.2.2.2.1.trans h1.2.2.2.1, h2.2.2.2.2.1.trans h1.2.2.2.2.1,
      h2.2.2.2.2.2.1.trans h1.2.2.2.2.2.1, h2.2.2.2.2.2.2.1.trans h1.2.2.2.2.2.2.1,
      h2.2.2.2.2.2.2.2.trans h1.2.2.2.2.2.2.2⟩

theorem outsideOnly_step (w : World σ) (s : σ) (t : List Call) :
    OutsideOnly w { w with ext := s, trace := t } :=
  ⟨rfl, rfl, rfl, rfl, rfl, rfl, rfl, rfl⟩

theorem outside_call (c : Call) (f : σ → α × σ) : Keeps OutsideOnly (call c f) :=
  fun w => outsideOnly_step w _ _

theorem outside_callE (c : Call) (f : σ → Except String α × σ) :
    Keeps OutsideOnly (callE c f) := by
  intro w
  rw [callE_world]
  exact outsideOnly_step w _ _

theorem outside_note (c : Call) : Keeps OutsideOnly (note c : M σ Unit) :=
  fun w => outsideOnly_step w _ _

theorem outside_GetServiceTarget (d : Deps σ) (sc : Ptr) :
    Keeps OutsideOnly (GetServiceTarget d sc) := by
  unfold GetServiceTarget
  simp only [bind_eq, pure_eq]
  refine Keeps.bind outsideOnly_pre (Keeps.getWorld outsideOnly_pre) (fun w => ?_)
  refine Keeps.bind outsideOnly_pre ?_ (fun _ => Keeps.wrapErr _ (outside_callE _ _))
  split
  · exact Keeps.bind outsideOnly_pre (outside_call _ _)
      (fun _ => Keeps.ite (Keeps.pure outsideOnly_pre _) (Keeps.fail outsideOnly_pre _))
  · exact Keeps.pure outsideOnly_pre _

theorem outside_resolveCompositeFramework (d : Deps σ) (cfg : ServiceConfig) :
    Keeps OutsideOnly (resolveCompositeFramework d cfg) := by
  unfold resolveCompositeFramework
  simp only [bind_eq, pure_eq]
  refine Keeps.ite ?_ (Keeps.ite ?_ (Keeps.pure outsideOnly_pre _))
  · exact Keeps.bind outsideOnly_pre (Keeps.wrapErr _ (outside_callE _ _))
      (fun _ => Keeps.pure outsideOnly_pre _)
  · refine Keeps.bind outsideOnly_pre (Keeps.wrapErr _ (outside_callE _ _)) (fun b => ?_)
    refine Keeps.ite ?_ (Keeps.pure outsideOnly_pre _)
    refine Keeps.bind outsideOnly_pre (Keeps.wrapErr _ (outside_callE _ _)) (fun _ => ?_)
    exact Keeps.bind outsideOnly_pre (outside_note _) (fun _ => Keeps.pure outsideOnly_pre _)

theorem outside_cachedOr (sc : Ptr) (stage : Stage) {miss : M σ (Option Ptr)}
    (hmiss : Keeps OutsideOnly miss) :
    Keeps OutsideOnly (cachedOr sc stage.eventName stage.assert miss) := by
  unfold cachedOr
  simp only [bind_eq]
  refine Keeps.bind outsideOnly_pre (fun w => outsideOnly_pre.refl w) (fun c => ?_)
  split
  · intro w
    cases stage <;> rename_i v _ <;> cases v <;> exact outsideOnly_pre.refl w
  · exact hmiss

theorem outside_fromCache (sc : Ptr) (stage : Stage) (supplied : Option Ptr) :
    Keeps OutsideOnly (fromCache sc stage.eventName stage.assert supplied : M σ (Option Ptr)) := by
  unfold fromCache
  cases supplied with
  | some p => exact Keeps.pure outsideOnly_pre _
  | none => exact outside_cachedOr sc stage (Keeps.pure outsideOnly_pre _)

/-- What `GetFrameworkService` leaves of the service configurations, whether it succeeds or
fails. -/
theorem GetFrameworkService_configs (d : Deps σ) (sc : Ptr) (w : World σ) :
    (GetFrameworkService d sc w).world.configs = configsAfterResolution d sc w.configs := by
  have hdef : ∃ w0, defaultImageLanguage d sc w = .ok () w0 ∧
      w0.configs = configsAfterResolution d sc w.configs := by
    unfold defaultImageLanguage configsAfterResolution
    split
    · exact ⟨_, rfl, rfl⟩
    · exact ⟨_, rfl, rfl⟩
  obtain ⟨w0, h0, hc0⟩ := hdef
  unfold GetFrameworkService
  simp only [bind_eq, pure_eq]
  rw [bind_of_ok h0, bind_of_ok (getWorld_run w0), ← hc0]
  have k : Keeps OutsideOnly
      (M.bind (wrapErr ("failed to resolve language '" ++ (w0.configs sc).Language ++
          "' for service '" ++ (w0.configs sc).Name ++ "', ")
        (callE (.resolveFramework (w0.configs sc).Language)
          (fun s => d.resolveFramework s (w0.configs sc).Language)))
        (fun frameworkService => M.bind (resolveCompositeFramework d (w0.configs sc))
          (fun compositeFramework =>
            match compositeFramework with
            | some c => M.bind (call (.setSource c frameworkService)
                (fun s => d.setSource s c frameworkService)) (fun _ => M.pure c)
            | none => M.pure frameworkService))) := by
    refine Keeps.bind outsideOnly_pre (Keeps.wrapErr _ (outside_callE _ _)) (fun fw => ?_)
    refine Keeps.bind outsideOnly_pre (outside_resolveCompositeFramework d _) (fun comp => ?_)
    split
    · exact Keeps.bind outsideOnly_pre (outside_call _ _) (fun _ => Keeps.pure outsideOnly_pre _)
    · exact Keeps.pure outsideOnly_pre _
  exact (k w0).2.2.2.1

end outside

/-! ## The trailing segment of the container environment id -/

section segment

theorem stringsSplitChars_ne_nil (sep : Char) : ∀ cs, stringsSplitChars sep cs ≠ []
  | [] => by simp [stringsSplitChars]
  | c :: cs => by
    unfold stringsSplitChars
    split
    · simp
    · split <;> simp

theorem stringsSplitChars_of_not_mem (sep : Char) :
    ∀ cs, sep ∉ cs → stringsSplitChars sep cs = [cs]
  | [], _ => rfl
  | c :: cs, h => by
    have hc : ¬ c = sep := fun hh => h (by simp [hh])
    have ih := stringsSplitChars_of_not_mem sep cs (fun hm => h (List.mem_cons_of_mem _ hm))
    simp [stringsSplitChars, hc, ih]

theorem stringsSplitChars_append (sep : Char) (t : List Char) :
    ∀ pre, stringsSplitChars sep (pre ++ sep :: t) =
      stringsSplitChars sep pre ++ stringsSplitChars sep t
  | [] => by simp [stringsSplitChars]
  | c :: pre => by
    have ih := stringsSplitChars_append sep t pre
    by_cases hc : c = sep
    · simp [stringsSplitChars, hc, ih]
    · have hne := stringsSplitChars_ne_nil sep pre
      cases hp : stringsSplitChars sep pre with
      | nil => exact absurd hp hne
      | cons h0 tl0 =>
        rw [hp] at ih
        simp [stringsSplitChars, hc, ih, hp]

/-- The last element of `strings.Split(s, "/")` of a string without `/` is the string. -/
theorem lastSegment_of_no_slash (s : String) (h : '/' ∉ s.data) : lastSegment s = s := by
  unfold lastSegment
  rw [stringsSplitChars_of_not_mem '/' s.data h]
  rfl

/-- The last element of `strings.Split(s, "/")` is what follows the last `/` of `s`. -/
theorem lastSegment_after_slash (s : String) (pre t : List Char) (hs : s.data = pre ++ '/' :: t)
    (ht : '/' ∉ t) : lastSegment s = String.mk t := by
  unfold lastSegment
  rw [hs, stringsSplitChars_append, stringsSplitChars_of_not_mem '/' t ht]
  simp

/-- The last element of `strings.Split(s, "/")` is empty only for the empty string and for
a string that ends in `/`. -/
theorem lastSegment_eq_empty (s : String) (h : lastSegment s = "") :
    s = "" ∨ s.data.getLast? = some '/' := by
  by_cases hm : '/' ∈ s.data
  · right
    have hr : '/' ∈ s.data.reverse := by simpa using hm
    obtain ⟨as, bs, hab, hna⟩ := List.eq_append_cons_of_mem hr
    have hs : s.data = bs.reverse ++ '/' :: as.reverse := by
      have := congrArg List.reverse hab
      simpa using this
    have hl := lastSegment_after_slash s bs.reverse as.reverse hs (by simpa using hna)
    rw [hl] at h
    have has : as.reverse = [] := by
      have := congrArg String.data h
      simpa using this
    rw [hs, has]
    simp
  · left
    rw [lastSegment_of_no_slash s hm] at h
    exact h

end segment

/-! ## The deployment destination -/

section destination

variable {σ α β : Type}

/-- A relation kept by the first action, and by the continuation from every state the first
action returns in, is kept by the bind. -/
theorem bind_rel {R : World σ → World σ → Prop} (hR : Pre R) {m : M σ α} {f : α → M σ β}
    {w : World σ} (hm : R w (m w).world)
    (hf : ∀ a w1, m w = .ok a w1 → R w1 (f a w1).world) : R w (M.bind m f w).world := by
  rw [bind_run]
  cases h : m w with
  | ok a w1 =>
    rw [h] at hm
    exact hR.trans hm (hf a w1 h)
  | err e w1 =>
    rw [h] at hm
    exact hm
  | panic w1 =>
    rw [h] at hm
    exact hm

/-- The destination resolution for the managed container-app host when the per-service
property is set or the service is self-provisioning: the environment variable is not read
and the property value is the resource name. -/
theorem targetResource_verbatim {d : Deps σ} {sc : Ptr} {w : World σ}
    (hhost : (w.configs sc).Host = d.DotNetContainerAppTarget)
    (hver : ¬ (w.env.GetServiceProperty (w.configs sc).Name "CONTAINER_ENVIRONMENT_NAME" = "" ∧
      (w.configs sc).DotNetContainerApp = none)) :
    Deploy.targetResource d sc w =
      M.bind (wrapErr "getting resource group name: "
        (callE (.getResourceGroupName w.env.GetSubscriptionId
            (if (w.configs sc).ResourceGroupName.Empty = true
              then (w.configs sc).Project.ResourceGroupName
              else (w.configs sc).ResourceGroupName))
          (fun s => d.GetResourceGroupName s w.env.GetSubscriptionId
            (if (w.configs sc).ResourceGroupName.Empty = true
              then (w.configs sc).Project.ResourceGroupName
              else (w.configs sc).ResourceGroupName))))
        (fun resourceGroupName => M.pure (some
          { subscriptionId := w.env.GetSubscriptionId
            resourceGroupName := resourceGroupName
            resourceName :=
              w.env.GetServiceProperty (w.configs sc).Name "CONTAINER_ENVIRONMENT_NAME"
            resourceType := d.AzureResourceTypeContainerAppEnvironment }))
        { w with trace := w.trace ++
          [Call.getServiceProperty (w.configs sc).Name "CONTAINER_ENVIRONMENT_NAME"] } := by
  unfold Deploy.targetResource
  simp only [bind_eq, pure_eq]
  rw [bind_of_ok (getWorld_run w), if_pos hhost, bind_of_ok (note_run _ w), if_neg hver,
    bind_of_ok (pure_run _ _)]

/-- The destination resolution for the managed container-app host when the name is derived
from a non-empty `AZURE_CONTAINER_APPS_ENVIRONMENT_ID`. -/
theorem targetResource_derived {d : Deps σ} {sc : Ptr} {w : World σ}
    (hhost : (w.configs sc).Host = d.DotNetContainerAppTarget)
    (hder : w.env.GetServiceProperty (w.configs sc).Name "CONTAINER_ENVIRONMENT_NAME" = "" ∧
      (w.configs sc).DotNetContainerApp = none)
    (hid : w.env.Getenv "AZURE_CONTAINER_APPS_ENVIRONMENT_ID" ≠ "") :
    Deploy.targetResource d sc w =
      M.bind (wrapErr "getting resource group name: "
        (callE (.getResourceGroupName w.env.GetSubscriptionId
            (if (w.configs sc).ResourceGroupName.Empty = true
              then (w.configs sc).Project.ResourceGroupName
              else (w.configs sc).ResourceGroupName))
          (fun s => d.GetResourceGroupName s w.env.GetSubscriptionId
            (if (w.configs sc).ResourceGroupName.Empty = true
              then (w.configs sc).Project.ResourceGroupName
              else (w.configs sc).ResourceGroupName))))
        (fun resourceGroupName => M.pure (some
          { subscriptionId := w.env.GetSubscriptionId
            resourceGroupName := resourceGroupName
            resourceName := lastSegment (w.env.Getenv "AZURE_CONTAINER_APPS_ENVIRONMENT_ID")
            resourceType := d.AzureResourceTypeContainerAppEnvironment }))
        { w with trace := w.trace ++
          [Call.getServiceProperty (w.configs sc).Name "CONTAINER_ENVIRONMENT_NAME",
            Call.getenv "AZURE_CONTAINER_APPS_ENVIRONMENT_ID"] } := by
  unfold Deploy.targetResource
  simp only [bind_eq, pure_eq]
  rw [bind_of_ok (getWorld_run w), if_pos hhost, bind_of_ok (note_run _ w), if_pos hder]
  simp only [bind_run, note_run, if_neg hid, pure_run, List.append_assoc, List.singleton_append]

/-- The destination resolution for the managed container-app host when the name would be
derived and `AZURE_CONTAINER_APPS_ENVIRONMENT_ID` is empty. -/
theorem targetResource_missing {d : Deps σ} {sc : Ptr} {w : World σ}
    (hhost : (w.configs sc).Host = d.DotNetContainerAppTarget)
    (hder : w.env.GetServiceProperty (w.configs sc).Name "CONTAINER_ENVIRONMENT_NAME" = "" ∧
      (w.configs sc).DotNetContainerApp = none)
    (hid : w.env.Getenv "AZURE_CONTAINER_APPS_ENVIRONMENT_ID" = "") :
    Deploy.targetResource d sc w =
      .err ("could not determine container app environment for service " ++ (w.configs sc).Name ++
          ", have you set AZURE_CONTAINER_ENVIRONMENT_NAME or SERVICE_" ++
          d.ToUpper (w.configs sc).Name ++
          "_CONTAINER_ENVIRONMENT_NAME as an output of your infrastructure?")
        { w with trace := w.trace ++
          [Call.getServiceProperty (w.configs sc).Name "CONTAINER_ENVIRONMENT_NAME",
            Call.getenv "AZURE_CONTAINER_APPS_ENVIRONMENT_ID"] } := by
  unfold Deploy.targetResource
  simp only [bind_eq, pure_eq]
  rw [bind_of_ok (getWorld_run w), if_pos hhost, bind_of_ok (note_run _ w), if_pos hder]
  simp only [bind_run, note_run, if_pos hid, fail_run, List.append_assoc, List.singleton_append]

/-- The destination resolution for the managed container-app host: the calls it makes and
the resource name of the destination it returns. -/
theorem targetResource_dotnet {P : Call → Prop} {d : Deps σ} {sc : Ptr} {w : World σ}
    (hhost : (w.configs sc).Host = d.DotNetContainerAppTarget)
    (hP : ∀ c : Call, (∃ a b, c = .getServiceProperty a b) ∨
      (∃ a b, c = .getResourceGroupName a b) → P c)
    (hgetenv : (w.env.GetServiceProperty (w.configs sc).Name "CONTAINER_ENVIRONMENT_NAME" = "" ∧
      (w.configs sc).DotNetContainerApp = none) → P (.getenv "AZURE_CONTAINER_APPS_ENVIRONMENT_ID")) :
    Traced P w (Deploy.targetResource d sc w).world ∧
      ∀ tr wb, Deploy.targetResource d sc w = .ok tr wb →
        ∃ t, tr = some t ∧
          t.resourceName =
            (if w.env.GetServiceProperty (w.configs sc).Name "CONTAINER_ENVIRONMENT_NAME" = "" ∧
                (w.configs sc).DotNetContainerApp = none
              then lastSegment (w.env.Getenv "AZURE_CONTAINER_APPS_ENVIRONMENT_ID")
              else w.env.GetServiceProperty (w.configs sc).Name "CONTAINER_ENVIRONMENT_NAME") ∧
          ((w.env.GetServiceProperty (w.configs sc).Name "CONTAINER_ENVIRONMENT_NAME" = "" ∧
              (w.configs sc).DotNetContainerApp = none) →
            w.env.Getenv "AZURE_CONTAINER_APPS_ENVIRONMENT_ID" ≠ "") := by
  have hA : Ambient P (@Traced σ P) := traced_ambient P
  have hgsp : P (.getServiceProperty (w.configs sc).Name "CONTAINER_ENVIRONMENT_NAME") :=
    hP _ (Or.inl ⟨_, _, rfl⟩)
  have tail : ∀ (name : String) (w0 : World σ),
      Traced P w0 ((M.bind (wrapErr "getting resource group name: "
        (callE (.getResourceGroupName w.env.GetSubscriptionId
            (if (w.configs sc).ResourceGroupName.Empty = true
              then (w.configs sc).Project.ResourceGroupName
              else (w.configs sc).ResourceGroupName))
          (fun s => d.GetResourceGroupName s w.env.GetSubscriptionId
            (if (w.configs sc).ResourceGroupName.Empty = true
              then (w.configs sc).Project.ResourceGroupName
              else (w.configs sc).ResourceGroupName))))
        (fun resourceGroupName => M.pure (some
          ({ subscriptionId := w.env.GetSubscriptionId
             resourceGroupName := resourceGroupName
             resourceName := name
             resourceType := d.AzureResourceTypeContainerAppEnvironment } : TargetResource))))
        w0).world ∧
      ∀ tr wb, (M.bind (wrapErr "getting resource group name: "
        (callE (.getResourceGroupName w.env.GetSubscriptionId
            (if (w.configs sc).ResourceGroupName.Empty = true
              then (w.configs sc).Project.ResourceGroupName
              else (w.configs sc).ResourceGroupName))
          (fun s => d.GetResourceGroupName s w.env.GetSubscriptionId
            (if (w.configs sc).ResourceGroupName.Empty = true
              then (w.configs sc).Project.ResourceGroupName
              else (w.configs sc).ResourceGroupName))))
        (fun resourceGroupName => M.pure (some
          ({ subscriptionId := w.env.GetSubscriptionId
             resourceGroupName := resourceGroupName
             resourceName := name
             resourceType := d.AzureResourceTypeContainerAppEnvironment } : TargetResource))))
        w0 = .ok tr wb → ∃ t, tr = some t ∧ t.resourceName = name := by
    intro name w0
    refine ⟨Keeps.bind hA.toPre (Keeps.wrapErr _ (Keeps.callE (hA.step (hP _ (Or.inr ⟨_, _, rfl⟩)))))
      (fun _ => Keeps.pure hA.toPre _) w0, ?_⟩
    intro tr wb h
    obtain ⟨rg, w1, -, h1⟩ := bind_eq_ok.1 h
    simp at h1
    exact ⟨_, h1.1.symm, rfl⟩
  by_cases hder : w.env.GetServiceProperty (w.configs sc).Name "CONTAINER_ENVIRONMENT_NAME" = "" ∧
      (w.configs sc).DotNetContainerApp = none
  · by_cases hid : w.env.Getenv "AZURE_CONTAINER_APPS_ENVIRONMENT_ID" = ""
    · rw [targetResource_missing hhost hder hid]
      refine ⟨⟨_, rfl, ?_⟩, ?_⟩
      · intro c hc
        simp at hc
        rcases hc with rfl | rfl
        · exact hgsp
        · exact hgetenv hder
      · intro tr wb h
        cases h
    · rw [targetResource_derived hhost hder hid]
      obtain ⟨t1, t2⟩ := tail (lastSegment (w.env.Getenv "AZURE_CONTAINER_APPS_ENVIRONMENT_ID"))
        { w with trace := w.trace ++
          [Call.getServiceProperty (w.configs sc).Name "CONTAINER_ENVIRONMENT_NAME",
            Call.getenv "AZURE_CONTAINER_APPS_ENVIRONMENT_ID"] }
      refine ⟨hA.toPre.trans ⟨_, rfl, ?_⟩ t1, ?_⟩
      · intro c hc
        simp at hc
        rcases hc with rfl | rfl
        · exact hgsp
        · exact hgetenv hder
      · intro tr wb h
        obtain ⟨t, ht, hn⟩ := t2 tr wb h
        exact ⟨t, ht, by rw [if_pos hder]; exact hn, fun _ => hid⟩
  · rw [targetResource_verbatim hhost hder]
    obtain ⟨t1, t2⟩ := tail
      (w.env.GetServiceProperty (w.configs sc).Name "CONTAINER_ENVIRONMENT_NAME")
      { w with trace := w.trace ++
        [Call.getServiceProperty (w.configs sc).Name "CONTAINER_ENVIRONMENT_NAME"] }
    refine ⟨hA.toPre.trans (Traced.log hgsp w) t1, ?_⟩
    intro tr wb h
    obtain ⟨t, ht, hn⟩ := t2 tr wb h
    exact ⟨t, ht, by rw [if_neg hder]; exact hn, fun hh => absurd hh hder⟩

/-- The calls every `Deploy` may make besides destination resolution and `Target.Deploy`. -/
theorem Deploy_traced {P : Call → Prop} {d : Deps σ} {sc : Ptr} {prev : Option Ptr}
    {w : World σ}
    (hbase : ∀ c : Call, (∃ n, c = .resolveTarget n) ∨ (∃ f, c = .isEnabled f) ∨
      (∃ m, c = .log m) ∨ (∃ a b, c = .getServiceProperty a b) ∨
      (∃ a b, c = .raiseEvent a b) → P c)
    (hdest : ∀ wa, OutsideOnly w wa →
      Traced P wa (Deploy.targetResource d sc wa).world ∧
        ∀ tr wb, Deploy.targetResource d sc wa = .ok tr wb →
          ∀ tgt pr, P (.targetDeploy tgt sc pr tr)) :
    Traced P w (Deploy d sc prev w).world := by
  have hA : Ambient P (@Traced σ P) := traced_ambient P
  unfold Deploy
  cases hu : usable (w.operationCache
      (cacheKey w.env.Name (w.configs sc).Name ServiceEventDeploy)) with
  | some v =>
    rw [cachedOr_of_hit hu]
    exact keeps_assert hA .deploy v w
  | none =>
    rw [cachedOr_of_miss hu]
    simp only [bind_eq, pure_eq]
    refine bind_rel hA.toPre (keeps_fromCache hA sc .package prev w) (fun pr w0 h0 => ?_)
    have o0 : OutsideOnly w w0 := by
      have k := outside_fromCache sc .package prev w
      have h0b : fromCache sc Stage.package.eventName Stage.package.assert prev w = .ok pr w0 := h0
      rw [h0b] at k
      exact k
    refine bind_rel hA.toPre (Keeps.wrapErr _ (keeps_GetServiceTarget hA
      (fun c hc => hbase c (by tauto)) d sc) w0) (fun tgt wa ha => ?_)
    have oa : OutsideOnly w wa := by
      have k := outside_GetServiceTarget d sc w0
      rw [wrapErr_eq_ok.1 ha] at k
      exact outsideOnly_pre.trans o0 k
    obtain ⟨htr, hcall⟩ := hdest wa oa
    refine bind_rel hA.toPre htr (fun tr wb hb => ?_)
    refine bind_rel hA.toPre (Keeps.getWorld hA.toPre wb) (fun w1 w2 h2 => ?_)
    refine Keeps.bind hA.toPre (Keeps.wrapErr _ (keeps_Invoke hA d sc _
      (hbase _ (by simp)) (hbase _ (by simp))
      (keeps_targetDeploy hA d tgt sc pr tr (hcall tr wb hb tgt pr)))) (fun dr => ?_) w2
    refine Keeps.bind hA.toPre ?_
      (fun _ => Keeps.bind hA.toPre (fun w => Traced.of_trace_eq rfl)
        (fun _ => Keeps.pure hA.toPre _))
    unfold Deploy.applyOverride OverriddenEndpoints
    simp only [bind_eq, pure_eq]
    refine Keeps.bind hA.toPre ?_ (fun eps => ?_)
    · refine Keeps.bind hA.toPre (Keeps.getWorld hA.toPre) (fun w3 => ?_)
      refine Keeps.bind hA.toPre (Keeps.note (hA.log (hbase _ (by simp)))) (fun _ => ?_)
      refine Keeps.ite ?_ (Keeps.pure hA.toPre _)
      exact Keeps.bind hA.toPre
        (Keeps.ite (Keeps.note (hA.log (hbase _ (by simp)))) (Keeps.pure hA.toPre _))
        (fun _ => Keeps.pure hA.toPre _)
    · refine Keeps.ite ?_ (Keeps.pure hA.toPre _)
      split
      · exact fun w => hA.heap w _ _ _ _
      · exact Keeps.goPanic hA.toPre

/-- On a cache miss, once the target and the destination are resolved and the pre-deploy
handlers succeed, `Deploy` calls `Target.Deploy` with the package result and the
destination. -/
theorem Deploy_reaches_target {d : Deps σ} {sc : Ptr} {prev pr : Option Ptr}
    {w wa wb : World σ} {tgt : Nat} {tr : Option TargetResource}
    (hmiss : usable (w.operationCache
      (cacheKey w.env.Name (w.configs sc).Name ServiceEventDeploy)) = none)
    (hfc : fromCache sc ServiceEventPackage assertPackage prev w = .ok pr w)
    (hT : GetServiceTarget d sc w = .ok tgt wa)
    (hR : Deploy.targetResource d sc wa = .ok tr wb)
    (hpre : (d.raiseEvent wb.ext sc "predeploy").1 = .ok ()) :
    Call.targetDeploy tgt sc pr tr ∈ (Deploy d sc prev w).world.trace.drop w.trace.length := by
  have hA : Ambient (fun _ : Call => True) (@Traced σ (fun _ : Call => True)) :=
    traced_ambient _
  have hD : Deploy d sc prev w = _ := @cachedOr_of_miss σ sc ServiceEventDeploy assertDeploy (do
      let packageResult ← fromCache sc ServiceEventPackage assertPackage prev
      let serviceTarget ← wrapErr "getting service target: " (GetServiceTarget d sc)
      let targetResource ← Deploy.targetResource d sc
      let w ← getWorld
      let deployResult ← wrapErr ("failed deploying service '" ++ (w.configs sc).Name ++ "': ")
        (runCommand d ServiceEventDeploy sc
          (targetDeploy d serviceTarget sc packageResult targetResource))
      Deploy.applyOverride d sc deployResult
      setOperationResult sc ServiceEventDeploy (.deploy deployResult)
      pure deployResult) w hmiss
  simp only [bind_eq, pure_eq] at hD
  rw [bind_of_ok hfc] at hD
  have k1 := keeps_GetServiceTarget hA (fun _ _ => trivial) d sc w
  have k2 := keeps_targetResource hA (fun _ _ => trivial) d sc wa
  rw [hT] at k1
  rw [hR] at k2
  obtain ⟨t0, ht0, -⟩ := (traced_pre _).trans k1 k2
  have hfin : ∃ t2, (Deploy d sc prev w).world.trace =
      wb.trace ++ [Call.raiseEvent sc "predeploy", Call.targetDeploy tgt sc pr tr] ++ t2 := by
    rw [hD, bind_of_ok (wrapErr_of_ok hT), bind_of_ok hR, bind_of_ok (getWorld_run wb)]
    have hpre1 : callE (.raiseEvent sc ("pre" ++ ServiceEventDeploy))
        (fun s => d.raiseEvent s sc ("pre" ++ ServiceEventDeploy)) wb =
        .ok () { wb with ext := (d.raiseEvent wb.ext sc "predeploy").2,
                         trace := wb.trace ++ [Call.raiseEvent sc "predeploy"] } :=
      callE_of_ok hpre
    have s1 := @bind_world σ _ _ _ (traced_pre (fun _ : Call => True))
      (fun deployResult => M.bind (Deploy.applyOverride d sc deployResult)
        (fun _ => M.bind (setOperationResult sc ServiceEventDeploy (.deploy deployResult))
          (fun _ => M.pure deployResult)))
      (fun dr => Keeps.bind hA.toPre
        (keeps_applyOverride hA (fun _ _ => trivial) d sc dr)
        (fun _ => Keeps.bind hA.toPre (fun w => Traced.of_trace_eq rfl)
          (fun _ => Keeps.pure hA.toPre _)))
      (wrapErr ("failed deploying service '" ++ (wb.configs sc).Name ++ "': ")
        (runCommand d ServiceEventDeploy sc (targetDeploy d tgt sc pr tr))) wb
    rw [wrapErr_world] at s1
    have hrun : runCommand d ServiceEventDeploy sc (targetDeploy d tgt sc pr tr) wb =
        M.bind (targetDeploy d tgt sc pr tr) (fun result =>
          M.bind (callE (.raiseEvent sc ("post" ++ ServiceEventDeploy))
            (fun s => d.raiseEvent s sc ("post" ++ ServiceEventDeploy)))
            (fun _ => M.pure result))
          { wb with ext := (d.raiseEvent wb.ext sc "predeploy").2,
                    trace := wb.trace ++ [Call.raiseEvent sc "predeploy"] } := by
      unfold runCommand Invoke
      simp only [bind_eq, pure_eq]
      rw [bind_of_ok hpre1]
    rw [hrun] at s1
    have s2 := @bind_world σ _ _ _ (traced_pre (fun _ : Call => True))
      (fun result =>
          M.bind (callE (.raiseEvent sc ("post" ++ ServiceEventDeploy))
            (fun s => d.raiseEvent s sc ("post" ++ ServiceEventDeploy)))
            (fun _ => M.pure result))
      (fun r => Keeps.bind (traced_pre _)
        (Keeps.callE ((traced_ambient (fun _ : Call => True)).step trivial))
        (fun _ => Keeps.pure (traced_pre _) _))
      (targetDeploy d tgt sc pr tr)
      { wb with ext := (d.raiseEvent wb.ext sc "predeploy").2,
                trace := wb.trace ++ [Call.raiseEvent sc "predeploy"] }
    have s3 := @bind_world σ _ _ _ (traced_pre (fun _ : Call => True))
      (fun r : Option ServiceDeployResult =>
        (match r with
          | some v => M.bind (allocDeploy v) (fun q => M.pure (some q))
          | none => M.pure none : M σ (Option Ptr)))
      (fun r => by
        cases r with
        | some v =>
          exact Keeps.bind (traced_pre _) (fun w => Traced.of_trace_eq rfl)
            (fun _ => Keeps.pure (traced_pre _) _)
        | none => exact Keeps.pure (traced_pre _) _)
      (callE (.targetDeploy tgt sc pr tr)
        (fun s => d.targetDeploy s tgt sc pr tr))
      { wb with ext := (d.raiseEvent wb.ext sc "predeploy").2,
                trace := wb.trace ++ [Call.raiseEvent sc "predeploy"] }
    rw [callE_world] at s3
    obtain ⟨t2, ht2, -⟩ := (traced_pre _).trans ((traced_pre _).trans s3 s2) s1
    refine ⟨t2, ?_⟩
    rw [ht2]
    simp
  obtain ⟨t2, ht2⟩ := hfin
  have ht0b : wb.trace = w.trace ++ t0 := ht0
  rw [ht2, ht0b]
  simp only [List.append_assoc]
  rw [List.drop_left' rfl]
  simp

/-- The destination of a service on the managed container-app host, once the resource group
name is obtained: the resource name is the property value, or the last segment of the
environment id when the name is derived. -/
theorem targetResource_reached {d : Deps σ} {sc : Ptr} {w : World σ} {rg : String}
    (hhost : (w.configs sc).Host = d.DotNetContainerAppTarget)
    (hid : (w.env.GetServiceProperty (w.configs sc).Name "CONTAINER_ENVIRONMENT_NAME" = "" ∧
      (w.configs sc).DotNetContainerApp = none) →
        w.env.Getenv "AZURE_CONTAINER_APPS_ENVIRONMENT_ID" ≠ "")
    (hrg : (d.GetResourceGroupName w.ext w.env.GetSubscriptionId
      (if (w.configs sc).ResourceGroupName.Empty = true
        then (w.configs sc).Project.ResourceGroupName
        else (w.configs sc).ResourceGroupName)).1 = .ok rg) :
    ∃ wb, Deploy.targetResource d sc w =
        .ok (some (TargetResource.mk w.env.GetSubscriptionId rg
          (if w.env.GetServiceProperty (w.configs sc).Name "CONTAINER_ENVIRONMENT_NAME" = "" ∧
              (w.configs sc).DotNetContainerApp = none
            then lastSegment (w.env.Getenv "AZURE_CONTAINER_APPS_ENVIRONMENT_ID")
            else w.env.GetServiceProperty (w.configs sc).Name "CONTAINER_ENVIRONMENT_NAME")
          d.AzureResourceTypeContainerAppEnvironment)) wb ∧
      wb.ext = (d.GetResourceGroupName w.ext w.env.GetSubscriptionId
        (if (w.configs sc).ResourceGroupName.Empty = true
          then (w.configs sc).Project.ResourceGroupName
          else (w.configs sc).ResourceGroupName)).2 := by
  by_cases hder : w.env.GetServiceProperty (w.configs sc).Name "CONTAINER_ENVIRONMENT_NAME" = "" ∧
      (w.configs sc).DotNetContainerApp = none
  · rw [targetResource_derived hhost hder (hid hder), if_pos hder,
      bind_of_ok (wrapErr_of_ok (callE_of_ok hrg))]
    exact ⟨_, rfl, rfl⟩
  · rw [targetResource_verbatim hhost hder, if_neg hder,
      bind_of_ok (wrapErr_of_ok (callE_of_ok hrg))]
    exact ⟨_, rfl, rfl⟩

end destination

/-! ## The predecessor stages inside `Package` -/

section predecessors

variable {σ α β : Type}

theorem traced_loose (P : Call → Prop) : Loose P (@Traced σ P) where
  toAmbient := traced_ambient P
  cache := fun _ _ => Traced.of_trace_eq rfl

theorem buildsKept_calm (P : Call → Prop) : Calm P (@BuildsKept σ P) where
  toPre :=
    { refl := fun w => ⟨rfl, (traced_pre P).refl w⟩
      trans := fun h1 h2 => ⟨h2.1.trans h1.1, (traced_pre P).trans h1.2 h2.2⟩ }
  step := fun h w s => ⟨rfl, Traced.step h w s⟩
  packages := fun _ _ _ => ⟨rfl, Traced.of_trace_eq rfl⟩
  cache := fun _ _ => ⟨rfl, Traced.of_trace_eq rfl⟩

variable {P : Call → Prop} {R : World σ → World σ → Prop}

theorem keeps_resolveComposite_calls (hR : Ambient P R)
    (hP : ∀ c : Call, frameworkResolutionCall c → P c) (d : Deps σ)
    (cfg : ServiceConfig) : Keeps R (resolveCompositeFramework d cfg) := by
  unfold resolveCompositeFramework
  simp only [bind_eq, pure_eq]
  refine Keeps.ite ?_ (Keeps.ite ?_ (Keeps.pure hR.toPre _))
  · exact Keeps.bind hR.toPre
      (Keeps.wrapErr _ (Keeps.callE (hR.step (hP _ trivial))))
      (fun _ => Keeps.pure hR.toPre _)
  · refine Keeps.bind hR.toPre
      (Keeps.wrapErr _ (Keeps.callE (hR.step (hP _ trivial)))) (fun b => ?_)
    refine Keeps.ite ?_ (Keeps.pure hR.toPre _)
    refine Keeps.bind hR.toPre
      (Keeps.wrapErr _ (Keeps.callE (hR.step (hP _ trivial)))) (fun _ => ?_)
    exact Keeps.bind hR.toPre (Keeps.note (hR.log (hP _ trivial)))
      (fun _ => Keeps.pure hR.toPre _)

theorem keeps_GetFrameworkService_calls (hR : Ambient P R)
    (hP : ∀ c : Call, frameworkResolutionCall c → P c) (d : Deps σ) (sc : Ptr) :
    Keeps R (GetFrameworkService d sc) := by
  unfold GetFrameworkService
  simp only [bind_eq, pure_eq]
  refine Keeps.bind hR.toPre (keeps_defaultImageLanguage hR d sc) (fun _ => ?_)
  refine Keeps.bind hR.toPre (Keeps.getWorld hR.toPre) (fun w => ?_)
  refine Keeps.bind hR.toPre
    (Keeps.wrapErr _ (Keeps.callE (hR.step (hP _ trivial)))) (fun fw => ?_)
  refine Keeps.bind hR.toPre (keeps_resolveComposite_calls hR hP d _) (fun comp => ?_)
  split
  · exact Keeps.bind hR.toPre (Keeps.call (hR.step (hP _ trivial)))
      (fun _ => Keeps.pure hR.toPre _)
  · exact Keeps.pure hR.toPre _

theorem keeps_frameworkRestore (hR : Loose P R) (d : Deps σ) (fw : Nat) (sc : Ptr)
    (hP : P (.frameworkRestore fw sc)) : Keeps R (frameworkRestore d fw sc) := by
  unfold frameworkRestore
  simp only [bind_eq, pure_eq]
  refine Keeps.bind hR.toPre (Keeps.callE (hR.step hP)) (fun r => ?_)
  split
  · exact Keeps.bind hR.toPre (fun w => hR.heap w _ _ _ _) (fun _ => Keeps.pure hR.toPre _)
  · exact Keeps.pure hR.toPre _

theorem keeps_frameworkBuild (hR : Loose P R) (d : Deps σ) (fw : Nat) (sc : Ptr)
    (ro : Option Ptr) (hP : P (.frameworkBuild fw sc ro)) :
    Keeps R (frameworkBuild d fw sc ro) := by
  unfold frameworkBuild
  simp only [bind_eq, pure_eq]
  refine Keeps.bind hR.toPre (Keeps.callE (hR.step hP)) (fun r => ?_)
  split
  · exact Keeps.bind hR.toPre (fun w => hR.heap w _ _ _ _) (fun _ => Keeps.pure hR.toPre _)
  · exact Keeps.pure hR.toPre _

theorem keeps_setOperationResult (hR : Loose P R) (sc : Ptr) (name : String) (v : AnyValue) :
    Keeps R (setOperationResult sc name v : M σ Unit) :=
  fun w => hR.cache w _

theorem keeps_Restore (hR : Loose P R)
    (hP : ∀ c : Call, restoreStageCall c → P c) (d : Deps σ) (sc : Ptr) :
    Keeps R (Restore d sc) := by
  unfold Restore
  refine keeps_cachedOr hR.toAmbient sc Stage.restore ?_
  simp only [bind_eq, pure_eq]
  refine Keeps.bind hR.toPre (Keeps.wrapErr _ (keeps_GetFrameworkService_calls hR.toAmbient
    (fun c hc => hP c ?_) d sc)) (fun fw => ?_)
  · cases c <;> simp [frameworkResolutionCall] at hc <;> simp [restoreStageCall]
  refine Keeps.bind hR.toPre (Keeps.getWorld hR.toPre) (fun w => ?_)
  refine Keeps.bind hR.toPre (Keeps.wrapErr _ ?_) (fun r => ?_)
  · exact keeps_Invoke hR.toAmbient d sc _ (hP _ (Or.inl rfl)) (hP _ (Or.inr rfl))
      (keeps_frameworkRestore hR d fw sc (hP _ trivial))
  · exact Keeps.bind hR.toPre (keeps_setOperationResult hR _ _ _) (fun _ => Keeps.pure hR.toPre _)

theorem keeps_Build (hR : Loose P R)
    (hP : ∀ c : Call, buildStageCall c → P c) (d : Deps σ) (sc : Ptr) (ro : Option Ptr) :
    Keeps R (Build d sc ro) := by
  unfold Build
  refine keeps_cachedOr hR.toAmbient sc Stage.build ?_
  simp only [bind_eq, pure_eq]
  refine Keeps.bind hR.toPre (keeps_fromCache hR.toAmbient sc Stage.restore ro) (fun ro1 => ?_)
  refine Keeps.bind hR.toPre (Keeps.wrapErr _ (keeps_GetFrameworkService_calls hR.toAmbient
    (fun c hc => hP c ?_) d sc)) (fun fw => ?_)
  · cases c <;> simp [frameworkResolutionCall] at hc <;> simp [buildStageCall]
  refine Keeps.bind hR.toPre (Keeps.getWorld hR.toPre) (fun w => ?_)
  refine Keeps.bind hR.toPre (Keeps.wrapErr _ ?_) (fun r => ?_)
  · exact keeps_Invoke hR.toAmbient d sc _ (hP _ (Or.inl rfl)) (hP _ (Or.inr rfl))
      (keeps_frameworkBuild hR d fw sc ro1 (hP _ trivial))
  · exact Keeps.bind hR.toPre (keeps_setOperationResult hR _ _ _) (fun _ => Keeps.pure hR.toPre _)

theorem keeps_buildStep (hR : Loose P R)
    (hP : ∀ c : Call, buildStageCall c → P c) (d : Deps σ) (sc : Ptr) (avail : Option Ptr)
    (requireBuild : Bool) (rr : Option Ptr) :
    Keeps R (Package.buildStep d sc avail requireBuild rr) := by
  unfold Package.buildStep
  simp only [bind_eq, pure_eq]
  refine Keeps.bind hR.toPre (fun w => hR.heap w _ _ _ _) (fun fresh => ?_)
  refine Keeps.bind hR.toPre (Keeps.ite (keeps_Build hR hP d sc rr) (Keeps.pure hR.toPre _))
    (fun br => ?_)
  cases avail with
  | some b => exact Keeps.pure hR.toPre _
  | none =>
    cases br with
    | none => exact Keeps.goPanic hR.toPre
    | some b =>
      exact Keeps.bind hR.toPre (fun w => hR.heap w _ _ _ _) (fun _ => Keeps.pure hR.toPre _)

theorem keeps_restoreStep (hR : Loose P R)
    (hP : ∀ c : Call, restoreStageCall c → P c) (d : Deps σ) (sc : Ptr) (avail : Option Ptr)
    (req : FrameworkRequirements) (fresh : Ptr) :
    Keeps R (Package.restoreStep d sc avail req fresh) := by
  intro w
  unfold Package.restoreStep
  split
  · exact keeps_Restore hR hP d sc w
  · exact hR.refl w

theorem calm_Invoke (hR : Calm P R) (d : Deps σ) (sc : Ptr) (ev : String) {body : M σ α}
    (hpre : P (.raiseEvent sc ("pre" ++ ev))) (hpost : P (.raiseEvent sc ("post" ++ ev)))
    (hbody : Keeps R body) : Keeps R (Invoke d sc ev body) := by
  unfold Invoke
  simp only [bind_eq, pure_eq]
  refine Keeps.bind hR.toPre (Keeps.callE (hR.step hpre)) (fun _ => ?_)
  refine Keeps.bind hR.toPre hbody (fun r => ?_)
  exact Keeps.bind hR.toPre (Keeps.callE (hR.step hpost)) (fun _ => Keeps.pure hR.toPre _)

theorem calm_targetPackage (hR : Calm P R) (d : Deps σ) (tgt : Nat) (sc : Ptr)
    (fp : Option Nat) (hP : P (.targetPackage tgt sc fp)) :
    Keeps R (targetPackage d tgt sc fp) := by
  unfold targetPackage
  simp only [bind_eq, pure_eq]
  refine Keeps.bind hR.toPre (Keeps.callE (hR.step hP)) (fun r => ?_)
  split
  · exact Keeps.bind hR.toPre (fun w => hR.packages w _ _) (fun _ => Keeps.pure hR.toPre _)
  · exact Keeps.pure hR.toPre _

theorem calm_packageEvent (hR : Calm P R) (d : Deps σ) (sc : Ptr) (fw tgt : Nat)
    (bo : Option Ptr) (hpre : P (.raiseEvent sc "prepackage"))
    (hpost : P (.raiseEvent sc "postpackage")) (hfp : P (.frameworkPackage fw sc bo))
    (htp : ∀ fp, P (.targetPackage tgt sc fp)) :
    Keeps R (Package.packageEvent d sc fw tgt bo) := by
  unfold Package.packageEvent
  simp only [bind_eq, pure_eq]
  refine Keeps.bind hR.toPre (Keeps.getWorld hR.toPre) (fun w => ?_)
  refine Keeps.wrapErr _ (calm_Invoke hR d sc _ hpre hpost ?_)
  refine Keeps.bind hR.toPre (Keeps.callE (hR.step hfp)) (fun fp => ?_)
  refine Keeps.bind hR.toPre (calm_targetPackage hR d tgt sc fp (htp fp)) (fun r => ?_)
  exact Keeps.bind hR.toPre (fun w => hR.cache w _) (fun _ => Keeps.pure hR.toPre _)

theorem calm_moveFile (hR : Calm P R)
    (hP : ∀ c : Call, c.kind = .os → P c) (d : Deps σ) (src dst : String) :
    Keeps R (moveFile d src dst) := by
  unfold moveFile
  simp only [bind_eq, pure_eq]
  refine Keeps.bind hR.toPre (Keeps.wrapErr _ (Keeps.callE (hR.step (hP _ rfl)))) (fun _ => ?_)
  refine Keeps.withDefer hR.toPre (Keeps.call (hR.step (hP _ rfl))) ?_
  refine Keeps.bind hR.toPre (Keeps.wrapErr _ (Keeps.callE (hR.step (hP _ rfl)))) (fun _ => ?_)
  refine Keeps.withDefer hR.toPre (Keeps.call (hR.step (hP _ rfl))) ?_
  refine Keeps.bind hR.toPre (Keeps.wrapErr _ (Keeps.callE (hR.step (hP _ rfl)))) (fun _ => ?_)
  exact Keeps.withDefer hR.toPre (Keeps.call (hR.step (hP _ rfl))) (Keeps.pure hR.toPre _)

theorem calm_relocate (hR : Calm P R)
    (hP : ∀ c : Call, c.kind = .os → P c) (d : Deps σ) (pr : Option Ptr)
    (options : PackageOptions) : Keeps R (Package.relocate d pr options) := by
  unfold Package.relocate
  cases pr with
  | none => exact Keeps.goPanic hR.toPre
  | some p =>
    simp only [bind_eq, pure_eq]
    refine Keeps.bind hR.toPre (Keeps.getWorld hR.toPre) (fun w => ?_)
    refine Keeps.bind hR.toPre (Keeps.call (hR.step (hP _ rfl))) (fun st => ?_)
    refine Keeps.ite ?_ (Keeps.pure hR.toPre _)
    refine Keeps.bind hR.toPre (Keeps.call (hR.step (hP _ rfl))) (fun st1 => ?_)
    refine Keeps.bind hR.toPre
      (Keeps.ite (Keeps.wrapErr _ (Keeps.callE (hR.step (hP _ rfl)))) (Keeps.pure hR.toPre _))
      (fun _ => ?_)
    refine Keeps.bind hR.toPre (Keeps.wrapErr _ (calm_moveFile hR hP d _ _)) (fun _ => ?_)
    exact Keeps.bind hR.toPre (fun w => hR.packages w _ _) (fun _ => Keeps.pure hR.toPre _)

/-- The package event and the relocation keep the build results and call only the package
event handlers, `Framework.Package` with the given build output, `Target.Package`, and the
operating system. -/
theorem calm_packaging (hR : Calm P R) (d : Deps σ) (sc : Ptr) (fw tgt : Nat)
    (bo : Option Ptr) (options : PackageOptions)
    (hpre : P (.raiseEvent sc "prepackage"))
    (hpost : P (.raiseEvent sc "postpackage")) (hfp : P (.frameworkPackage fw sc bo))
    (htp : ∀ fp, P (.targetPackage tgt sc fp)) (hos : ∀ c : Call, c.kind = .os → P c) :
    Keeps R (M.bind (Package.packageEvent d sc fw tgt bo)
      (fun pr => Package.relocate d pr options)) :=
  Keeps.bind hR.toPre (calm_packageEvent hR d sc fw tgt bo hpre hpost hfp htp)
    (fun pr => calm_relocate hR hos d pr options)

/-- The function `GetFrameworkService` allocates nothing and leaves the build results as they
are. -/
theorem GetFrameworkService_heap (d : Deps σ) (sc : Ptr) (w : World σ) :
    (GetFrameworkService d sc w).world.builds = w.builds ∧
      (GetFrameworkService d sc w).world.nextPtr = w.nextPtr := by
  have hdef : ∃ w0, defaultImageLanguage d sc w = .ok () w0 ∧
      w0.builds = w.builds ∧ w0.nextPtr = w.nextPtr := by
    unfold defaultImageLanguage
    split
    · exact ⟨_, rfl, rfl, rfl⟩
    · exact ⟨_, rfl, rfl, rfl⟩
  obtain ⟨w0, h0, hb0, hn0⟩ := hdef
  unfold GetFrameworkService
  simp only [bind_eq, pure_eq]
  rw [bind_of_ok h0, bind_of_ok (getWorld_run w0), ← hb0, ← hn0]
  have k : Keeps OutsideOnly
      (M.bind (wrapErr ("failed to resolve language '" ++ (w0.configs sc).Language ++
          "' for service '" ++ (w0.configs sc).Name ++ "', ")
        (callE (.resolveFramework (w0.configs sc).Language)
          (fun s => d.resolveFramework s (w0.configs sc).Language)))
        (fun frameworkService => M.bind (resolveCompositeFramework d (w0.configs sc))
          (fun compositeFramework =>
            match compositeFramework with
            | some c => M.bind (call (.setSource c frameworkService)
                (fun s => d.setSource s c frameworkService)) (fun _ => M.pure c)
            | none => M.pure frameworkService))) := by
    refine Keeps.bind outsideOnly_pre (Keeps.wrapErr _ (outside_callE _ _)) (fun fw => ?_)
    refine Keeps.bind outsideOnly_pre (outside_resolveCompositeFramework d _) (fun comp => ?_)
    split
    · exact Keeps.bind outsideOnly_pre (outside_call _ _) (fun _ => Keeps.pure outsideOnly_pre _)
    · exact Keeps.pure outsideOnly_pre _
  exact ⟨(k w0).2.2.2.2.1, (k w0).2.2.2.2.2.2.2⟩

/-- After the cache checks and the resolution of the backends, `Package.produce` is the
restore step, the build step and the package event, from the state the requirements call
leaves. -/
theorem produce_steps {d : Deps σ} {sc : Ptr} {prev avail : Option Ptr} {w wa wb : World σ}
    {fw tgt : Nat}
    (havail : fromCache sc ServiceEventBuild assertBuild prev w = .ok avail w)
    (hfw : GetFrameworkService d sc w = .ok fw wa)
    (htg : GetServiceTarget d sc wa = .ok tgt wb) :
    Package.produce d sc prev w =
      M.bind (Package.restoreStep d sc avail (Package.requirementsAt d fw wb) wb.nextPtr)
        (fun rr => M.bind
          (Package.buildStep d sc avail (Package.requirementsAt d fw wb).RequireBuild rr)
          (fun bo => Package.packageEvent d sc fw tgt bo))
        (Package.stateAfterRequirements d fw wb) := by
  unfold Package.produce
  simp only [bind_eq, pure_eq]
  rw [bind_of_ok havail, bind_of_ok (wrapErr_of_ok hfw), bind_of_ok (wrapErr_of_ok htg)]
  rfl

theorem Package_steps {d : Deps σ} {sc : Ptr} {prev avail : Option Ptr}
    {options : Option PackageOptions} {w wa wb : World σ} {fw tgt : Nat}
    (hmiss : usable (w.operationCache
      (cacheKey w.env.Name (w.configs sc).Name ServiceEventPackage)) = none)
    (havail : fromCache sc ServiceEventBuild assertBuild prev w = .ok avail w)
    (hfw : GetFrameworkService d sc w = .ok fw wa)
    (htg : GetServiceTarget d sc wa = .ok tgt wb) :
    Package d sc prev options w =
      M.bind (Package.restoreStep d sc avail (Package.requirementsAt d fw wb) wb.nextPtr)
        (fun rr => M.bind
          (Package.buildStep d sc avail (Package.requirementsAt d fw wb).RequireBuild rr)
          (fun bo => M.bind (Package.packageEvent d sc fw tgt bo)
            (fun pr => Package.relocate d pr (options.getD { OutputPath := "" }))))
        (Package.stateAfterRequirements d fw wb) := by
  unfold Package
  rw [cachedOr_of_miss hmiss]
  simp only [bind_eq]
  rw [bind_run, produce_steps havail hfw htg, ← bind_run, bind_assoc]
  congr 1
  funext rr
  rw [bind_assoc]

theorem restoreStep_of_required {d : Deps σ} {sc : Ptr} {avail : Option Ptr}
    {req : FrameworkRequirements} {fresh : Ptr} {w : World σ}
    (h : restoreRequired req avail w.builds) :
    Package.restoreStep d sc avail req fresh w = Restore d sc w := by
  obtain ⟨h1, h2⟩ := h
  unfold Package.restoreStep
  rcases h2 with h2 | ⟨b, h2, h3⟩
  · subst h2
    simp [h1]
  · subst h2
    simp [h1, h3]

theorem restoreStep_of_not_required {d : Deps σ} {sc : Ptr} {avail : Option Ptr}
    {req : FrameworkRequirements} {fresh : Ptr} {w : World σ}
    (h : ¬ restoreRequired req avail w.builds) :
    Package.restoreStep d sc avail req fresh w = .ok (some fresh) w := by
  unfold Package.restoreStep
  split
  · rename_i hc
    exfalso
    apply h
    cases avail with
    | none => exact ⟨by simpa using hc, Or.inl rfl⟩
    | some b =>
      simp only [Bool.and_eq_true, decide_eq_true_eq] at hc
      exact ⟨hc.1, Or.inr ⟨b, rfl, hc.2⟩⟩
  · rfl

theorem buildStep_of_some (d : Deps σ) (sc : Ptr) (b0 : Ptr) (requireBuild : Bool)
    (rr : Option Ptr) (w : World σ) :
    Package.buildStep d sc (some b0) requireBuild rr w =
      .ok (some b0) (Package.stateBeforeBuild w) := by
  unfold Package.buildStep
  simp [bind_run, allocBuild, Package.stateBeforeBuild, M.pure]

theorem buildStep_of_required {d : Deps σ} {sc : Ptr} {avail : Option Ptr}
    {req : FrameworkRequirements} {rr : Option Ptr} {w : World σ}
    (h : buildRequired req avail) :
    (Package.buildStep d sc avail req.RequireBuild rr w).world.trace =
        (Build d sc rr (Package.stateBeforeBuild w)).world.trace ∧
      ∀ e w1, Build d sc rr (Package.stateBeforeBuild w) = .err e w1 →
        Package.buildStep d sc avail req.RequireBuild rr w = .err e w1 := by
  obtain ⟨h1, h2⟩ := h
  subst h2
  have e : Package.buildStep d sc none req.RequireBuild rr w =
      M.bind (Build d sc rr) (fun buildResult =>
        match buildResult with
        | some b => M.bind (setBuildRestore b rr) (fun _ => M.pure (some b))
        | none => goPanic) (Package.stateBeforeBuild w) := by
    unfold Package.buildStep
    simp only [bind_eq, pure_eq, h1]
    rfl
  rw [e, bind_run]
  cases hb : Build d sc rr (Package.stateBeforeBuild w) with
  | ok br w1 =>
    cases br with
    | none => exact ⟨rfl, fun e w2 h => by cases h⟩
    | some b => exact ⟨rfl, fun e w2 h => by cases h⟩
  | err e w1 =>
    refine ⟨rfl, fun e2 w2 h => ?_⟩
    cases h
    rfl
  | panic w1 => exact ⟨rfl, fun e w2 h => by cases h⟩

theorem buildStep_of_not_required {d : Deps σ} {sc : Ptr} {avail : Option Ptr}
    {req : FrameworkRequirements} {rr : Option Ptr} {w : World σ}
    (h : ¬ buildRequired req avail) :
    (Package.buildStep d sc avail req.RequireBuild rr w).world.trace = w.trace := by
  cases avail with
  | some b0 => rw [buildStep_of_some]; rfl
  | none =>
    have h1 : req.RequireBuild = false := by
      cases hb : req.RequireBuild with
      | false => rfl
      | true => exact absurd ⟨hb, rfl⟩ h
    unfold Package.buildStep
    simp only [bind_eq, pure_eq, h1]
    rfl

/-- Without an available build output, a build step that succeeds returns a build output
whose restore back-reference is the restore result it was given. -/
theorem buildStep_none_ok {d : Deps σ} {sc : Ptr} {requireBuild : Bool} {rr bo : Option Ptr}
    {w w1 : World σ} (h : Package.buildStep d sc none requireBuild rr w = .ok bo w1) :
    ∃ b, bo = some b ∧ (w1.builds b).Restore = rr := by
  unfold Package.buildStep at h
  simp only [bind_eq, pure_eq] at h
  obtain ⟨fresh, wf, -, h2⟩ := bind_eq_ok.1 h
  obtain ⟨br, w2, -, h3⟩ := bind_eq_ok.1 h2
  cases br with
  | none => cases h3
  | some b =>
    obtain ⟨u, w3, h4, h5⟩ := bind_eq_ok.1 h3
    cases h5
    refine ⟨b, rfl, ?_⟩
    unfold setBuildRestore at h4
    cases h4
    simp

/-- The calls of `Package` up to the framework requirements. -/
theorem Package_prefix_traced {d : Deps σ} {sc : Ptr} {w wa wb : World σ} {fw tgt : Nat}
    (hP : ∀ c : Call, frameworkResolutionCall c ∨ (∃ n, c = .resolveTarget n) ∨
      (∃ f, c = .isEnabled f) ∨ (∃ f, c = .frameworkRequirements f) → P c)
    (hfw : GetFrameworkService d sc w = .ok fw wa)
    (htg : GetServiceTarget d sc wa = .ok tgt wb) :
    Traced P w (Package.stateAfterRequirements d fw wb) := by
  have h1 := keeps_GetFrameworkService_calls (traced_ambient P)
    (fun c hc => hP c (Or.inl hc)) d sc w
  rw [hfw] at h1
  have h2 := keeps_GetServiceTarget (traced_ambient P)
    (fun c hc => hP c (Or.inr (by tauto))) d sc wa
  rw [htg] at h2
  refine (traced_pre P).trans ((traced_pre P).trans h1 h2) ?_
  exact ⟨[.frameworkRequirements fw], rfl, by
    intro c hc
    simp only [List.mem_singleton] at hc
    exact hP c (Or.inr (Or.inr (Or.inr ⟨fw, hc⟩)))⟩

/-- The calls of three actions in sequence split into three segments, one per action. -/
theorem three_phase {γ : Type} {P1 P2 P3 : Call → Prop} {m1 : M σ α} {m2 : α → M σ β}
    {m3 : β → M σ γ} (h1 : Keeps (Traced P1) m1) (h2 : ∀ a, Keeps (Traced P2) (m2 a))
    (h3 : ∀ b, Keeps (Traced P3) (m3 b)) (w : World σ) :
    ∃ t1 t2 t3 : List Call,
      (M.bind m1 (fun a => M.bind (m2 a) m3) w).world.trace = w.trace ++ (t1 ++ (t2 ++ t3)) ∧
      (∀ c ∈ t1, P1 c) ∧ (∀ c ∈ t2, P2 c) ∧ (∀ c ∈ t3, P3 c) ∧
      w.trace ++ t1 = (m1 w).world.trace ∧
      (∀ a w1, m1 w = .ok a w1 → w1.trace ++ t2 = (m2 a w1).world.trace) ∧
      ((∀ a w1, m1 w ≠ .ok a w1) → t2 = [] ∧ t3 = []) ∧
      (∀ a w1, m1 w = .ok a w1 → (∀ b w2, m2 a w1 ≠ .ok b w2) → t3 = []) := by
  obtain ⟨t1, e1, p1⟩ := h1 w
  cases hx : m1 w with
  | ok a w1 =>
    rw [hx] at e1
    obtain ⟨t2, e2, p2⟩ := h2 a w1
    cases hy : m2 a w1 with
    | ok b w2 =>
      rw [hy] at e2
      obtain ⟨t3, e3, p3⟩ := h3 b w2
      refine ⟨t1, t2, t3, ?_, p1, p2, p3, e1.symm, ?_, ?_, ?_⟩
      · rw [bind_of_ok hx, bind_of_ok hy, e3]
        simp only [Res.world] at e1 e2
        rw [e2, e1]
        simp
      · intro a1 w3 h
        cases h
        rw [hy]
        exact e2.symm
      · intro h
        exact absurd rfl (h a w1)
      · intro a1 w3 h hn
        cases h
        exact absurd hy (hn b w2)
    | err e w2 =>
      rw [hy] at e2
      refine ⟨t1, t2, [], ?_, p1, p2, by simp, e1.symm, ?_, ?_, ?_⟩
      · rw [bind_of_ok hx, bind_of_err hy]
        simp only [Res.world] at e1 e2 ⊢
        rw [e2, e1]
        simp
      · intro a1 w3 h
        cases h
        rw [hy]
        exact e2.symm
      · intro h
        exact absurd rfl (h a w1)
      · intro _ _ _ _
        rfl
    | panic w2 =>
      rw [hy] at e2
      refine ⟨t1, t2, [], ?_, p1, p2, by simp, e1.symm, ?_, ?_, ?_⟩
      · rw [bind_of_ok hx, bind_of_panic hy]
        simp only [Res.world] at e1 e2 ⊢
        rw [e2, e1]
        simp
      · intro a1 w3 h
        cases h
        rw [hy]
        exact e2.symm
      · intro h
        exact absurd rfl (h a w1)
      · intro _ _ _ _
        rfl
  | err e w1 =>
    rw [hx] at e1
    refine ⟨t1, [], [], ?_, p1, by simp, by simp, e1.symm, ?_, ?_, ?_⟩
    · rw [bind_of_err hx]
      simp only [Res.world] at e1 ⊢
      rw [e1]
      simp
    · intro a1 w3 h
      cases h
    · intro _
      exact ⟨rfl, rfl⟩
    · intro _ _ _ _
      rfl
  | panic w1 =>
    rw [hx] at e1
    refine ⟨t1, [], [], ?_, p1, by simp, by simp, e1.symm, ?_, ?_, ?_⟩
    · rw [bind_of_panic hx]
      simp only [Res.world] at e1 ⊢
      rw [e1]
      simp
    · intro a1 w3 h
      cases h
    · intro _
      exact ⟨rfl, rfl⟩
    · intro _ _ _ _
      rfl

end predecessors

/-! ## Claims -/

/-- C1: for each of the four stages, if a call of the stage returns a non-nil result without
error, then a call of the same stage for the same service in the state the first call left,
with any predecessor output and any package options, returns the same pointer without error
and leaves the whole state as it was: the operation cache is unchanged and no call to any
collaborator (backend operation, service locator, event handler) is added to the trace. -/
theorem stage_second_call_returns_cached {σ : Type} (d : Deps σ) (stage : Stage) (sc : Ptr)
    (previous previous1 : Option Ptr) (options options1 : Option PackageOptions)
    (w w1 : World σ) (p : Ptr)
    (h : callStage d stage sc previous options w = .ok (some p) w1) :
    callStage d stage sc previous1 options1 w1 = .ok (some p) w1 ∧
      (callStage d stage sc previous1 options1 w1).world.trace = w1.trace ∧
      (callStage d stage sc previous1 options1 w1).world.operationCache = w1.operationCache := by
  have h2 : callStage d stage sc previous1 options1 w1 = .ok (some p) w1 :=
    callStage_of_cached (callStage_cached h)
  rw [h2]
  exact ⟨rfl, rfl, rfl⟩

/-- C1, on the sample project: `Package` of service `web` with an output path, then again
without one. -/
theorem stage_second_call_returns_cached_witness :
    callStage (sampleDeps ⟨false, false⟩) .package 0 none none
        (callStage (sampleDeps ⟨false, false⟩) .package 0 none (some ⟨"/dest/app.zip"⟩)
          (sampleWorld "")).world =
      .ok (some 4)
        (callStage (sampleDeps ⟨false, false⟩) .package 0 none (some ⟨"/dest/app.zip"⟩)
          (sampleWorld "")).world :=
  (stage_second_call_returns_cached (sampleDeps ⟨false, false⟩) .package 0 none none
    (some ⟨"/dest/app.zip"⟩) none (sampleWorld "") _ 4 (by rfl)).1

/-- C2: when `Deploy` is called with a nil package result, the cache holds no usable deploy
entry and holds the non-nil package result `p` under the package key, then every call
`Deploy` makes is one of: target resolution, destination resolution, a read of the
environment, a deploy event, a log line, or `Target.Deploy` with package result `p`; so it
makes no framework call, resolves no framework, calls no `Target.Package` and raises no
package, build or restore event.  And when the target and the destination resolve and the
pre-deploy handlers succeed, `Target.Deploy` is called with `p`. -/
theorem deploy_uses_cached_package {σ : Type} (d : Deps σ) (sc : Ptr) (w : World σ) (p : Ptr)
    (hdeploy : usable (w.operationCache
      (cacheKey w.env.Name (w.configs sc).Name ServiceEventDeploy)) = none)
    (hpackage : w.operationCache (cacheKey w.env.Name (w.configs sc).Name ServiceEventPackage) =
      some (.package (some p))) :
    (Deploy d sc none w).world.trace =
        w.trace ++ (Deploy d sc none w).world.trace.drop w.trace.length ∧
      (∀ c ∈ (Deploy d sc none w).world.trace.drop w.trace.length, deployCallAllowed p c) ∧
      (∀ tgt wa tr wb, GetServiceTarget d sc w = .ok tgt wa →
        Deploy.targetResource d sc wa = .ok tr wb →
        (d.raiseEvent wb.ext sc "predeploy").1 = .ok () →
        Call.targetDeploy tgt sc (some p) tr ∈
          (Deploy d sc none w).world.trace.drop w.trace.length) := by
  have hfc : fromCache sc ServiceEventPackage assertPackage none w = .ok (some p) w := by
    have hu : usable (w.operationCache
        (cacheKey w.env.Name (w.configs sc).Name ServiceEventPackage)) =
        some (.package (some p)) := by
      rw [hpackage]
      rfl
    exact cachedOr_of_hit hu
  have hD := @cachedOr_of_miss σ sc ServiceEventDeploy assertDeploy (do
      let packageResult ← fromCache sc ServiceEventPackage assertPackage none
      let serviceTarget ← wrapErr "getting service target: " (GetServiceTarget d sc)
      let targetResource ← Deploy.targetResource d sc
      let w ← getWorld
      let deployResult ← wrapErr ("failed deploying service '" ++ (w.configs sc).Name ++ "': ")
        (runCommand d ServiceEventDeploy sc
          (targetDeploy d serviceTarget sc packageResult targetResource))
      Deploy.applyOverride d sc deployResult
      setOperationResult sc ServiceEventDeploy (.deploy deployResult)
      pure deployResult) w hdeploy
  have hD2 : Deploy d sc none w = _ := hD
  simp only [bind_eq, pure_eq] at hD2
  rw [bind_of_ok hfc] at hD2
  have hall : ∀ c : Call, c.kind = .envRead ∨ c.kind = .log ∨ c.kind = .destination →
      deployCallAllowed p c := by
    intro c hc
    cases c <;> simp [Call.kind] at hc <;> simp [deployCallAllowed]
  have hA : Ambient (deployCallAllowed p) (@Traced σ (deployCallAllowed p)) :=
    traced_ambient (deployCallAllowed p)
  have ktail : ∀ (tgt : Nat) (tr : Option TargetResource) (w0 : World σ),
      Keeps (Traced (deployCallAllowed p))
        (M.bind (wrapErr ("failed deploying service '" ++ (w0.configs sc).Name ++ "': ")
          (runCommand d ServiceEventDeploy sc (targetDeploy d tgt sc (some p) tr)))
          (fun deployResult => M.bind (Deploy.applyOverride d sc deployResult)
            (fun _ => M.bind (setOperationResult sc ServiceEventDeploy (.deploy deployResult))
              (fun _ => M.pure deployResult)))) := by
    intro tgt tr w0
    refine Keeps.bind hA.toPre (Keeps.wrapErr _ (keeps_Invoke hA d sc _ (Or.inl rfl) (Or.inr rfl)
      (keeps_targetDeploy hA d tgt sc (some p) tr rfl))) (fun dr => ?_)
    refine Keeps.bind hA.toPre (keeps_applyOverride hA (fun c hc => hall c (by tauto)) d sc dr)
      (fun _ => ?_)
    exact Keeps.bind hA.toPre (fun w => Traced.of_trace_eq rfl) (fun _ => Keeps.pure hA.toPre _)
  have kall : Traced (deployCallAllowed p) w (Deploy d sc none w).world := by
    rw [hD2]
    refine Keeps.bind hA.toPre (Keeps.wrapErr _ (keeps_GetServiceTarget hA ?_ d sc)) (fun tgt => ?_) w
    · intro c hc
      rcases hc with ⟨n, rfl⟩ | ⟨f, rfl⟩ <;> simp [deployCallAllowed]
    refine Keeps.bind hA.toPre (keeps_targetResource hA (fun c hc => hall c (by tauto)) d sc)
      (fun tr => ?_)
    exact Keeps.bind hA.toPre (Keeps.getWorld hA.toPre) (fun w0 => ktail tgt tr w0)
  refine ⟨(Traced.drop_eq kall).1, (Traced.drop_eq kall).2, ?_⟩
  intro tgt wa tr wb hT hR hpre
  have k1 := keeps_GetServiceTarget hA (fun c hc => by
    rcases hc with ⟨n, rfl⟩ | ⟨f, rfl⟩ <;> simp [deployCallAllowed]) d sc w
  have k2 := keeps_targetResource hA (fun c hc => hall c (by tauto)) d sc wa
  rw [hT] at k1
  rw [hR] at k2
  obtain ⟨t0, ht0, -⟩ := (traced_pre _).trans k1 k2
  have hfin : ∃ t2, (Deploy d sc none w).world.trace =
      wb.trace ++ [Call.raiseEvent sc "predeploy", Call.targetDeploy tgt sc (some p) tr] ++ t2 := by
    rw [hD2, bind_of_ok (wrapErr_of_ok hT), bind_of_ok hR, bind_of_ok (getWorld_run wb)]
    have hpre1 : callE (.raiseEvent sc ("pre" ++ ServiceEventDeploy))
        (fun s => d.raiseEvent s sc ("pre" ++ ServiceEventDeploy)) wb =
        .ok () { wb with ext := (d.raiseEvent wb.ext sc "predeploy").2,
                         trace := wb.trace ++ [Call.raiseEvent sc "predeploy"] } :=
      callE_of_ok hpre
    have s1 := @bind_world σ _ _ _ (traced_pre (deployCallAllowed p))
      (fun deployResult => M.bind (Deploy.applyOverride d sc deployResult)
        (fun _ => M.bind (setOperationResult sc ServiceEventDeploy (.deploy deployResult))
          (fun _ => M.pure deployResult)))
      (fun dr => Keeps.bind hA.toPre
        (keeps_applyOverride hA (fun c hc => hall c (by tauto)) d sc dr)
        (fun _ => Keeps.bind hA.toPre (fun w => Traced.of_trace_eq rfl)
          (fun _ => Keeps.pure hA.toPre _)))
      (wrapErr ("failed deploying service '" ++ (wb.configs sc).Name ++ "': ")
        (runCommand d ServiceEventDeploy sc (targetDeploy d tgt sc (some p) tr))) wb
    rw [wrapErr_world] at s1
    have hrun : runCommand d ServiceEventDeploy sc (targetDeploy d tgt sc (some p) tr) wb =
        M.bind (targetDeploy d tgt sc (some p) tr) (fun result =>
          M.bind (callE (.raiseEvent sc ("post" ++ ServiceEventDeploy))
            (fun s => d.raiseEvent s sc ("post" ++ ServiceEventDeploy)))
            (fun _ => M.pure result))
          { wb with ext := (d.raiseEvent wb.ext sc "predeploy").2,
                    trace := wb.trace ++ [Call.raiseEvent sc "predeploy"] } := by
      unfold runCommand Invoke
      simp only [bind_eq, pure_eq]
      rw [bind_of_ok hpre1]
    rw [hrun] at s1
    have s2 := @bind_world σ _ _ _ (traced_pre (fun _ : Call => True))
      (fun result =>
          M.bind (callE (.raiseEvent sc ("post" ++ ServiceEventDeploy))
            (fun s => d.raiseEvent s sc ("post" ++ ServiceEventDeploy)))
            (fun _ => M.pure result))
      (fun r => Keeps.bind (traced_pre _)
        (Keeps.callE ((traced_ambient (fun _ : Call => True)).step trivial))
        (fun _ => Keeps.pure (traced_pre _) _))
      (targetDeploy d tgt sc (some p) tr)
      { wb with ext := (d.raiseEvent wb.ext sc "predeploy").2,
                trace := wb.trace ++ [Call.raiseEvent sc "predeploy"] }
    have s3 := @bind_world σ _ _ _ (traced_pre (fun _ : Call => True))
      (fun r : Option ServiceDeployResult =>
        (match r with
          | some v => M.bind (allocDeploy v) (fun q => M.pure (some q))
          | none => M.pure none : M σ (Option Ptr)))
      (fun r => by
        cases r with
        | some v =>
          exact Keeps.bind (traced_pre _) (fun w => Traced.of_trace_eq rfl)
            (fun _ => Keeps.pure (traced_pre _) _)
        | none => exact Keeps.pure (traced_pre _) _)
      (callE (.targetDeploy tgt sc (some p) tr)
        (fun s => d.targetDeploy s tgt sc (some p) tr))
      { wb with ext := (d.raiseEvent wb.ext sc "predeploy").2,
                trace := wb.trace ++ [Call.raiseEvent sc "predeploy"] }
    rw [callE_world] at s3
    have s4 := (traced_pre _).trans ((traced_pre _).trans s3 s2)
      (Traced.mono (fun _ _ => trivial) s1)
    obtain ⟨t2, ht2, -⟩ := s4
    refine ⟨t2, ?_⟩
    rw [ht2]
    simp
  obtain ⟨t2, ht2⟩ := hfin
  have ht0b : wb.trace = w.trace ++ t0 := ht0
  rw [ht2, ht0b]
  simp only [List.append_assoc]
  rw [List.drop_left' rfl]
  simp

/-- C2, on the sample project: with package result 7 of service `web` in the cache, `Deploy`
without a package result hands 7 to `Target.Deploy`. -/
theorem deploy_uses_cached_package_witness :
    Call.targetDeploy 6 0 (some 7)
        (some { subscriptionId := "sub-1", resourceGroupName := "rg-dev",
                resourceName := "app-web", resourceType := "Microsoft.Web/sites" }) ∈
      (Deploy (sampleDeps ⟨false, false⟩) 0 none samplePackaged).world.trace.drop
        samplePackaged.trace.length :=
  (deploy_uses_cached_package (sampleDeps ⟨false, false⟩) 0 samplePackaged 7
    (by rfl) (by rfl)).2.2 6
    (GetServiceTarget (sampleDeps ⟨false, false⟩) 0 samplePackaged).world _
    (Deploy.targetResource (sampleDeps ⟨false, false⟩) 0
      (GetServiceTarget (sampleDeps ⟨false, false⟩) 0 samplePackaged).world).world
    (by rfl) (by rfl) (by rfl)

/-- C3: for a service whose host requires containers and whose language is neither docker
nor none, when the framework of the declared language resolves to `plain`: if the composite
lookup under the docker name succeeds with `composite`, `GetFrameworkService` returns
`composite`, having made exactly the three calls resolve(language), resolve(docker) and
`composite.SetSource(plain)`, and the service configuration is unchanged; if the composite
lookup fails, `GetFrameworkService` returns the wrapped error and `SetSource` is not called. -/
theorem getFrameworkService_container_wrapper {σ : Type} (d : Deps σ) (w : World σ) (sc : Ptr)
    (plain : Nat)
    (hhost : d.RequiresContainer (w.configs sc).Host = true)
    (hdocker : (w.configs sc).Language ≠ d.ServiceLanguageDocker)
    (hnone : (w.configs sc).Language ≠ d.ServiceLanguageNone)
    (hplain : (d.resolveFramework w.ext (w.configs sc).Language).1 = .ok plain) :
    (∀ composite,
      (d.resolveComposite (d.resolveFramework w.ext (w.configs sc).Language).2
        d.ServiceLanguageDocker).1 = .ok composite →
      ∃ w1, GetFrameworkService d sc w = .ok composite w1 ∧
        w1.trace = w.trace ++ [Call.resolveFramework (w.configs sc).Language,
          Call.resolveComposite d.ServiceLanguageDocker, Call.setSource composite plain] ∧
        w1.configs = w.configs) ∧
    (∀ e,
      (d.resolveComposite (d.resolveFramework w.ext (w.configs sc).Language).2
        d.ServiceLanguageDocker).1 = .error e →
      ∃ w1, GetFrameworkService d sc w =
          .err ("failed resolving composite framework service for '" ++ (w.configs sc).Name ++
            "', language '" ++ (w.configs sc).Language ++ "': " ++ e) w1 ∧
        w1.trace = w.trace ++ [Call.resolveFramework (w.configs sc).Language,
          Call.resolveComposite d.ServiceLanguageDocker]) := by
  have hdef : defaultImageLanguage d sc w = .ok () w := by
    simp [defaultImageLanguage, hnone]
  constructor
  · intro composite hc
    simp [GetFrameworkService, bind_run, hdef, wrapErr_run, callE, hplain,
      resolveCompositeFramework, hhost, hdocker, hnone, hc]
  · intro e hc
    simp [GetFrameworkService, bind_run, hdef, wrapErr_run, callE, hplain,
      resolveCompositeFramework, hhost, hdocker, hnone, hc]

/-- C3, on the sample project: service `api` (python on container apps) gets the docker
composite 4 wrapped around the python framework 1. -/
theorem getFrameworkService_container_wrapper_witness :
    ∃ w1, GetFrameworkService (sampleDeps ⟨false, false⟩) 1 (sampleWorld "") = .ok 4 w1 ∧
      w1.trace = (sampleWorld "").trace ++
        [Call.resolveFramework ((sampleWorld "").configs 1).Language,
          Call.resolveComposite (sampleDeps ⟨false, false⟩).ServiceLanguageDocker,
          Call.setSource 4 1] ∧
      w1.configs = (sampleWorld "").configs :=
  (getFrameworkService_container_wrapper (sampleDeps ⟨false, false⟩) (sampleWorld "") 1 1
    (by decide) (by decide) (by decide) (by rfl)).1 4 (by rfl)

/-- C4: after a call of `Initialize` that returned success, having resolved framework `fw`
and target `tgt`, a second call for the same service configuration that resolves the same
`fw` and `tgt` returns success in exactly the state its two resolutions leave: it calls no
`Initialize` hook and leaves the initialization record as it was.  When the manager had no
record for the configuration before the first call, the hook calls of both calls together
are exactly one `frameworkService.Initialize` and one `serviceTarget.Initialize`. -/
theorem initialize_second_call_calls_no_hook {σ : Type} (d : Deps σ) (sc : Ptr)
    (w wa0 wb0 w1 wa wb : World σ) (fw tgt : Nat)
    (hfirst : Initialize d sc w = .ok () w1)
    (hfw0 : GetFrameworkService d sc w = .ok fw wa0)
    (htgt0 : GetServiceTarget d sc wa0 = .ok tgt wb0)
    (hfw : GetFrameworkService d sc w1 = .ok fw wa)
    (htgt : GetServiceTarget d sc wa = .ok tgt wb) :
    Initialize d sc w1 = .ok () wb ∧
      (∀ c ∈ wb.trace.drop w1.trace.length, c.kind ≠ .initHook) ∧
      wb.initialized = w1.initialized ∧
      (w.initialized sc = none →
        (wb.trace.drop w.trace.length).filter (fun c => decide (c.kind = .initHook)) =
          [Call.frameworkInitialize fw sc, Call.targetInitialize tgt sc]) := by
  obtain ⟨⟨m, hm, hflagF, hflagT⟩, hfresh⟩ := Initialize_flags hfirst hfw0 htgt0
  have hP : ∀ c : Call, c.kind = .locator ∨ c.kind = .config ∨ c.kind = .log ∨
      c.kind = .composite → c.kind ≠ .initHook := by
    intro c hc hk
    rw [hk] at hc
    simp at hc
  have resolveTrace : ∀ (u ua ub : World σ), GetFrameworkService d sc u = .ok fw ua →
      GetServiceTarget d sc ua = .ok tgt ub →
      Traced (fun c => c.kind ≠ .initHook) u ub ∧ ub.initialized = u.initialized := by
    intro u ua ub h1 h2
    have t1 := keeps_GetFrameworkService (traced_ambient (fun c => c.kind ≠ .initHook)) hP d sc u
    have t2 := keeps_GetServiceTarget (traced_ambient (fun c => c.kind ≠ .initHook))
      (fun c hc => by rcases hc with ⟨n, rfl⟩ | ⟨f, rfl⟩ <;> simp [Call.kind]) d sc ua
    have f1 := keeps_GetFrameworkService frame_ambient (fun _ _ => trivial) d sc u
    have f2 := keeps_GetServiceTarget frame_ambient (fun _ _ => trivial) d sc ua
    rw [h1] at t1 f1
    rw [h2] at t2 f2
    exact ⟨(traced_pre _).trans t1 t2, f2.2.2.1.trans f1.2.2.1⟩
  obtain ⟨⟨t1, ht1, hp1⟩, hinit⟩ := resolveTrace w1 wa wb hfw htgt
  obtain ⟨⟨t0, ht0, hp0⟩, -⟩ := resolveTrace w wa0 wb0 hfw0 htgt0
  have hwa : wa.initialized sc = some m := by
    have f1 := keeps_GetFrameworkService frame_ambient (fun _ _ => trivial) d sc w1
    rw [hfw] at f1
    have e : wa.initialized = w1.initialized := f1.2.2.1
    rw [e, hm]
  have hwb : wb.initialized sc = some m := by rw [hinit, hm]
  refine ⟨?_, ?_, hinit, ?_⟩
  · unfold Initialize
    simp only [bind_eq, pure_eq]
    rw [bind_of_ok (wrapErr_of_ok hfw), bind_of_ok (wrapErr_of_ok htgt),
      bind_of_ok (isComponentInitialized_of_flag hwb hflagF)]
    simp only [if_true]
    rw [bind_of_ok (pure_run () wb), bind_of_ok (isComponentInitialized_of_flag hwb hflagT)]
    simp
  · rw [ht1, List.drop_left']
    · exact hp1
    · rfl
  · intro hnone
    rw [ht1, hfresh hnone, ht0]
    simp only [List.append_assoc]
    rw [List.drop_left' rfl]
    simp only [List.filter_append]
    have z0 : t0.filter (fun c => decide (c.kind = .initHook)) = [] := by
      rw [List.filter_eq_nil_iff]
      intro c hc
      simpa using hp0 c hc
    have z1 : t1.filter (fun c => decide (c.kind = .initHook)) = [] := by
      rw [List.filter_eq_nil_iff]
      intro c hc
      simpa using hp1 c hc
    rw [z0, z1]
    simp [Call.kind]

/-- C4, on the sample project: `Initialize` of service `web` twice. -/
theorem initialize_second_call_calls_no_hook_witness :
    Initialize (sampleDeps ⟨false, false⟩) 0 sampleInitialized =
        .ok () (GetServiceTarget (sampleDeps ⟨false, false⟩) 0
          (GetFrameworkService (sampleDeps ⟨false, false⟩) 0 sampleInitialized).world).world ∧
      ((GetServiceTarget (sampleDeps ⟨false, false⟩) 0
          (GetFrameworkService (sampleDeps ⟨false, false⟩) 0 sampleInitialized).world).world.trace.drop
            (sampleWorld "").trace.length).filter (fun c => decide (c.kind = .initHook)) =
        [Call.frameworkInitialize 1 0, Call.targetInitialize 6 0] :=
  ⟨(initialize_second_call_calls_no_hook (sampleDeps ⟨false, false⟩) 0 (sampleWorld "")
      (GetFrameworkService (sampleDeps ⟨false, false⟩) 0 (sampleWorld "")).world
      (GetServiceTarget (sampleDeps ⟨false, false⟩) 0
        (GetFrameworkService (sampleDeps ⟨false, false⟩) 0 (sampleWorld "")).world).world
      sampleInitialized
      (GetFrameworkService (sampleDeps ⟨false, false⟩) 0 sampleInitialized).world
      (GetServiceTarget (sampleDeps ⟨false, false⟩) 0
        (GetFrameworkService (sampleDeps ⟨false, false⟩) 0 sampleInitialized).world).world
      1 6 (by rfl) (by rfl) (by rfl) (by rfl) (by rfl)).1,
   (initialize_second_call_calls_no_hook (sampleDeps ⟨false, false⟩) 0 (sampleWorld "")
      (GetFrameworkService (sampleDeps ⟨false, false⟩) 0 (sampleWorld "")).world
      (GetServiceTarget (sampleDeps ⟨false, false⟩) 0
        (GetFrameworkService (sampleDeps ⟨false, false⟩) 0 (sampleWorld "")).world).world
      sampleInitialized
      (GetFrameworkService (sampleDeps ⟨false, false⟩) 0 sampleInitialized).world
      (GetServiceTarget (sampleDeps ⟨false, false⟩) 0
        (GetFrameworkService (sampleDeps ⟨false, false⟩) 0 sampleInitialized).world).world
      1 6 (by rfl) (by rfl) (by rfl) (by rfl) (by rfl)).2.2.2 (by rfl)⟩

/-- C5: when the `ENDPOINTS` property of the service holds a JSON array of strings `eps`
with at least one element, every `Deploy` that succeeds on a cache miss returns a non-nil
result whose endpoints are exactly `eps` (whatever endpoints the target reported), and the
deploy cache entry is that same result. -/
theorem deploy_endpoint_override {σ : Type} (d : Deps σ) (sc : Ptr) (prev r : Option Ptr)
    (w w1 : World σ) (eps : List String)
    (hmiss : usable (w.operationCache
      (cacheKey w.env.Name (w.configs sc).Name ServiceEventDeploy)) = none)
    (hjson : parseJson (w.env.GetServiceProperty (w.configs sc).Name "ENDPOINTS") =
      some (.arr (eps.map Json.str)))
    (hne : eps ≠ [])
    (h : Deploy d sc prev w = .ok r w1) :
    ∃ p, r = some p ∧ (w1.deploys p).Endpoints = eps ∧
      w1.operationCache (cacheKey w1.env.Name (w1.configs sc).Name ServiceEventDeploy) =
        some (.deploy (some p)) := by
  obtain ⟨wc, wd, ⟨henv, -, -, hname⟩, hov, hset⟩ := Deploy_miss_inv hmiss h
  simp [setOperationResult] at hset
  subst hset
  obtain ⟨hdec, hnonempty⟩ := jsonUnmarshalStrings_strings hjson
  have hlen : eps.length > 0 := List.length_pos.2 hne
  unfold Deploy.applyOverride OverriddenEndpoints at hov
  simp only [bind_eq, pure_eq, bind_run, getWorld_run, note_run, henv, hname, hnonempty, hdec,
    ne_eq, not_false_eq_true, if_true, pure_run, Bool.false_eq_true, if_false, hlen] at hov
  cases r with
  | none => simp at hov
  | some p =>
    refine ⟨p, rfl, ?_, by simp⟩
    simp [setDeployEndpoints] at hov
    subst hov
    simp

set_option maxHeartbeats 4000000 in
/-- C5, on the sample project: with `ENDPOINTS` of service `web` set to the two-element
array, `Deploy` returns those two endpoints instead of the backend's `https://backend`. -/
theorem deploy_endpoint_override_witness :
    ∃ p, some 1 = some p ∧
      ((Deploy (sampleDeps ⟨false, false⟩) 0 none
        (sampleWorld "[\"https://a\",\"https://b\"]")).world.deploys p).Endpoints =
          ["https://a", "https://b"] ∧
      (Deploy (sampleDeps ⟨false, false⟩) 0 none
        (sampleWorld "[\"https://a\",\"https://b\"]")).world.operationCache
          (cacheKey (Deploy (sampleDeps ⟨false, false⟩) 0 none
              (sampleWorld "[\"https://a\",\"https://b\"]")).world.env.Name
            ((Deploy (sampleDeps ⟨false, false⟩) 0 none
              (sampleWorld "[\"https://a\",\"https://b\"]")).world.configs 0).Name
            ServiceEventDeploy) = some (.deploy (some p)) :=
  deploy_endpoint_override (sampleDeps ⟨false, false⟩) 0 none (some 1)
    (sampleWorld "[\"https://a\",\"https://b\"]") _ ["https://a", "https://b"]
    (by rfl) (by rfl) (by decide) (by rfl)

set_option maxHeartbeats 4000000 in
/-- C6 (code bug): on the sample project with `ENDPOINTS` of service `web` set to
`["https://a",1]`, which is not a JSON array of strings, decoding returns an error and the
code logs that it skips the override, yet `OverriddenEndpoints` yields the partially decoded
list `["https://a", ""]` and `Deploy` replaces the backend endpoint `https://backend` by it. -/
theorem deploy_malformed_override_not_ignored :
    jsonUnmarshalStrings "[\"https://a\",1]" = (["https://a", ""], true) ∧
      (OverriddenEndpoints (sampleDeps ⟨false, false⟩) 0 (sampleWorld "[\"https://a\",1]")).value? =
        some ["https://a", ""] ∧
      Call.log ("failed to unmarshal endpoints override for service 'web' " ++
          "as JSON array of strings: json: cannot unmarshal number into Go value of type " ++
          "string, skipping override") ∈
        (OverriddenEndpoints (sampleDeps ⟨false, false⟩) 0 (sampleWorld "[\"https://a\",1]")).world.trace ∧
      (Deploy (sampleDeps ⟨false, false⟩) 0 none (sampleWorld "[\"https://a\",1]")).value? =
        some (some 1) ∧
      ((Deploy (sampleDeps ⟨false, false⟩) 0 none
        (sampleWorld "[\"https://a\",1]")).world.deploys 1).Endpoints = ["https://a", ""] ∧
      ((Deploy (sampleDeps ⟨false, false⟩) 0 none (sampleWorld "")).world.deploys 1).Endpoints =
        ["https://backend"] := by
  refine ⟨by decide, by rfl, ?_, by rfl, by rfl, by rfl⟩
  decide

/-- C7: every `Package` that succeeds on a cache miss returns a non-nil result `p`, the
object `Target.Package` produced (`wa` is the state after the package event).  If `os.Stat`
finds the produced path and an output path was requested, the returned path is the output
path itself when `filepath.Ext` of it is not empty and otherwise `filepath.Join` of the
output path and `filepath.Base` of the produced path; the destination directory is
`filepath.Dir` of the output path when `filepath.Ext` of it is not empty and otherwise the
output path itself, and it is created exactly when `os.Stat` reports it absent; the file is
copied to the returned path and the source removed.  Otherwise the returned path is the
produced path, the only call is the `os.Stat` of it, and no stage result changes. -/
theorem package_artifact_path {σ : Type} (d : Deps σ) (sc : Ptr) (prev r : Option Ptr)
    (options : Option PackageOptions) (w w1 : World σ)
    (hmiss : usable (w.operationCache
      (cacheKey w.env.Name (w.configs sc).Name ServiceEventPackage)) = none)
    (h : Package d sc prev options w = .ok r w1) :
    ∃ p wa, Package.produce d sc prev w = .ok (some p) wa ∧ r = some p ∧
      (∃ s tgt fp, (d.targetPackage s tgt sc fp).1 = .ok (some (wa.packages p)) ∧
        Call.targetPackage tgt sc fp ∈ wa.trace) ∧
      (((d.osStat wa.ext (wa.packages p).PackagePath).1 = StatErr.none ∧
          (options.getD { OutputPath := "" }).OutputPath ≠ "") →
        ∃ destFilePath destDirectory : String,
          destFilePath =
            (if d.filepathExt (options.getD { OutputPath := "" }).OutputPath ≠ "" then
              (options.getD { OutputPath := "" }).OutputPath
            else d.filepathJoin (options.getD { OutputPath := "" }).OutputPath
              (d.filepathBase (wa.packages p).PackagePath)) ∧
          destDirectory =
            (if d.filepathExt (options.getD { OutputPath := "" }).OutputPath ≠ "" then
              d.filepathDir (options.getD { OutputPath := "" }).OutputPath
            else (options.getD { OutputPath := "" }).OutputPath) ∧
          (w1.packages p).PackagePath = destFilePath ∧
          w1.trace = wa.trace ++
            ([Call.osStat (wa.packages p).PackagePath, Call.osStat destDirectory] ++
              (if (d.osStat (d.osStat wa.ext (wa.packages p).PackagePath).2 destDirectory).1 =
                  StatErr.notExist
                then [Call.osMkdirAll destDirectory]
                else []) ++
              [Call.osOpen (wa.packages p).PackagePath,
                Call.osCreate destFilePath,
                Call.ioCopy destFilePath (wa.packages p).PackagePath,
                Call.osRemove (wa.packages p).PackagePath,
                Call.fileClose destFilePath,
                Call.fileClose (wa.packages p).PackagePath])) ∧
      (¬ ((d.osStat wa.ext (wa.packages p).PackagePath).1 = StatErr.none ∧
          (options.getD { OutputPath := "" }).OutputPath ≠ "") →
        (w1.packages p).PackagePath = (wa.packages p).PackagePath ∧
          w1.trace = wa.trace ++ [Call.osStat (wa.packages p).PackagePath] ∧
          w1.packages = wa.packages ∧
          w1.ext = (d.osStat wa.ext (wa.packages p).PackagePath).2) := by
  unfold Package at h
  rw [cachedOr_of_miss hmiss] at h
  simp only [bind_eq, pure_eq] at h
  obtain ⟨pr, wa, hp, hrel⟩ := bind_eq_ok.1 h
  cases pr with
  | none => simp [Package.relocate] at hrel
  | some p =>
    obtain ⟨hr, hyes, hno⟩ := relocate_spec hrel
    refine ⟨p, wa, hp, hr, produce_result hp, fun hc => ?_, hno⟩
    exact ⟨Package.destFilePath d (options.getD { OutputPath := "" }).OutputPath
        (wa.packages p).PackagePath,
      Package.destDirectory d (options.getD { OutputPath := "" }).OutputPath,
      rfl, rfl, (hyes hc).1, (hyes hc).2⟩

set_option maxHeartbeats 4000000 in
/-- C7, on the sample project: packaging service `web`, whose target produces the file
`/tmp/out.zip`, with output path `/dest/app.zip` on a disk without `/dest` returns the path
`/dest/app.zip`; after the package event the calls are the `os.Stat` of `/tmp/out.zip` and
of `/dest`, the creation of `/dest`, the copy to `/dest/app.zip` and the removal of
`/tmp/out.zip`. -/
theorem package_artifact_path_witness :
    ∃ p, (Package (sampleDeps ⟨false, false⟩) 0 none (some ⟨"/dest/app.zip"⟩)
        (sampleWorld "")).value? = some (some p) ∧
      ((Package (sampleDeps ⟨false, false⟩) 0 none (some ⟨"/dest/app.zip"⟩)
        (sampleWorld "")).world.packages p).PackagePath = "/dest/app.zip" ∧
      (Package (sampleDeps ⟨false, false⟩) 0 none (some ⟨"/dest/app.zip"⟩)
        (sampleWorld "")).world.trace =
        (Package.produce (sampleDeps ⟨false, false⟩) 0 none (sampleWorld "")).world.trace ++
          [Call.osStat "/tmp/out.zip", Call.osStat "/dest", Call.osMkdirAll "/dest",
            Call.osOpen "/tmp/out.zip", Call.osCreate "/dest/app.zip",
            Call.ioCopy "/dest/app.zip" "/tmp/out.zip", Call.osRemove "/tmp/out.zip",
            Call.fileClose "/dest/app.zip", Call.fileClose "/tmp/out.zip"] := by
  obtain ⟨p, wa, hp, hr, -, hyes, -⟩ :=
    package_artifact_path (sampleDeps ⟨false, false⟩) 0 none (some 4)
      (some ⟨"/dest/app.zip"⟩) (sampleWorld "")
      (Package (sampleDeps ⟨false, false⟩) 0 none (some ⟨"/dest/app.zip"⟩)
        (sampleWorld "")).world (by rfl) (by rfl)
  have hp1 : Package.produce (sampleDeps ⟨false, false⟩) 0 none (sampleWorld "") =
      .ok (some 4) (Package.produce (sampleDeps ⟨false, false⟩) 0 none (sampleWorld "")).world := by
    rfl
  rw [hp1] at hp
  injection hp with e1 e2
  injection e1 with e1
  subst e1
  subst e2
  obtain ⟨destFilePath, destDirectory, hf, hd, hpath, htrace⟩ := hyes ⟨by rfl, by decide⟩
  subst hf
  subst hd
  exact ⟨4, rfl, hpath.trans (by rfl), htrace.trans (by rfl)⟩

/-- C8: when the host of a service is an alpha feature key and the feature manager reports
the feature as not enabled, `GetServiceTarget` returns an error whose message contains the
host and the enable command of the feature, and the only collaborator call it makes is the
`IsEnabled` query: the service locator is never called, so no target is resolved. -/
theorem getServiceTarget_alpha_disabled {σ : Type} (d : Deps σ) (w : World σ) (sc : Ptr)
    (feature : String) (hkey : d.IsFeatureKey (w.configs sc).Host = some feature)
    (hoff : (d.IsEnabled w.ext feature).1 = false) :
    ∃ w1, GetServiceTarget d sc w =
        .err ("service host '" ++ (w.configs sc).Host ++
          "' is currently in alpha and needs to be enabled explicitly. Run `" ++
          d.GetEnableCommand feature ++ "` to enable the feature.") w1 ∧
      w1.trace = w.trace ++ [Call.isEnabled feature] ∧
      (∀ name, Call.resolveTarget name ∉ w1.trace.drop w.trace.length) ∧
      w1.operationCache = w.operationCache := by
  refine ⟨{ w with ext := (d.IsEnabled w.ext feature).2,
                   trace := w.trace ++ [Call.isEnabled feature] }, ?_, rfl, ?_, rfl⟩
  · simp [GetServiceTarget, bind_run, hkey, hoff]
  · intro name
    simp

/-- C8, on the sample project: service `chat` is on the experimental host and the feature is
not enabled. -/
theorem getServiceTarget_alpha_disabled_witness :
    ∃ w1, GetServiceTarget (sampleDeps ⟨false, false⟩) 2 (sampleWorld "") =
        .err ("service host '" ++ ((sampleWorld "").configs 2).Host ++
          "' is currently in alpha and needs to be enabled explicitly. Run `" ++
          (sampleDeps ⟨false, false⟩).GetEnableCommand "ai.endpoint" ++
          "` to enable the feature.") w1 ∧
      w1.trace = (sampleWorld "").trace ++ [Call.isEnabled "ai.endpoint"] ∧
      (∀ name, Call.resolveTarget name ∉ w1.trace.drop (sampleWorld "").trace.length) ∧
      w1.operationCache = (sampleWorld "").operationCache :=
  getServiceTarget_alpha_disabled (sampleDeps ⟨false, false⟩) (sampleWorld "") 2 "ai.endpoint"
    (by decide) (by rfl)

/-- C9 (counterexample): the triples `("a:b", "c", "d")` and `("a", "b:c", "d")` differ and
have the same operation-cache key. -/
theorem cacheKey_collision :
    cacheKey "a:b" "c" "d" = cacheKey "a" "b:c" "d" ∧
      ¬ ("a:b" = "a" ∧ "c" = "b:c" ∧ "d" = "d") := by
  decide

/-- C9 (amended): the operation-cache key is injective on triples in which two of the three
components (the same two in both triples) contain no `:`; in particular for the stage names
used by the service manager and environment names without `:`. -/
theorem cacheKey_injective_of_colonFree (e1 s1 o1 e2 s2 o2 : String)
    (hfree : (colonFree e1 ∧ colonFree e2 ∧ colonFree s1 ∧ colonFree s2) ∨
      (colonFree e1 ∧ colonFree e2 ∧ colonFree o1 ∧ colonFree o2) ∨
      (colonFree s1 ∧ colonFree s2 ∧ colonFree o1 ∧ colonFree o2))
    (h : cacheKey e1 s1 o1 = cacheKey e2 s2 o2) : e1 = e2 ∧ s1 = s2 ∧ o1 = o2 := by
  have hd : e1.data ++ ':' :: (s1.data ++ ':' :: o1.data) =
      e2.data ++ ':' :: (s2.data ++ ':' :: o2.data) := by
    rw [← cacheKey_data, ← cacheKey_data, h]
  have hd2 : (e1.data ++ ':' :: s1.data) ++ ':' :: o1.data =
      (e2.data ++ ':' :: s2.data) ++ ':' :: o2.data := by
    simpa using hd
  unfold colonFree at hfree
  rcases hfree with ⟨he1, he2, hs1, hs2⟩ | ⟨he1, he2, ho1, ho2⟩ | ⟨hs1, hs2, ho1, ho2⟩
  · obtain ⟨ha, hb⟩ := append_cons_inj_left he1 he2 hd
    obtain ⟨hc, hdd⟩ := append_cons_inj_left hs1 hs2 hb
    exact ⟨String.ext ha, String.ext hc, String.ext hdd⟩
  · obtain ⟨ha, hb⟩ := append_cons_inj_left he1 he2 hd
    obtain ⟨hc, hdd⟩ := append_cons_inj_right ho1 ho2 hb
    exact ⟨String.ext ha, String.ext hc, String.ext hdd⟩
  · obtain ⟨ha, hb⟩ := append_cons_inj_right ho1 ho2 hd2
    obtain ⟨hc, hdd⟩ := append_cons_inj_right hs1 hs2 ha
    exact ⟨String.ext hc, String.ext hdd, String.ext hb⟩

/-- C9 (amended), at the deploy key of a service whose name contains `:`, in an environment
whose name does not. -/
theorem cacheKey_injective_of_colonFree_witness :
    (colonFree "dev" ∧ colonFree "dev" ∧ colonFree "deploy" ∧ colonFree "deploy") ∧
      cacheKey "dev" "a:b" "deploy" = cacheKey "dev" "a:b" "deploy" ∧
      ("dev" = "dev" ∧ "a:b" = "a:b" ∧ "deploy" = "deploy") :=
  ⟨by decide, rfl, cacheKey_injective_of_colonFree "dev" "a:b" "deploy" "dev" "a:b" "deploy"
    (Or.inr (Or.inl (by decide))) rfl⟩

set_option maxHeartbeats 4000000 in
/-- C10 (code bug): on the sample project, `Package` of service `web` with output path
`/dest/app.zip` when creating the destination file fails: the call returns the relocation
error, the cache held no package entry before the call, and it holds one after it; the next
call of `Package` returns that cached result without error and calls no collaborator. -/
theorem package_failed_relocation_leaves_cache_entry :
    (sampleWorld "").operationCache "dev:web:package" = none ∧
      (Package (sampleDeps ⟨false, true⟩) 0 none (some ⟨"/dest/app.zip"⟩)
        (sampleWorld "")).error? =
        some ("failed moving package file '/tmp/out.zip' to '/dest/app.zip': " ++
          "creating destination file: permission denied") ∧
      (Package (sampleDeps ⟨false, true⟩) 0 none (some ⟨"/dest/app.zip"⟩)
        (sampleWorld "")).world.operationCache (cacheKey "dev" "web" ServiceEventPackage) =
        some (.package (some 4)) ∧
      (Package (sampleDeps ⟨false, true⟩) 0 none (some ⟨"/dest/app.zip"⟩)
        (Package (sampleDeps ⟨false, true⟩) 0 none (some ⟨"/dest/app.zip"⟩)
          (sampleWorld "")).world).value? = some (some 4) ∧
      (Package (sampleDeps ⟨false, true⟩) 0 none (some ⟨"/dest/app.zip"⟩)
        (Package (sampleDeps ⟨false, true⟩) 0 none (some ⟨"/dest/app.zip"⟩)
          (sampleWorld "")).world).world.trace =
        (Package (sampleDeps ⟨false, true⟩) 0 none (some ⟨"/dest/app.zip"⟩)
          (sampleWorld "")).world.trace := by
  refine ⟨by rfl, by rfl, by rfl, by rfl, by rfl⟩

/-- C12: for a service on the managed container-app host, look at every call of
`Target.Deploy` that `Deploy` makes.  If the `CONTAINER_ENVIRONMENT_NAME` property of the
service is empty and the service is not self-provisioning, the resource name of the
destination passed is the last element of `strings.Split` of the
`AZURE_CONTAINER_APPS_ENVIRONMENT_ID` value at `/`: the whole value when it contains no `/`,
and what follows its last `/` otherwise.  If the property is not empty or the service is
self-provisioning, `Deploy` makes no `Getenv` call at all and the resource name is the
property value.  And `Deploy` does make that call: on a cache miss, when the target
resolves, the environment id is not empty where the name is derived from it, the resource
group name is obtained and the pre-deploy handlers succeed, `Target.Deploy` is called with
the package result and the destination made of the subscription, that resource group, the
resource name above and the container-app environment resource type. -/
theorem deploy_container_environment_name {σ : Type} (d : Deps σ) (sc : Ptr)
    (prev : Option Ptr) (w : World σ)
    (hhost : (w.configs sc).Host = d.DotNetContainerAppTarget) :
    ((w.env.GetServiceProperty (w.configs sc).Name "CONTAINER_ENVIRONMENT_NAME" = "" ∧
        (w.configs sc).DotNetContainerApp = none) →
      ∀ tgt sc1 pr tr, Call.targetDeploy tgt sc1 pr tr ∈
          (Deploy d sc prev w).world.trace.drop w.trace.length →
        ∃ t, tr = some t ∧
          t.resourceName = lastSegment (w.env.Getenv "AZURE_CONTAINER_APPS_ENVIRONMENT_ID")) ∧
    (¬ (w.env.GetServiceProperty (w.configs sc).Name "CONTAINER_ENVIRONMENT_NAME" = "" ∧
        (w.configs sc).DotNetContainerApp = none) →
      (∀ key, Call.getenv key ∉ (Deploy d sc prev w).world.trace.drop w.trace.length) ∧
      ∀ tgt sc1 pr tr, Call.targetDeploy tgt sc1 pr tr ∈
          (Deploy d sc prev w).world.trace.drop w.trace.length →
        ∃ t, tr = some t ∧ t.resourceName =
          w.env.GetServiceProperty (w.configs sc).Name "CONTAINER_ENVIRONMENT_NAME") ∧
    ('/' ∉ (w.env.Getenv "AZURE_CONTAINER_APPS_ENVIRONMENT_ID").data →
      lastSegment (w.env.Getenv "AZURE_CONTAINER_APPS_ENVIRONMENT_ID") =
        w.env.Getenv "AZURE_CONTAINER_APPS_ENVIRONMENT_ID") ∧
    (∀ pre t, (w.env.Getenv "AZURE_CONTAINER_APPS_ENVIRONMENT_ID").data = pre ++ '/' :: t →
      '/' ∉ t → lastSegment (w.env.Getenv "AZURE_CONTAINER_APPS_ENVIRONMENT_ID") = String.mk t) ∧
    (∀ pr tgt wa rg,
      usable (w.operationCache
        (cacheKey w.env.Name (w.configs sc).Name ServiceEventDeploy)) = none →
      fromCache sc ServiceEventPackage assertPackage prev w = .ok pr w →
      GetServiceTarget d sc w = .ok tgt wa →
      ((w.env.GetServiceProperty (w.configs sc).Name "CONTAINER_ENVIRONMENT_NAME" = "" ∧
          (w.configs sc).DotNetContainerApp = none) →
        w.env.Getenv "AZURE_CONTAINER_APPS_ENVIRONMENT_ID" ≠ "") →
      (d.GetResourceGroupName wa.ext w.env.GetSubscriptionId
        (if (w.configs sc).ResourceGroupName.Empty = true
          then (w.configs sc).Project.ResourceGroupName
          else (w.configs sc).ResourceGroupName)).1 = .ok rg →
      (d.raiseEvent (d.GetResourceGroupName wa.ext w.env.GetSubscriptionId
        (if (w.configs sc).ResourceGroupName.Empty = true
          then (w.configs sc).Project.ResourceGroupName
          else (w.configs sc).ResourceGroupName)).2 sc "predeploy").1 = .ok () →
      Call.targetDeploy tgt sc pr (some (TargetResource.mk w.env.GetSubscriptionId rg
          (if w.env.GetServiceProperty (w.configs sc).Name "CONTAINER_ENVIRONMENT_NAME" = "" ∧
              (w.configs sc).DotNetContainerApp = none
            then lastSegment (w.env.Getenv "AZURE_CONTAINER_APPS_ENVIRONMENT_ID")
            else w.env.GetServiceProperty (w.configs sc).Name "CONTAINER_ENVIRONMENT_NAME")
          d.AzureResourceTypeContainerAppEnvironment)) ∈
        (Deploy d sc prev w).world.trace.drop w.trace.length) := by
  refine ⟨fun hder => ?_, fun hver => ?_, lastSegment_of_no_slash _,
    fun pre t => lastSegment_after_slash _ pre t, ?_⟩
  rotate_left 2
  · intro pr tgt wa rg hmiss hfc hT hid hrg hpre
    have oa : OutsideOnly w wa := by
      have k := outside_GetServiceTarget d sc w
      rw [hT] at k
      exact k
    have henv : wa.env = w.env := oa.1
    have hcfg : wa.configs = w.configs := oa.2.2.2.1
    rw [← henv, ← hcfg] at hid hrg hpre ⊢
    obtain ⟨wb, hR, hext⟩ := targetResource_reached (by rw [hcfg]; exact hhost) hid hrg
    rw [← hext] at hpre
    exact Deploy_reaches_target hmiss hfc hT hR hpre
  · have k : Traced (fun c => ∀ tgt sc1 pr tr, c = Call.targetDeploy tgt sc1 pr tr →
        ∃ t, tr = some t ∧
          t.resourceName = lastSegment (w.env.Getenv "AZURE_CONTAINER_APPS_ENVIRONMENT_ID"))
        w (Deploy d sc prev w).world := by
      refine Deploy_traced ?_ ?_
      · intro c hc tgt sc1 pr tr he
        subst he
        rcases hc with ⟨n, h⟩ | ⟨f, h⟩ | ⟨m, h⟩ | ⟨a, b, h⟩ | ⟨a, b, h⟩ <;> cases h
      · intro wa oa
        have henv : wa.env = w.env := oa.1
        have hcfg : wa.configs = w.configs := oa.2.2.2.1
        have hs := @targetResource_dotnet σ (fun c => ∀ tgt sc1 pr tr,
          c = Call.targetDeploy tgt sc1 pr tr → ∃ t, tr = some t ∧
            t.resourceName = lastSegment (w.env.Getenv "AZURE_CONTAINER_APPS_ENVIRONMENT_ID"))
          d sc wa (by rw [hcfg]; exact hhost)
          (by
            intro c hc tgt sc1 pr tr he
            subst he
            rcases hc with ⟨a, b, h⟩ | ⟨a, b, h⟩ <;> cases h)
          (by
            intro _ tgt sc1 pr tr he
            cases he)
        rw [henv, hcfg] at hs
        refine ⟨hs.1, ?_⟩
        intro tr wb hb tgt pr tgt1 sc1 pr1 tr1 he
        injection he with e1 e2 e3 e4
        subst e4
        obtain ⟨t, ht, hn, -⟩ := hs.2 tr wb hb
        exact ⟨t, ht, by rw [hn, if_pos hder]⟩
    intro tgt sc1 pr tr hmem
    exact (Traced.drop_eq k).2 _ hmem tgt sc1 pr tr rfl
  · have k : Traced (fun c => (∀ key, c ≠ Call.getenv key) ∧
        ∀ tgt sc1 pr tr, c = Call.targetDeploy tgt sc1 pr tr →
          ∃ t, tr = some t ∧ t.resourceName =
            w.env.GetServiceProperty (w.configs sc).Name "CONTAINER_ENVIRONMENT_NAME")
        w (Deploy d sc prev w).world := by
      refine Deploy_traced ?_ ?_
      · intro c hc
        rcases hc with ⟨n, h⟩ | ⟨f, h⟩ | ⟨m, h⟩ | ⟨a, b, h⟩ | ⟨a, b, h⟩ <;> subst h <;>
          exact ⟨fun key he => (by cases he), fun tgt sc1 pr tr he => (by cases he)⟩
      · intro wa oa
        have henv : wa.env = w.env := oa.1
        have hcfg : wa.configs = w.configs := oa.2.2.2.1
        have hs := @targetResource_dotnet σ (fun c => (∀ key, c ≠ Call.getenv key) ∧
          ∀ tgt sc1 pr tr, c = Call.targetDeploy tgt sc1 pr tr →
            ∃ t, tr = some t ∧ t.resourceName =
              w.env.GetServiceProperty (w.configs sc).Name "CONTAINER_ENVIRONMENT_NAME")
          d sc wa (by rw [hcfg]; exact hhost)
          (by
            intro c hc
            rcases hc with ⟨a, b, h⟩ | ⟨a, b, h⟩ <;> subst h <;>
              exact ⟨fun key he => (by cases he), fun tgt sc1 pr tr he => (by cases he)⟩)
          (by
            intro hh
            rw [henv, hcfg] at hh
            exact absurd hh hver)
        rw [henv, hcfg] at hs
        refine ⟨hs.1, ?_⟩
        intro tr wb hb tgt pr
        refine ⟨fun key he => (by cases he), ?_⟩
        intro tgt1 sc1 pr1 tr1 he
        injection he with e1 e2 e3 e4
        subst e4
        obtain ⟨t, ht, hn, -⟩ := hs.2 tr wb hb
        exact ⟨t, ht, by rw [hn, if_neg hver]⟩
    refine ⟨fun key hmem => ((Traced.drop_eq k).2 _ hmem).1 key rfl, ?_⟩
    intro tgt sc1 pr tr hmem
    exact ((Traced.drop_eq k).2 _ hmem).2 tgt sc1 pr tr rfl

set_option maxHeartbeats 4000000 in
/-- C12, on the sample project: with `AZURE_CONTAINER_APPS_ENVIRONMENT_ID` set to a resource
id ending in `/managedEnvironments/cae-dev` and no per-service property, `Deploy` calls
`Target.Deploy` with the destination whose resource name is `cae-dev`, the last segment of
the id, and every `Target.Deploy` call it makes carries that resource name. -/
theorem deploy_container_environment_name_witness :
    Call.targetDeploy 9 0 none (some (sampleDotnetDestination "cae-dev")) ∈
        (Deploy sampleDotnetDeps 0 none (sampleDotnetWorld ""
          "/subscriptions/s1/resourceGroups/rg-dev/providers/Microsoft.App/managedEnvironments/cae-dev"
          false)).world.trace.drop (sampleDotnetWorld ""
          "/subscriptions/s1/resourceGroups/rg-dev/providers/Microsoft.App/managedEnvironments/cae-dev"
          false).trace.length ∧
      ∀ tgt sc1 pr tr, Call.targetDeploy tgt sc1 pr tr ∈
          (Deploy sampleDotnetDeps 0 none (sampleDotnetWorld ""
            "/subscriptions/s1/resourceGroups/rg-dev/providers/Microsoft.App/managedEnvironments/cae-dev"
            false)).world.trace.drop (sampleDotnetWorld ""
            "/subscriptions/s1/resourceGroups/rg-dev/providers/Microsoft.App/managedEnvironments/cae-dev"
            false).trace.length →
        ∃ t, tr = some t ∧ t.resourceName = "cae-dev" := by
  have h := deploy_container_environment_name sampleDotnetDeps 0 none
    (sampleDotnetWorld ""
      "/subscriptions/s1/resourceGroups/rg-dev/providers/Microsoft.App/managedEnvironments/cae-dev"
      false) (by rfl)
  refine ⟨h.2.2.2.2 none 9
    (GetServiceTarget sampleDotnetDeps 0 (sampleDotnetWorld ""
      "/subscriptions/s1/resourceGroups/rg-dev/providers/Microsoft.App/managedEnvironments/cae-dev"
      false)).world "rg-dev" (by rfl) (by rfl) (by rfl) (fun _ => by decide) (by rfl) (by rfl), ?_⟩
  intro tgt sc1 pr tr hmem
  obtain ⟨t, ht, hn⟩ := h.1 (by decide) tgt sc1 pr tr hmem
  exact ⟨t, ht, hn.trans (by decide)⟩

set_option maxHeartbeats 4000000 in
/-- C13 (counterexample): on the sample project, for the service on the managed
container-app host with no per-service property, not self-provisioning, and
`AZURE_CONTAINER_APPS_ENVIRONMENT_ID` set to `envs/cae-dev/`, no non-empty name can be
derived (the last segment is empty), yet `Deploy` succeeds and calls `Target.Deploy` with a
destination whose resource name is the empty string. -/
theorem deploy_empty_environment_name_reaches_target :
    lastSegment "envs/cae-dev/" = "" ∧
      (Deploy sampleDotnetDeps 0 none (sampleDotnetWorld "" "envs/cae-dev/" false)).value? =
        some (some 1) ∧
      Call.targetDeploy 9 0 none (some (sampleDotnetDestination "")) ∈
        (Deploy sampleDotnetDeps 0 none (sampleDotnetWorld "" "envs/cae-dev/" false)).world.trace := by
  refine ⟨by decide, by rfl, by decide⟩

/-- C13 (amended): for a service on the managed container-app host with an empty
`CONTAINER_ENVIRONMENT_NAME` property that is not self-provisioning: if the
`AZURE_CONTAINER_APPS_ENVIRONMENT_ID` value is empty, `Deploy` never calls `Target.Deploy`,
and on a cache miss, once the target is resolved, it returns the descriptive error naming
the service, having only read the property and the variable; whenever `Target.Deploy` is
called, the value is not empty, the resource name of the destination is its last segment,
and that name is not empty unless the value ends in `/`. -/
theorem deploy_container_environment_missing {σ : Type} (d : Deps σ) (sc : Ptr)
    (prev : Option Ptr) (w : World σ)
    (hhost : (w.configs sc).Host = d.DotNetContainerAppTarget)
    (hder : w.env.GetServiceProperty (w.configs sc).Name "CONTAINER_ENVIRONMENT_NAME" = "" ∧
      (w.configs sc).DotNetContainerApp = none) :
    (∀ tgt sc1 pr tr, Call.targetDeploy tgt sc1 pr tr ∈
        (Deploy d sc prev w).world.trace.drop w.trace.length →
      w.env.Getenv "AZURE_CONTAINER_APPS_ENVIRONMENT_ID" ≠ "" ∧
      ∃ t, tr = some t ∧
        t.resourceName = lastSegment (w.env.Getenv "AZURE_CONTAINER_APPS_ENVIRONMENT_ID") ∧
        ((w.env.Getenv "AZURE_CONTAINER_APPS_ENVIRONMENT_ID").data.getLast? ≠ some '/' →
          t.resourceName ≠ "")) ∧
    (w.env.Getenv "AZURE_CONTAINER_APPS_ENVIRONMENT_ID" = "" →
      ∀ pr tgt wa,
        usable (w.operationCache
          (cacheKey w.env.Name (w.configs sc).Name ServiceEventDeploy)) = none →
        fromCache sc ServiceEventPackage assertPackage prev w = .ok pr w →
        GetServiceTarget d sc w = .ok tgt wa →
        Deploy d sc prev w =
          .err ("could not determine container app environment for service " ++
              (w.configs sc).Name ++
              ", have you set AZURE_CONTAINER_ENVIRONMENT_NAME or SERVICE_" ++
              d.ToUpper (w.configs sc).Name ++
              "_CONTAINER_ENVIRONMENT_NAME as an output of your infrastructure?")
            { wa with trace := wa.trace ++
              [Call.getServiceProperty (w.configs sc).Name "CONTAINER_ENVIRONMENT_NAME",
                Call.getenv "AZURE_CONTAINER_APPS_ENVIRONMENT_ID"] }) := by
  refine ⟨?_, ?_⟩
  · have k : Traced (fun c => ∀ tgt sc1 pr tr, c = Call.targetDeploy tgt sc1 pr tr →
        w.env.Getenv "AZURE_CONTAINER_APPS_ENVIRONMENT_ID" ≠ "" ∧
        ∃ t, tr = some t ∧
          t.resourceName = lastSegment (w.env.Getenv "AZURE_CONTAINER_APPS_ENVIRONMENT_ID"))
        w (Deploy d sc prev w).world := by
      refine Deploy_traced ?_ ?_
      · intro c hc tgt sc1 pr tr he
        subst he
        rcases hc with ⟨n, h⟩ | ⟨f, h⟩ | ⟨m, h⟩ | ⟨a, b, h⟩ | ⟨a, b, h⟩ <;> cases h
      · intro wa oa
        have henv : wa.env = w.env := oa.1
        have hcfg : wa.configs = w.configs := oa.2.2.2.1
        have hs := @targetResource_dotnet σ (fun c => ∀ tgt sc1 pr tr,
          c = Call.targetDeploy tgt sc1 pr tr →
            w.env.Getenv "AZURE_CONTAINER_APPS_ENVIRONMENT_ID" ≠ "" ∧
            ∃ t, tr = some t ∧
              t.resourceName = lastSegment (w.env.Getenv "AZURE_CONTAINER_APPS_ENVIRONMENT_ID"))
          d sc wa (by rw [hcfg]; exact hhost)
          (by
            intro c hc tgt sc1 pr tr he
            subst he
            rcases hc with ⟨a, b, h⟩ | ⟨a, b, h⟩ <;> cases h)
          (by
            intro _ tgt sc1 pr tr he
            cases he)
        rw [henv, hcfg] at hs
        refine ⟨hs.1, ?_⟩
        intro tr wb hb tgt pr tgt1 sc1 pr1 tr1 he
        injection he with e1 e2 e3 e4
        subst e4
        obtain ⟨t, ht, hn, hid⟩ := hs.2 tr wb hb
        exact ⟨hid hder, t, ht, by rw [hn, if_pos hder]⟩
    intro tgt sc1 pr tr hmem
    obtain ⟨hid, t, ht, hn⟩ := (Traced.drop_eq k).2 _ hmem tgt sc1 pr tr rfl
    refine ⟨hid, t, ht, hn, ?_⟩
    intro hlast hempty
    rw [hn] at hempty
    rcases lastSegment_eq_empty _ hempty with h1 | h1
    · exact hid h1
    · exact hlast h1
  · intro hid pr tgt wa hmiss hfc htg
    have oa := outside_GetServiceTarget d sc w
    rw [htg] at oa
    have henv : wa.env = w.env := oa.1
    have hcfg : wa.configs = w.configs := oa.2.2.2.1
    have hm := @targetResource_missing σ d sc wa (by rw [hcfg]; exact hhost)
      (by rw [henv, hcfg]; exact hder) (by rw [henv]; exact hid)
    rw [hcfg] at hm
    unfold Deploy
    rw [cachedOr_of_miss hmiss]
    simp only [bind_eq, pure_eq]
    rw [bind_of_ok hfc, bind_of_ok (wrapErr_of_ok htg), bind_of_err hm, hcfg]

set_option maxHeartbeats 4000000 in
/-- C13 (amended), on the sample project: with `AZURE_CONTAINER_APPS_ENVIRONMENT_ID` unset,
`Deploy` of the service on the managed container-app host returns the descriptive error. -/
theorem deploy_container_environment_missing_witness :
    (Deploy sampleDotnetDeps 0 none (sampleDotnetWorld "" "" false)).error? =
      some ("could not determine container app environment for service " ++
        ((sampleDotnetWorld "" "" false).configs 0).Name ++
        ", have you set AZURE_CONTAINER_ENVIRONMENT_NAME or SERVICE_" ++
        sampleDotnetDeps.ToUpper ((sampleDotnetWorld "" "" false).configs 0).Name ++
        "_CONTAINER_ENVIRONMENT_NAME as an output of your infrastructure?") :=
  congrArg Res.error?
    ((deploy_container_environment_missing sampleDotnetDeps 0 none
      (sampleDotnetWorld "" "" false) (by rfl) (by decide)).2 (by rfl) none 9
      (GetServiceTarget sampleDotnetDeps 0 (sampleDotnetWorld "" "" false)).world
      (by rfl) (by rfl) (by rfl))

/-- C14 (counterexample): for the sample service `img`, which declares no language and a
pre-built image, `GetFrameworkService` succeeds and the `Language` field of the service
configuration, empty before the call, is `docker` after it. -/
theorem getFrameworkService_changes_language :
    (sampleImageWorld.configs 0).Language = "" ∧
      (GetFrameworkService (sampleDeps ⟨false, false⟩) 0 sampleImageWorld).value? = some 2 ∧
      ((GetFrameworkService (sampleDeps ⟨false, false⟩) 0 sampleImageWorld).world.configs
        0).Language = "docker" := by
  refine ⟨by rfl, by rfl, by rfl⟩

/-- C14 (amended): whether `GetFrameworkService` succeeds or fails, the only change it makes
to the service configurations is the assignment of lines 538 to 540: every field other than
`Language` of every configuration is as before, the configurations of other services are as
before, and the `Language` of the service is as before unless it was none with an image
declared, in which case it is docker. -/
theorem getFrameworkService_config_frame {σ : Type} (d : Deps σ) (sc : Ptr) (w : World σ) :
    (∀ sc1, ((GetFrameworkService d sc w).world.configs sc1).Name = (w.configs sc1).Name ∧
      ((GetFrameworkService d sc w).world.configs sc1).Host = (w.configs sc1).Host ∧
      ((GetFrameworkService d sc w).world.configs sc1).Image = (w.configs sc1).Image ∧
      ((GetFrameworkService d sc w).world.configs sc1).Path = (w.configs sc1).Path ∧
      ((GetFrameworkService d sc w).world.configs sc1).ResourceGroupName =
        (w.configs sc1).ResourceGroupName ∧
      ((GetFrameworkService d sc w).world.configs sc1).Project = (w.configs sc1).Project ∧
      ((GetFrameworkService d sc w).world.configs sc1).DotNetContainerApp =
        (w.configs sc1).DotNetContainerApp) ∧
    (∀ sc1, sc1 ≠ sc → (GetFrameworkService d sc w).world.configs sc1 = w.configs sc1) ∧
    ((GetFrameworkService d sc w).world.configs sc).Language =
      (if (w.configs sc).Language = d.ServiceLanguageNone ∧ (w.configs sc).Image.Empty = false
        then d.ServiceLanguageDocker else (w.configs sc).Language) := by
  rw [GetFrameworkService_configs]
  unfold configsAfterResolution
  refine ⟨fun sc1 => ?_, fun sc1 hne => ?_, ?_⟩
  · split
    · by_cases h : sc1 = sc
      · subst h
        simp
      · simp [Function.update_noteq h]
    · exact ⟨rfl, rfl, rfl, rfl, rfl, rfl, rfl⟩
  · split
    · simp [Function.update_noteq hne]
    · rfl
  · split
    · simp
    · rfl

set_option maxHeartbeats 4000000 in
/-- C15 (counterexample): on the sample project the framework says packaging requires a
restore and its `Restore` returns a non-nil result.  `Package` is called on a cache miss with
the build output at address 0, whose restore back-reference is nil.  `Package` invokes the
`Restore` stage, which calls `Framework.Restore` and caches the non-nil result at address 2,
and then passes the build output at address 0 to `Framework.Package` with its restore
back-reference still nil. -/
theorem package_supplied_build_output_keeps_nil_restore :
    (sampleWorld "").operationCache "dev:web:package" = none ∧
      ((sampleWorld "").builds 0).Restore = none ∧
      (Package.requirementsAt (sampleDeps ⟨false, false⟩) 1 (sampleWorld "")).RequireRestore
        = true ∧
      (Package (sampleDeps ⟨false, false⟩) 0 (some 0) none (sampleWorld "")).world.trace =
        [.resolveFramework "python", .resolveTarget "appservice", .frameworkRequirements 1,
          .resolveFramework "python", .raiseEvent 0 "prerestore", .frameworkRestore 1 0,
          .raiseEvent 0 "postrestore", .raiseEvent 0 "prepackage",
          .frameworkPackage 1 0 (some 0), .targetPackage 6 0 (some 0),
          .raiseEvent 0 "postpackage", .osStat "/tmp/out.zip"] ∧
      (Package (sampleDeps ⟨false, false⟩) 0 (some 0) none
        (sampleWorld "")).world.operationCache (cacheKey "dev" "web" ServiceEventRestore) =
        some (.restore (some 2)) ∧
      ((Package (sampleDeps ⟨false, false⟩) 0 (some 0) none
        (sampleWorld "")).world.builds 0).Restore = none := by
  refine ⟨by rfl, by rfl, by rfl, by rfl, by rfl, by rfl⟩

/-- C15 (amended): on a `Package` cache miss for which the framework says packaging requires a
restore, let `avail` be the available build output.  If there is none and the `Restore`
stage that `Package` invokes returns the non-nil result `r`, or if there is one, allocated
before the call, that already carries the restore back-reference `r`, then every call of
`Framework.Package` that `Package` makes receives a build output whose restore
back-reference is `r`. -/
theorem package_build_output_carries_restore {σ : Type} (d : Deps σ) (sc : Ptr)
    (prev : Option Ptr) (options : Option PackageOptions) (w wa wb : World σ)
    (avail : Option Ptr) (fw tgt : Nat) (r : Ptr)
    (hmiss : usable (w.operationCache
      (cacheKey w.env.Name (w.configs sc).Name ServiceEventPackage)) = none)
    (havail : fromCache sc ServiceEventBuild assertBuild prev w = .ok avail w)
    (hfw : GetFrameworkService d sc w = .ok fw wa)
    (htg : GetServiceTarget d sc wa = .ok tgt wb)
    (hreq : (Package.requirementsAt d fw wb).RequireRestore = true)
    (hcase : (avail = none ∧
        ∃ wR, Restore d sc (Package.stateAfterRequirements d fw wb) = .ok (some r) wR) ∨
      (∃ b0, avail = some b0 ∧ b0 < w.nextPtr ∧ (w.builds b0).Restore = some r)) :
    ∀ f s x, Call.frameworkPackage f s x ∈
        (Package d sc prev options w).world.trace.drop w.trace.length →
      ∃ b, x = some b ∧ ((Package d sc prev options w).world.builds b).Restore = some r := by
  have key : ∀ res, Package d sc prev options w = res →
      Traced (fun c => ∀ f s x, c = Call.frameworkPackage f s x →
        ∃ b, x = some b ∧ (res.world.builds b).Restore = some r) w res.world := by
    intro res hres
    rw [Package_steps hmiss havail hfw htg] at hres
    have hT : ∀ {x y z : World σ},
        Traced (fun c => ∀ f s x, c = Call.frameworkPackage f s x →
          ∃ b, x = some b ∧ (res.world.builds b).Restore = some r) x y →
        Traced (fun c => ∀ f s x, c = Call.frameworkPackage f s x →
          ∃ b, x = some b ∧ (res.world.builds b).Restore = some r) y z →
        Traced (fun c => ∀ f s x, c = Call.frameworkPackage f s x →
          ∃ b, x = some b ∧ (res.world.builds b).Restore = some r) x z :=
      fun h1 h2 => (traced_pre _).trans h1 h2
    have hpre : Traced (fun c => ∀ f s x, c = Call.frameworkPackage f s x →
        ∃ b, x = some b ∧ (res.world.builds b).Restore = some r) w
        (Package.stateAfterRequirements d fw wb) := by
      refine Package_prefix_traced (fun c hc f s x h => ?_) hfw htg
      subst h
      rcases hc with hc | ⟨_, hc⟩ | ⟨_, hc⟩ | ⟨_, hc⟩
      · exact hc.elim
      · cases hc
      · cases hc
      · cases hc
    have htail : ∀ (b : Ptr) (wB : World σ), (wB.builds b).Restore = some r →
        M.bind (Package.packageEvent d sc fw tgt (some b))
          (fun pr => Package.relocate d pr (options.getD { OutputPath := "" })) wB = res →
        Traced (fun c => ∀ f s x, c = Call.frameworkPackage f s x →
          ∃ b, x = some b ∧ (res.world.builds b).Restore = some r) wB res.world := by
      intro b wB hb hrun
      have kt := calm_packaging
        (buildsKept_calm (fun c => ∀ f s x, c = Call.frameworkPackage f s x → x = some b))
        d sc fw tgt (some b) (options.getD { OutputPath := "" })
        (fun f s x h => by cases h) (fun f s x h => by cases h)
        (fun f s x h => by cases h; rfl) (fun fp f s x h => by cases h)
        (fun c hc f s x h => by subst h; cases hc) wB
      rw [hrun] at kt
      refine Traced.mono (fun c hc f s x h => ⟨b, hc f s x h, ?_⟩) kt.2
      rw [kt.1]
      exact hb
    rcases hcase with ⟨hnone, wR, hR⟩ | ⟨b0, hsome, hlt, hr0⟩
    · subst hnone
      have hrs : Package.restoreStep d sc none (Package.requirementsAt d fw wb) wb.nextPtr
          (Package.stateAfterRequirements d fw wb) = .ok (some r) wR := by
        rw [restoreStep_of_required ⟨hreq, Or.inl rfl⟩, hR]
      rw [bind_of_ok hrs] at hres
      have hrestore := keeps_Restore
        (traced_loose (fun c => ∀ f s x, c = Call.frameworkPackage f s x →
          ∃ b, x = some b ∧ (res.world.builds b).Restore = some r))
        (fun c hc f s x h => by subst h; exact hc.elim) d sc
        (Package.stateAfterRequirements d fw wb)
      rw [hR] at hrestore
      have hbuild := keeps_buildStep
        (traced_loose (fun c => ∀ f s x, c = Call.frameworkPackage f s x →
          ∃ b, x = some b ∧ (res.world.builds b).Restore = some r))
        (fun c hc f s x h => by subst h; exact hc.elim) d sc none
        (Package.requirementsAt d fw wb).RequireBuild (some r) wR
      refine hT hpre (hT hrestore ?_)
      cases hb : Package.buildStep d sc none (Package.requirementsAt d fw wb).RequireBuild
          (some r) wR with
      | ok bo wB =>
        rw [hb] at hbuild
        rw [bind_of_ok hb] at hres
        obtain ⟨b, hbo, hbR⟩ := buildStep_none_ok hb
        subst hbo
        exact hT hbuild (htail b wB hbR hres)
      | err e wB =>
        rw [hb] at hbuild
        rw [bind_of_err hb] at hres
        subst hres
        exact hbuild
      | panic wB =>
        rw [hb] at hbuild
        rw [bind_of_panic hb] at hres
        subst hres
        exact hbuild
    · subst hsome
      have h1 : wa.builds = w.builds ∧ wa.nextPtr = w.nextPtr := by
        have h := GetFrameworkService_heap d sc w
        rw [hfw] at h
        exact h
      have h2 : OutsideOnly wa wb := by
        have h := outside_GetServiceTarget d sc wa
        rw [htg] at h
        exact h
      have hbuilds : (Package.stateAfterRequirements d fw wb).builds = w.builds :=
        h2.2.2.2.2.1.trans h1.1
      have hnext : (Package.stateAfterRequirements d fw wb).nextPtr = w.nextPtr + 1 := by
        show wb.nextPtr + 1 = w.nextPtr + 1
        rw [h2.2.2.2.2.2.2.2, h1.2]
      have hnot : ¬ restoreRequired (Package.requirementsAt d fw wb) (some b0)
          (Package.stateAfterRequirements d fw wb).builds := by
        rintro ⟨-, h | ⟨b, hb, hn⟩⟩
        · cases h
        · cases hb
          rw [hbuilds, hr0] at hn
          cases hn
      rw [bind_of_ok (restoreStep_of_not_required hnot),
        bind_of_ok (buildStep_of_some d sc b0 _ _ _)] at hres
      refine hT hpre (hT (Traced.of_trace_eq rfl)
        (htail b0 (Package.stateBeforeBuild (Package.stateAfterRequirements d fw wb)) ?_ hres))
      show (Function.update (Package.stateAfterRequirements d fw wb).builds
        (Package.stateAfterRequirements d fw wb).nextPtr _ b0).Restore = some r
      rw [Function.update_noteq (by rw [hnext]; exact Nat.ne_of_lt (Nat.lt_succ_of_lt hlt)),
        hbuilds]
      exact hr0
  intro f s x hx
  exact (key _ rfl).drop_eq.2 _ hx f s x rfl

set_option maxHeartbeats 4000000 in
theorem package_build_output_carries_restore_witness :
    Call.frameworkPackage 1 0 (some 3) ∈
        (Package (sampleDeps ⟨false, false⟩) 0 none none (sampleWorld "")).world.trace.drop
          (sampleWorld "").trace.length ∧
      ∀ f s x, Call.frameworkPackage f s x ∈
          (Package (sampleDeps ⟨false, false⟩) 0 none none (sampleWorld "")).world.trace.drop
            (sampleWorld "").trace.length →
        ∃ b, x = some b ∧ ((Package (sampleDeps ⟨false, false⟩) 0 none none
          (sampleWorld "")).world.builds b).Restore = some 2 :=
  ⟨by decide, package_build_output_carries_restore (sampleDeps ⟨false, false⟩) 0 none none (sampleWorld "")
    (GetFrameworkService (sampleDeps ⟨false, false⟩) 0 (sampleWorld "")).world
    (GetServiceTarget (sampleDeps ⟨false, false⟩) 0
      (GetFrameworkService (sampleDeps ⟨false, false⟩) 0 (sampleWorld "")).world).world
    none 1 6 2 (by rfl) (by rfl) (by rfl) (by rfl) (by rfl)
    (Or.inl ⟨rfl, _, by rfl⟩)⟩

/-- C11: on a `Package` cache miss, let `avail` be the available build output (the one
supplied or, if none, the non-nil cached build result), and let the framework and the target
be resolved.  After the requirements call, the calls `Package` makes split into three
consecutive segments: calls of the `Restore` stage, calls of the `Build` stage, and the calls
of the package event and the relocation, so that every `Framework.Restore` call precedes
every `Framework.Build` call and both precede `Framework.Package` and `Target.Package`.  When
a restore is required and no restore output is available, the first segment is the run of
the `Restore` stage, and an error of that stage is returned by `Package` with nothing called
after it; otherwise the first segment is empty.  When a build is required and there is no
available build output, the second segment is the run of the `Build` stage on the restore
result, and an error of that stage is returned by `Package` with nothing called after it;
otherwise the second segment is empty. -/
theorem package_invokes_predecessor_stages {σ : Type} (d : Deps σ) (sc : Ptr)
    (prev : Option Ptr) (options : Option PackageOptions) (w wa wb : World σ)
    (avail : Option Ptr) (fw tgt : Nat)
    (hmiss : usable (w.operationCache
      (cacheKey w.env.Name (w.configs sc).Name ServiceEventPackage)) = none)
    (havail : fromCache sc ServiceEventBuild assertBuild prev w = .ok avail w)
    (hfw : GetFrameworkService d sc w = .ok fw wa)
    (htg : GetServiceTarget d sc wa = .ok tgt wb) :
    ∃ tR tB tP : List Call,
      (Package d sc prev options w).world.trace =
        (Package.stateAfterRequirements d fw wb).trace ++ (tR ++ (tB ++ tP)) ∧
      (∀ c ∈ tR, restoreStageCall c) ∧ (∀ c ∈ tB, buildStageCall c) ∧
      (∀ c ∈ tP, packagingCall c) ∧
      (restoreRequired (Package.requirementsAt d fw wb) avail
          (Package.stateAfterRequirements d fw wb).builds →
        (Package.stateAfterRequirements d fw wb).trace ++ tR =
          (Restore d sc (Package.stateAfterRequirements d fw wb)).world.trace ∧
        ∀ e wR, Restore d sc (Package.stateAfterRequirements d fw wb) = .err e wR →
          Package d sc prev options w = .err e wR ∧ tB = [] ∧ tP = []) ∧
      (¬ restoreRequired (Package.requirementsAt d fw wb) avail
          (Package.stateAfterRequirements d fw wb).builds → tR = []) ∧
      (buildRequired (Package.requirementsAt d fw wb) avail →
        ∀ rr wR, restoreStepYields d sc (Package.requirementsAt d fw wb) avail wb.nextPtr
            (Package.stateAfterRequirements d fw wb) rr wR →
          wR.trace ++ tB = (Build d sc rr (Package.stateBeforeBuild wR)).world.trace ∧
          ∀ e wB, Build d sc rr (Package.stateBeforeBuild wR) = .err e wB →
            Package d sc prev options w = .err e wB ∧ tP = []) ∧
      (¬ buildRequired (Package.requirementsAt d fw wb) avail → tB = []) := by
  rw [Package_steps hmiss havail hfw htg]
  have k1 : Keeps (Traced restoreStageCall)
      (Package.restoreStep d sc avail (Package.requirementsAt d fw wb) wb.nextPtr) :=
    keeps_restoreStep (traced_loose _) (fun _ hc => hc) d sc avail _ _
  have k2 : ∀ rr, Keeps (Traced buildStageCall)
      (Package.buildStep d sc avail (Package.requirementsAt d fw wb).RequireBuild rr) :=
    fun rr => keeps_buildStep (traced_loose _) (fun _ hc => hc) d sc avail _ rr
  have k3 : ∀ bo, Keeps (Traced packagingCall)
      (M.bind (Package.packageEvent d sc fw tgt bo)
        (fun pr => Package.relocate d pr (options.getD { OutputPath := "" }))) :=
    fun bo w1 => (calm_packaging (buildsKept_calm packagingCall) d sc fw tgt bo
      (options.getD { OutputPath := "" }) (Or.inl rfl) (Or.inr rfl) trivial
      (fun _ => trivial)
      (fun c hc => by cases c <;> simp [Call.kind] at hc <;> trivial) w1).2
  obtain ⟨tR, tB, tP, e, pR, pB, pP, eR, eB, n1, n2⟩ :=
    three_phase k1 k2 k3 (Package.stateAfterRequirements d fw wb)
  refine ⟨tR, tB, tP, e, pR, pB, pP, ?_, ?_, ?_, ?_⟩
  · intro hreq
    have hrs := @restoreStep_of_required σ d sc avail (Package.requirementsAt d fw wb)
      wb.nextPtr (Package.stateAfterRequirements d fw wb) hreq
    refine ⟨by rw [eR, hrs], fun e1 wR hE => ?_⟩
    have hrs1 := hrs.trans hE
    exact ⟨bind_of_err hrs1, n1 (fun a w1 h => by rw [hrs1] at h; cases h)⟩
  · intro hreq
    have hrs := @restoreStep_of_not_required σ d sc avail (Package.requirementsAt d fw wb)
      wb.nextPtr (Package.stateAfterRequirements d fw wb) hreq
    rw [hrs] at eR
    simpa [Res.world] using eR
  · intro hb rr wR hy
    have hrs : Package.restoreStep d sc avail (Package.requirementsAt d fw wb) wb.nextPtr
        (Package.stateAfterRequirements d fw wb) = .ok rr wR := by
      rcases hy with ⟨hq, hR⟩ | ⟨hq, h1, h2⟩
      · rw [restoreStep_of_required hq, hR]
      · rw [restoreStep_of_not_required hq, h1, h2]
    have hbs := @buildStep_of_required σ d sc avail (Package.requirementsAt d fw wb) rr wR hb
    refine ⟨by rw [eB rr wR hrs, hbs.1], fun e1 wB hE => ⟨?_, ?_⟩⟩
    · rw [bind_of_ok hrs, bind_of_err (hbs.2 e1 wB hE)]
    · exact n2 rr wR hrs (fun b w2 h => by rw [hbs.2 e1 wB hE] at h; cases h)
  · intro hb
    cases hx : Package.restoreStep d sc avail (Package.requirementsAt d fw wb) wb.nextPtr
        (Package.stateAfterRequirements d fw wb) with
    | ok rr wR =>
      have h1 := eB rr wR hx
      rw [@buildStep_of_not_required σ d sc avail (Package.requirementsAt d fw wb) rr wR hb]
        at h1
      simpa [Res.world] using h1
    | err e1 wR => exact (n1 (fun a w1 h => by rw [hx] at h; cases h)).1
    | panic wR => exact (n1 (fun a w1 h => by rw [hx] at h; cases h)).1

set_option maxHeartbeats 4000000 in
theorem package_invokes_predecessor_stages_witness :
    ∃ tR tP : List Call,
      (Package (sampleDeps ⟨false, false⟩) 0 none none (sampleWorld "")).world.trace =
        [.resolveFramework "python", .resolveTarget "appservice", .frameworkRequirements 1] ++
          (tR ++ tP) ∧
      (∀ c ∈ tR, restoreStageCall c) ∧ (∀ c ∈ tP, packagingCall c) ∧
      [.resolveFramework "python", .resolveTarget "appservice", .frameworkRequirements 1] ++ tR =
        [.resolveFramework "python", .resolveTarget "appservice", .frameworkRequirements 1,
          .resolveFramework "python", .raiseEvent 0 "prerestore", .frameworkRestore 1 0,
          .raiseEvent 0 "postrestore"] := by
  obtain ⟨tR, tB, tP, h1, h2, -, h4, h5, -, -, h8⟩ :=
    package_invokes_predecessor_stages (sampleDeps ⟨false, false⟩) 0 none none (sampleWorld "")
      (GetFrameworkService (sampleDeps ⟨false, false⟩) 0 (sampleWorld "")).world
      (GetServiceTarget (sampleDeps ⟨false, false⟩) 0
        (GetFrameworkService (sampleDeps ⟨false, false⟩) 0 (sampleWorld "")).world).world
      none 1 6 (by rfl) (by rfl) (by rfl) (by rfl)
  have hB : tB = [] := h8 (fun h => absurd h.1 (by decide))
  subst hB
  have h6 := (h5 ⟨by rfl, Or.inl rfl⟩).1
  exact ⟨tR, tP, h1.trans (by simp; rfl), h2, h4, h6.trans (by rfl)⟩

end ServiceManager
